import Mathlib

/-!
JudgeBackend: the verdict / argument reconsideration workflow.

A shallow embedding of `src/controllers/judgeController.js` (with the schema of
`src/models/Case.js` and `createCase` of `src/controllers/caseController.js`) and of the
JavaScript built-ins it relies on (`String.prototype.trim`, the two fence-stripping `replace`
calls, `JSON.parse`, `Number`, `isNaN`, `||`, property reads and writes, template literals).

Conventions of the embedding

* A JavaScript string is its sequence of UTF-16 code units (`JSString := List Nat`).
* A JavaScript number is `JSNum`: `NaN`, the two infinities, or a finite double, which is
  carried as the exact rational it denotes (`+0` and `-0` are identified; nothing in the
  embedded code distinguishes them).  Decimal literals are rounded to the nearest double,
  ties to even.
* An abrupt completion (a `throw`) is `Except.error`; `try … catch` is `tryCatch`.
* The controllers are functions of the stored case, the request, the answer of the external
  model and the clock; they return the HTTP response together with the sequence of documents
  handed to `save()` and the prompts handed to `callLLM`.

Boundaries of the embedding

* `findById` is taken to succeed and `populate` to resolve `lawyerA`.  The schema of
  `src/models/Case.js` types `aiVerdict.verdict`, `aiVerdict.reasoning` and `counter` as
  `String` and `aiVerdict.confidence` as `Number`: a value assigned to such a path is cast
  (`castString`, `castNumber`), and a value that cannot be cast makes the next `save()` reject
  with a `ValidationError`, which the controller's outer `catch` reports.  Apart from that
  `save()` is taken to succeed.
* The model answers with a string, `undefined` or `null`; the request's `text` is a string;
  `documentSummaries` is an array of objects; the argument counts are natural numbers.
* Runs follow one another: two requests are never interleaved.
-/

set_option maxRecDepth 100000

namespace JudgeBackend

/-! ## Strings -/

/-- A JavaScript string: its UTF-16 code units. -/
abbrev JSString := List Nat

/-- UTF-16 code units of one Unicode scalar value. -/
def utf16Char (c : Char) : List Nat :=
  if c.toNat < 0x10000 then [c.toNat]
  else [0xD800 + (c.toNat - 0x10000) / 0x400, 0xDC00 + (c.toNat - 0x10000) % 0x400]

/-- The JavaScript string written by a Lean string literal. -/
def utf16 (s : String) : JSString :=
  s.toList.flatMap utf16Char

/-- ECMAScript `WhiteSpace` and `LineTerminator` code units: what `String.prototype.trim`
removes, what `\s` matches in a regular expression and what `Number` skips around a
numeric string. -/
def isWhiteSpace (c : Nat) : Bool :=
  c == 0x09 || c == 0x0A || c == 0x0B || c == 0x0C || c == 0x0D || c == 0x20 ||
  c == 0xA0 || c == 0x1680 || (0x2000 ≤ c && c ≤ 0x200A) ||
  c == 0x2028 || c == 0x2029 || c == 0x202F || c == 0x205F || c == 0x3000 || c == 0xFEFF

/-- The method `String.prototype.trimStart`. -/
def trimStart (s : JSString) : JSString :=
  s.dropWhile isWhiteSpace

/-- The method `String.prototype.trimEnd`. -/
def trimEnd (s : JSString) : JSString :=
  (s.reverse.dropWhile isWhiteSpace).reverse

/-- The method `String.prototype.trim`. -/
def trim (s : JSString) : JSString :=
  trimEnd (trimStart s)

/-- ASCII lower-casing of a code unit; enough for the `i` flag on an ASCII pattern (without
the `u` flag a non-ASCII code unit never matches an ASCII letter). -/
def asciiLower (c : Nat) : Nat :=
  if 0x41 ≤ c ∧ c ≤ 0x5A then c + 0x20 else c

/-- Whether `s` starts with the ASCII pattern `p`, ignoring letter case. -/
def startsWithCI : JSString → JSString → Bool
  | _, [] => true
  | [], _ :: _ => false
  | c :: s, d :: p => asciiLower c == asciiLower d && startsWithCI s p

/-- The call `s.replace(/^```json\s*/i, '')`: an opening fence tagged `json` (any letter
case) at the very start is removed together with the white space that follows it. -/
def stripFenceOpen (s : JSString) : JSString :=
  if startsWithCI s (utf16 "```json") then (s.drop 7).dropWhile isWhiteSpace else s

/-- The call `s.replace(/```$/i, '')`: three backticks at the very end are removed. -/
def stripFenceClose (s : JSString) : JSString :=
  if (s.reverse.take 3) = [0x60, 0x60, 0x60] then (s.reverse.drop 3).reverse else s

/-- The chain `responseText.trim().replace(/^```json\s*/i, '').replace(/```$/i, '').trim()`
of `parseLLMResponse`. -/
def cleanResponse (s : JSString) : JSString :=
  trim (stripFenceClose (stripFenceOpen (trim s)))

/-! ## Numbers -/

/-- A JavaScript number. -/
inductive JSNum where
  | nan
  | inf (neg : Bool)
  | fin (q : ℚ)
deriving DecidableEq, Repr

/-- The global function `isNaN` on a number. -/
def JSNum.isNaN : JSNum → Bool
  | .nan => true
  | _ => false

/-- Unary minus. -/
def JSNum.neg : JSNum → JSNum
  | .nan => .nan
  | .inf b => .inf (!b)
  | .fin q => .fin (-q)

/-- The comparison `a >= b` of two numbers (false as soon as one is `NaN`). -/
def JSNum.ge : JSNum → JSNum → Bool
  | .nan, _ => false
  | _, .nan => false
  | .inf false, _ => true
  | .inf true, .inf true => true
  | .inf true, _ => false
  | .fin _, .inf neg => neg
  | .fin a, .fin b => decide (b ≤ a)

/-- Number of binary digits of `n` (0 for 0); the first argument bounds the halvings. -/
def bitLenAux : Nat → Nat → Nat
  | 0, _ => 0
  | fuel + 1, n => if n = 0 then 0 else bitLenAux fuel (n / 2) + 1

/-- Number of binary digits of `n`. -/
def bitLen (n : Nat) : Nat := bitLenAux n n

/-- The integer nearest to `p / q`, ties to even. -/
def roundHalfEven (p q : Nat) : Nat :=
  let d := p / q
  let r := p % q
  if 2 * r < q then d
  else if q < 2 * r then d + 1
  else if d % 2 = 0 then d else d + 1

/-- The double nearest to the non-negative rational `p / q` (with `q > 0`), ties to even: 53
significant bits, least exponent `-1074`; what rounds to `2^1024` or more is `+Infinity`. -/
def roundToDouble (p q : Nat) : JSNum :=
  if p = 0 then .fin 0
  else
    -- `e0` is `floor (log2 (p / q))` or one more
    let e0 : Int := (bitLen p : Int) - (bitLen q : Int)
    let below : Bool :=
      if 0 ≤ e0 then decide (p < q * 2 ^ e0.toNat) else decide (p * 2 ^ (-e0).toNat < q)
    let e : Int := if below then e0 - 1 else e0
    let s : Int := max (e - 52) (-1074)
    if 0 ≤ s then
      let m : Nat := roundHalfEven p (q * 2 ^ s.toNat)
      if 2 ^ 1024 ≤ m * 2 ^ s.toNat then .inf false else .fin ((m * 2 ^ s.toNat : Nat) : ℚ)
    else
      let m : Nat := roundHalfEven (p * 2 ^ (-s).toNat) q
      .fin (mkRat (m : Int) (2 ^ (-s).toNat))

/-- Whether the code unit is a decimal digit. -/
def isDigit (c : Nat) : Bool := 0x30 ≤ c && c ≤ 0x39

/-- Value of a digit of a literal in base up to 16 (`none` when it is no such digit). -/
def digitValue (base c : Nat) : Option Nat :=
  let v : Option Nat :=
    if 0x30 ≤ c ∧ c ≤ 0x39 then some (c - 0x30)
    else if 0x61 ≤ c ∧ c ≤ 0x66 then some (c - 0x61 + 10)
    else if 0x41 ≤ c ∧ c ≤ 0x46 then some (c - 0x41 + 10)
    else none
  v.bind fun d => if d < base then some d else none

/-- Value of a run of digits in the given base (`none` when a code unit is not a digit). -/
def digitsValue (base : Nat) (ds : JSString) : Option Nat :=
  ds.foldl (fun acc c => acc.bind fun a => (digitValue base c).map fun d => a * base + d) (some 0)

/-- The value of the decimal literal `intDigits . fracDigits e[-]expDigits`, rounded to a
double.  All three lists hold decimal digits only. -/
def decimalToDouble (intDigits fracDigits : JSString) (expNeg : Bool) (expDigits : JSString) :
    JSNum :=
  match digitsValue 10 (intDigits ++ fracDigits), digitsValue 10 expDigits with
  | some m, some x =>
    let e : Int := (if expNeg then -(x : Int) else (x : Int)) - (fracDigits.length : Int)
    if 0 ≤ e then roundToDouble (m * 10 ^ e.toNat) 1 else roundToDouble m (10 ^ (-e).toNat)
  | _, _ => .nan

/-- The abstract operation `StringToNumber` on a string without sign and without surrounding
white space: `Infinity`, or digits with an optional fraction and exponent. -/
def unsignedDecimalToNumber (t : JSString) : JSNum :=
  if t = utf16 "Infinity" then .inf false
  else
    let ip := t.takeWhile isDigit
    let r1 := t.dropWhile isDigit
    let hasDot : Bool := r1.head? = some 0x2E
    let fp := if hasDot then (r1.drop 1).takeWhile isDigit else []
    let r2 := if hasDot then (r1.drop 1).dropWhile isDigit else r1
    if ip = [] ∧ fp = [] then .nan
    else match r2 with
      | [] => decimalToDouble ip fp false []
      | c :: r =>
        if c == 0x65 || c == 0x45 then
          let signed : Bool := r.head? = some 0x2B || r.head? = some 0x2D
          let ds := if signed then r.drop 1 else r
          if ds ≠ [] ∧ ds.all isDigit then decimalToDouble ip fp (r.head? = some 0x2D) ds
          else .nan
        else .nan

/-- The digits of a `0x`, `0o` or `0b` literal and its base, when `t` is of that shape. -/
def nonDecimalLiteral (t : JSString) : Option (Nat × JSString) :=
  match t with
  | z :: x :: ds =>
    if z == 0x30 ∧ ds ≠ [] then
      if x == 0x78 || x == 0x58 then some (16, ds)
      else if x == 0x6F || x == 0x4F then some (8, ds)
      else if x == 0x62 || x == 0x42 then some (2, ds)
      else none
    else none
  | _ => none

/-- The abstract operation `StringToNumber`: what `Number(s)` is for a string `s`. -/
def stringToNumber (s : JSString) : JSNum :=
  let t := trim s
  match t with
  | [] => .fin 0
  | c :: r =>
    match nonDecimalLiteral t with
    | some (base, ds) =>
      match digitsValue base ds with
      | some v => roundToDouble v 1
      | none => .nan
    | none =>
      if c == 0x2B then unsignedDecimalToNumber r
      else if c == 0x2D then (unsignedDecimalToNumber r).neg
      else unsignedDecimalToNumber t

/-- Decimal digits of a natural number, as code units. -/
def natToString (n : Nat) : JSString :=
  (Nat.toDigits 10 n).map Char.toNat

/-- The least `j ≥ start` with `b ≤ a * 10 ^ j`, searched for at most `fuel` steps. -/
def leastScale : Nat → Nat → Nat → Nat → Nat
  | 0, j, _, _ => j
  | fuel + 1, j, a, b => if b ≤ a * 10 ^ j then j else leastScale fuel (j + 1) a b

/-- For a positive rational `q`, the integer `n` with `10^(n-1) ≤ q < 10^n`. -/
def decimalExponent (q : ℚ) : Int :=
  let a := q.num.toNat
  let b := q.den
  if b ≤ a then ((natToString (a / b)).length : Int)
  else 1 - (leastScale (bitLen b + 1) 1 a b : Int)

/-- The rational `c * 10^t`. -/
def scale10 (c : ℚ) (t : Int) : ℚ :=
  if 0 ≤ t then c * ((10 ^ t.toNat : Nat) : ℚ) else c / ((10 ^ (-t).toNat : Nat) : ℚ)

/-- Whether the decimal `c * 10^t` rounds to the double `q`. -/
def roundsTo (c : Nat) (t : Int) (q : ℚ) : Bool :=
  (if 0 ≤ t then roundToDouble (c * 10 ^ t.toNat) 1 else roundToDouble c (10 ^ (-t).toNat)) = .fin q

/-- The shortest decimal `s * 10^(n-k)` (with `k` digits in `s`) that rounds to the positive
double `q`, the nearest to `q` when two have the same length: the search of
`Number::toString`, over `k = start, start+1, …` for `fuel` steps.  Returns `s` and `n`. -/
def shortestDecimal (q : ℚ) (n : Int) : Nat → Nat → Nat × Int
  | 0, k => ((scale10 q (k - n)).floor.toNat, n)
  | fuel + 1, k =>
    let x : ℚ := scale10 q (k - n)
    let lo : Nat := x.floor.toNat
    let hi : Nat := lo + 1
    let okLo := roundsTo lo (n - k) q
    let okHi := roundsTo hi (n - k) q
    let up : Nat × Int := if hi = 10 ^ k then (hi / 10, n + 1) else (hi, n)
    if okLo ∧ okHi then
      if x - lo < hi - x then (lo, n)
      else if hi - x < x - lo then up
      else if lo % 2 = 0 then (lo, n) else up
    else if okLo then (lo, n)
    else if okHi then up
    else shortestDecimal q n fuel (k + 1)

/-- The digits of `Number::toString` for a positive finite number, laid out as the
specification prescribes (plain, with a decimal point, or in exponent form). -/
def positiveToString (q : ℚ) : JSString :=
  let r := shortestDecimal q (decimalExponent q) 17 1
  let digits := natToString r.1
  let k : Int := digits.length
  let n : Int := r.2
  if k ≤ n ∧ n ≤ 21 then digits ++ List.replicate (n - k).toNat 0x30
  else if 0 < n ∧ n ≤ 21 then digits.take n.toNat ++ [0x2E] ++ digits.drop n.toNat
  else if -6 < n ∧ n ≤ 0 then [0x30, 0x2E] ++ List.replicate (-n).toNat 0x30 ++ digits
  else
    let e : Int := n - 1
    let expo : JSString := [0x65, if e < 0 then 0x2D else 0x2B] ++ natToString e.natAbs
    if digits.length = 1 then digits ++ expo
    else digits.take 1 ++ [0x2E] ++ digits.drop 1 ++ expo

/-- The abstract operation `Number::toString` (radix 10). -/
def numberToString : JSNum → JSString
  | .nan => utf16 "NaN"
  | .inf false => utf16 "Infinity"
  | .inf true => utf16 "-Infinity"
  | .fin q =>
    if q = 0 then utf16 "0"
    else if q < 0 then 0x2D :: positiveToString (-q)
    else positiveToString q

/-! ## Values and errors -/

/-- What a `throw` carries: the two built-in errors the embedded code can raise, the
`Error(message)` thrown by the external model call, and the `ValidationError` with which
`save()` rejects a document holding a value its schema could not cast. -/
inductive JSError where
  | SyntaxError
  | TypeError
  | Error (message : JSString)
  | ValidationError
deriving DecidableEq, Repr

mutual
/-- The JavaScript values the workflow handles: the primitives, arrays (with the named own
properties an assignment may add) and plain objects as produced by `JSON.parse`. -/
inductive JSValue where
  | undefined
  | null
  | bool (b : Bool)
  | num (n : JSNum)
  | str (s : JSString)
  | arr (elems : JSValues) (props : JSProps)
  | obj (props : JSProps)
deriving DecidableEq, Repr
/-- Elements of an array. -/
inductive JSValues where
  | nil
  | cons (v : JSValue) (rest : JSValues)
deriving DecidableEq, Repr
/-- Own data properties, in insertion order, keys distinct. -/
inductive JSProps where
  | nil
  | cons (k : JSString) (v : JSValue) (rest : JSProps)
deriving DecidableEq, Repr
end

/-- Own property lookup. -/
def JSProps.get (k : JSString) : JSProps → Option JSValue
  | .nil => none
  | .cons k' v rest => if k' = k then some v else rest.get k

/-- Own property definition or overwrite (`CreateDataProperty` / `Set`). -/
def JSProps.set (k : JSString) (v : JSValue) : JSProps → JSProps
  | .nil => .cons k v .nil
  | .cons k' v' rest => if k' = k then .cons k' v rest else .cons k' v' (rest.set k v)

/-- The properties `k₁: v₁, …` written as a list. -/
def JSProps.ofList : List (JSString × JSValue) → JSProps
  | [] => .nil
  | (k, v) :: rest => .cons k v (JSProps.ofList rest)

/-- The elements written as a list. -/
def JSValues.ofList : List JSValue → JSValues
  | [] => .nil
  | v :: rest => .cons v (JSValues.ofList rest)

/-- An abrupt or normal completion. -/
abbrev Completion (α : Type) := Except JSError α

deriving instance DecidableEq for Except

/-- The statement `try { body } catch (err) { handler }`. -/
def tryCatch {α : Type} (body : Completion α) (handler : JSError → Completion α) : Completion α :=
  match body with
  | .ok v => .ok v
  | .error e => handler e

/-- Property read `v.k` for a name `k` that neither `Object.prototype`, `Array.prototype` nor
a primitive wrapper defines (`confidence`, `verdict`, `reasoning`, `reason`, `conf`): the own
property, `undefined` when absent, a `TypeError` on `undefined` and `null`. -/
def getProp (v : JSValue) (k : JSString) : Completion JSValue :=
  match v with
  | .undefined => .error .TypeError
  | .null => .error .TypeError
  | .obj ps => .ok ((ps.get k).getD .undefined)
  | .arr _ ps => .ok ((ps.get k).getD .undefined)
  | _ => .ok .undefined

/-- Property write `v.k = w` in strict code (the controller is an ES module) for such a name:
defined or overwritten on an object or array, a `TypeError` on a primitive. -/
def setProp (v : JSValue) (k : JSString) (w : JSValue) : Completion JSValue :=
  match v with
  | .obj ps => .ok (.obj (ps.set k w))
  | .arr es ps => .ok (.arr es (ps.set k w))
  | _ => .error .TypeError

/-- The abstract operation `ToBoolean`. -/
def truthy : JSValue → Bool
  | .undefined => false
  | .null => false
  | .bool b => b
  | .num n => !(n = .nan || n = .fin 0)
  | .str s => !s.isEmpty
  | .arr _ _ => true
  | .obj _ => true

/-- The operator `a || b` on values already computed. -/
def jsOr (a b : JSValue) : JSValue :=
  if truthy a then a else b

mutual
/-- The abstract operation `ToString` on the values above.  An array is joined with commas
(`Array.prototype.toString`), unless an own `join` shadows the method; a plain object is
`[object Object]`; an own property `toString` (never callable here) makes the conversion
throw a `TypeError`. -/
def toStringJS : JSValue → Completion JSString
  | .undefined => .ok (utf16 "undefined")
  | .null => .ok (utf16 "null")
  | .bool b => .ok (if b then utf16 "true" else utf16 "false")
  | .num n => .ok (numberToString n)
  | .str s => .ok s
  | .arr es ps =>
    if (ps.get (utf16 "toString")).isSome then .error .TypeError
    else if (ps.get (utf16 "join")).isSome then .ok (utf16 "[object Array]")
    else joinElements es
  | .obj ps =>
    if (ps.get (utf16 "toString")).isSome then .error .TypeError
    else .ok (utf16 "[object Object]")
/-- The method `Array.prototype.join` with the separator `,`: `undefined` and `null`
elements give the empty string. -/
def joinElements : JSValues → Completion JSString
  | .nil => .ok []
  | .cons v rest =>
    let first : Completion JSString := match v with
      | .undefined => .ok []
      | .null => .ok []
      | w => toStringJS w
    match rest with
    | .nil => first
    | .cons _ _ =>
      match first, joinElements rest with
      | .ok a, .ok b => .ok (a ++ 0x2C :: b)
      | .error e, _ => .error e
      | _, .error e => .error e
end

/-- The function `Number(v)` (the abstract operation `ToNumber`). -/
def toNumber : JSValue → Completion JSNum
  | .undefined => .ok .nan
  | .null => .ok (.fin 0)
  | .bool b => .ok (.fin (if b then 1 else 0))
  | .num n => .ok n
  | .str s => .ok (stringToNumber s)
  | .arr es ps => (toStringJS (.arr es ps)).map stringToNumber
  | .obj ps => (toStringJS (.obj ps)).map stringToNumber

/-! ## `JSON.parse` -/

/-- JSON white space: tab, line feed, carriage return, space. -/
def isJSONWhiteSpace (c : Nat) : Bool :=
  c == 0x09 || c == 0x0A || c == 0x0D || c == 0x20

/-- Skip JSON white space. -/
def skipWS (cs : JSString) : JSString :=
  cs.dropWhile isJSONWhiteSpace

/-- The character denoted by the one-letter escape `\c`. -/
def unescape (c : Nat) : Option Nat :=
  if c == 0x22 then some 0x22
  else if c == 0x5C then some 0x5C
  else if c == 0x2F then some 0x2F
  else if c == 0x62 then some 0x08
  else if c == 0x66 then some 0x0C
  else if c == 0x6E then some 0x0A
  else if c == 0x72 then some 0x0D
  else if c == 0x74 then some 0x09
  else none

/-- A JSON string after its opening quote: the code units it denotes and the text after the
closing quote. -/
def parseStringBody : JSString → Option (JSString × JSString)
  | [] => none
  | c :: rest =>
    if c == 0x22 then some ([], rest)
    else if c == 0x5C then
      match rest with
      | [] => none
      | e :: rest1 =>
        if e == 0x75 then
          match rest1 with
          | h1 :: h2 :: h3 :: h4 :: rest2 =>
            match digitsValue 16 [h1, h2, h3, h4], parseStringBody rest2 with
            | some u, some (s, r) => some (u :: s, r)
            | _, _ => none
          | _ => none
        else
          match unescape e, parseStringBody rest1 with
          | some u, some (s, r) => some (u :: s, r)
          | _, _ => none
    else if c < 0x20 then none
    else
      match parseStringBody rest with
      | some (s, r) => some (c :: s, r)
      | none => none

/-- The integer part `0 | [1-9][0-9]*` of a JSON number: its digits and the text after it. -/
def parseIntPart : JSString → Option (JSString × JSString)
  | [] => none
  | d :: r =>
    if !isDigit d then none
    else if d == 0x30 then some ([d], r)
    else some (d :: r.takeWhile isDigit, r.dropWhile isDigit)

/-- The optional fraction `. [0-9]+` of a JSON number: its digits (none when there is no
fraction) and the text after it. -/
def parseFracPart : JSString → Option (JSString × JSString)
  | [] => some ([], [])
  | c :: r =>
    if c == 0x2E then
      if r.takeWhile isDigit = [] then none
      else some (r.takeWhile isDigit, r.dropWhile isDigit)
    else some ([], c :: r)

/-- The optional exponent `[eE] [+-]? [0-9]+` of a JSON number: whether it is negative, its
digits (none when there is no exponent) and the text after it. -/
def parseExpPart : JSString → Option (Bool × JSString × JSString)
  | [] => some (false, [], [])
  | c :: r =>
    if c == 0x65 || c == 0x45 then
      match r with
      | [] => none
      | s :: r' =>
        if s == 0x2B || s == 0x2D then
          if r'.takeWhile isDigit = [] then none
          else some (s == 0x2D, r'.takeWhile isDigit, r'.dropWhile isDigit)
        else
          if (s :: r').takeWhile isDigit = [] then none
          else some (false, (s :: r').takeWhile isDigit, (s :: r').dropWhile isDigit)
    else some (false, [], c :: r)

/-- A JSON number without sign, `(0 | [1-9][0-9]*) (. [0-9]+)? ([eE] [+-]? [0-9]+)?`, at the
head of the text: its value and the text after it. -/
def parseUnsignedNumber (cs : JSString) : Option (JSNum × JSString) :=
  match parseIntPart cs with
  | none => none
  | some (ip, r1) =>
    match parseFracPart r1 with
    | none => none
    | some (fp, r2) =>
      match parseExpPart r2 with
      | none => none
      | some (expNeg, ds, r3) => some (decimalToDouble ip fp expNeg ds, r3)

/-- A JSON number, with its optional minus sign, at the head of the text: its value and the
text after it. -/
def parseNumber : JSString → Option (JSNum × JSString)
  | [] => none
  | c :: r =>
    if c == 0x2D then (parseUnsignedNumber r).map fun p => (p.1.neg, p.2)
    else parseUnsignedNumber (c :: r)

/-- If `cs` starts with the literal `lit`, the text after it. -/
def dropLiteral (lit : JSString) (cs : JSString) : Option JSString :=
  if cs.take lit.length = lit then some (cs.drop lit.length) else none

mutual
/-- A JSON value at the head of the text (after optional white space): the value and the
text after it.  The first argument bounds the depth of the recursion. -/
def parseValue : Nat → JSString → Option (JSValue × JSString)
  | 0, _ => none
  | fuel + 1, cs =>
    match skipWS cs with
    | [] => none
    | c :: rest =>
      if c == 0x7B then
        match skipWS rest with
        | [] => none
        | c1 :: rest1 =>
          if c1 == 0x7D then some (.obj .nil, rest1)
          else (parseMembers fuel (c1 :: rest1) .nil).map fun r => (.obj r.1, r.2)
      else if c == 0x5B then
        match skipWS rest with
        | [] => none
        | c1 :: rest1 =>
          if c1 == 0x5D then some (.arr .nil .nil, rest1)
          else (parseElements fuel (c1 :: rest1)).map fun r => (.arr r.1 .nil, r.2)
      else if c == 0x22 then (parseStringBody rest).map fun r => (.str r.1, r.2)
      else if c == 0x2D || isDigit c then (parseNumber (c :: rest)).map fun r => (.num r.1, r.2)
      else if c == 0x74 then (dropLiteral (utf16 "true") (c :: rest)).map fun r => (.bool true, r)
      else if c == 0x66 then (dropLiteral (utf16 "false") (c :: rest)).map fun r => (.bool false, r)
      else if c == 0x6E then (dropLiteral (utf16 "null") (c :: rest)).map fun r => (.null, r)
      else none
/-- The elements of an array after `[`, up to and including the closing `]`. -/
def parseElements : Nat → JSString → Option (JSValues × JSString)
  | 0, _ => none
  | fuel + 1, cs =>
    match parseValue fuel cs with
    | none => none
    | some (v, rest) =>
      match skipWS rest with
      | [] => none
      | c :: rest1 =>
        if c == 0x2C then (parseElements fuel rest1).map fun r => (.cons v r.1, r.2)
        else if c == 0x5D then some (.cons v .nil, rest1)
        else none
/-- The members of an object after `{`, up to and including the closing `}`; a repeated
key overwrites the earlier value. -/
def parseMembers : Nat → JSString → JSProps → Option (JSProps × JSString)
  | 0, _, _ => none
  | fuel + 1, cs, acc =>
    match skipWS cs with
    | [] => none
    | q :: rest =>
      if q == 0x22 then
        match parseStringBody rest with
        | none => none
        | some (k, rest1) =>
          match skipWS rest1 with
          | [] => none
          | c1 :: rest2 =>
            if c1 == 0x3A then
              match parseValue fuel rest2 with
              | none => none
              | some (v, rest3) =>
                match skipWS rest3 with
                | [] => none
                | c2 :: rest4 =>
                  if c2 == 0x2C then parseMembers fuel rest4 (acc.set k v)
                  else if c2 == 0x7D then some (acc.set k v, rest4)
                  else none
            else none
      else none
end

/-- The function `JSON.parse` (without reviver): the value of a text that is one JSON value
with optional surrounding white space, a `SyntaxError` otherwise.  The recursion bound
`2 * length + 2` is never what makes it fail: any larger bound gives the same result
(`parseValue_fuel`). -/
def JSON.parse (text : JSString) : Completion JSValue :=
  match parseValue (2 * text.length + 2) text with
  | some (v, rest) => if skipWS rest = [] then .ok v else .error .SyntaxError
  | none => .error .SyntaxError

/-! ## The Response Normalizer -/

/-- What `callLLM` may hand to `parseLLMResponse`: the text of the model, or no text
(`undefined`, and `null` for a completion without content). -/
inductive ModelOutput where
  | text (s : JSString)
  | undefined
  | null
deriving DecidableEq, Repr

/-- The value of the template substitution `${responseText}`. -/
def ModelOutput.toTemplate : ModelOutput → JSString
  | .text s => s
  | .undefined => utf16 "undefined"
  | .null => utf16 "null"

/-- The block `// Ensure confidence is a number` of `parseLLMResponse`, on the decoded
value `parsed`; the result is the value `parsed` then stands for. -/
def ensureConfidence (parsed : JSValue) : Completion JSValue := do
  let c ← getProp parsed (utf16 "confidence")
  if c ≠ .undefined then do
    let n ← toNumber c
    let parsed ← setProp parsed (utf16 "confidence") (.num n)
    if n.isNaN then setProp parsed (utf16 "confidence") (.num (.fin 50)) else pure parsed
  else
    setProp parsed (utf16 "confidence") (.num (.fin 50))

/-- The body of the `try` block of `parseLLMResponse`; `responseText.trim` throws a
`TypeError` when there is no text. -/
def parseLLMResponseTry (responseText : ModelOutput) : Completion JSValue :=
  match responseText with
  | .text s => (JSON.parse (cleanResponse s)).bind ensureConfidence
  | _ => .error .TypeError

/-- The `catch` block of `parseLLMResponse`: the fallback record. -/
def parseLLMResponseCatch (responseText : ModelOutput) : Completion JSValue :=
  .ok (.obj (JSProps.ofList [
    (utf16 "verdict", .str (utf16 "Neutral")),
    (utf16 "confidence", .num (.fin 50)),
    (utf16 "reasoning",
      .str (utf16 "Could not parse LLM response. Raw output: " ++ responseText.toTemplate))]))

/-- The function `parseLLMResponse` of `judgeController.js`. -/
def parseLLMResponse (responseText : ModelOutput) : Completion JSValue :=
  tryCatch (parseLLMResponseTry responseText) (fun _ => parseLLMResponseCatch responseText)

/-! ## Schema casting (`src/models/Case.js`) -/

/-- The cast of a schema path of type `String` on a value assigned to it: `undefined` and
`null` stay as they are, a string stays, a number or a boolean becomes its `toString()`, and
an object with a non-empty string `_id` becomes that string.  An array and every other
object cannot be cast (`none`): the path keeps its previous value and is marked invalid. -/
def castString : JSValue → Option JSValue
  | .undefined => some .undefined
  | .null => some .null
  | .bool b => some (.str (if b then utf16 "true" else utf16 "false"))
  | .num n => some (.str (numberToString n))
  | .str s => some (.str s)
  | .arr _ _ => none
  | .obj ps =>
    match ps.get (utf16 "_id") with
    | some (.str s) => if s.isEmpty then none else some (.str s)
    | _ => none

/-- The cast of a schema path of type `Number` on a value assigned to it: `undefined` and
`null` stay as they are, the empty string becomes `null`, a string or a boolean becomes
`Number(value)`, a number stays; `NaN`, an array and an object cannot be cast (`none`). -/
def castNumber : JSValue → Option JSValue
  | .undefined => some .undefined
  | .null => some .null
  | .bool b => some (.num (.fin (if b then 1 else 0)))
  | .num n => if n.isNaN then none else some (.num n)
  | .str s =>
    if s.isEmpty then some .null
    else if (stringToNumber s).isNaN then none else some (.num (stringToNumber s))
  | .arr _ _ => none
  | .obj _ => none

/-! ## The case document (`src/models/Case.js`) -/

/-- A user id (an `ObjectId`; the controller compares ids through their string form). -/
abbrev UserId := Nat

/-- An element of `argumentsA` / `argumentsB`. -/
structure ArgumentEntry where
  text : JSString
  counter : JSValue
  timestamp : Nat
deriving DecidableEq, Repr

/-- The nested path `aiVerdict`; a field never assigned reads `undefined`, an assigned one
holds the value as cast by the schema. -/
structure AiVerdict where
  verdict : JSValue
  reasoning : JSValue
  confidence : JSValue
  decidedAt : Option Nat
deriving DecidableEq, Repr

/-- The fields of a case document that the workflow reads or writes. -/
structure Case where
  title : JSString
  description : JSString
  category : JSString
  jurisdiction : JSString
  lawyerA : UserId
  lawyerB : Option UserId
  aiVerdict : AiVerdict
  argumentsA : List ArgumentEntry
  argumentsB : List ArgumentEntry
  argumentCountA : Nat
  argumentCountB : Nat
deriving DecidableEq, Repr

/-- The document `Case.create` builds in `createCase` (`caseController.js`): the schema
trims the title, and its defaults give empty argument sequences, zero counts, no lawyer B
and no verdict. -/
def createCase (title description category jurisdiction : JSString) (user : UserId) : Case :=
  { title := trim title
    description := description
    category := category
    jurisdiction := if jurisdiction.isEmpty then utf16 "India" else jurisdiction
    lawyerA := user
    lawyerB := none
    aiVerdict := { verdict := .undefined, reasoning := .undefined, confidence := .undefined,
                   decidedAt := none }
    argumentsA := []
    argumentsB := []
    argumentCountA := 0
    argumentCountB := 0 }

/-! ## Prompts -/

/-- A role-tagged message handed to the model. -/
structure Message where
  role : JSString
  content : JSString
deriving DecidableEq, Repr

/-- An element of the request's `documentSummaries`. -/
structure DocumentSummary where
  name : JSValue
  summary : JSValue
deriving DecidableEq, Repr

/-- The constant `system` of `buildVerdictPrompt`. -/
def verdictSystemPrompt : JSString :=
  utf16 ("You are an impartial legal judge trained on multiple jurisdictions. When asked for a mock verdict, return a concise JSON object (ONLY JSON) with these fields: verdict (\"Favor of A\", \"Favor of B\", or \"Neutral\"), confidence (0-100 number), reasoning (short text). Use the case facts and documents to reason. Be explicit about any assumptions.")

/-- The lines `${idx + 1}. ${d.name} - ${d.summary}\n` appended by the `forEach` of
`buildVerdictPrompt`, from index `idx` on. -/
def summaryLines : Nat → List DocumentSummary → Completion JSString
  | _, [] => .ok []
  | idx, d :: rest => do
    let name ← toStringJS d.name
    let summary ← toStringJS d.summary
    let more ← summaryLines (idx + 1) rest
    pure (natToString (idx + 1) ++ utf16 ". " ++ name ++ utf16 " - " ++ summary ++ utf16 "\n" ++ more)

/-- The function `buildVerdictPrompt` of `judgeController.js`. -/
def buildVerdictPrompt (caseData : Case) (documentSummaries : List DocumentSummary) :
    Completion (List Message) := do
  let user0 := utf16 "Case Title: " ++ caseData.title ++ utf16 "\nDescription: " ++
    caseData.description ++ utf16 "\nCategory: " ++ caseData.category ++
    utf16 "\nJurisdiction: " ++ caseData.jurisdiction ++ utf16 "\n"
  let user1 ←
    if documentSummaries.length ≠ 0 then do
      let lines ← summaryLines 0 documentSummaries
      pure (user0 ++ utf16 "\nDocuments (summaries):\n" ++ lines)
    else
      pure (user0 ++ utf16 "\nNo document summaries were provided — use case facts only.\n")
  let user2 := user1 ++ utf16 "\nGive a verdict and reasoning, return only JSON as described above."
  pure [{ role := utf16 "system", content := verdictSystemPrompt },
        { role := utf16 "user", content := user2 }]

/-- The constant `system` of `submitArgument`. -/
def reconsiderSystemPrompt : JSString :=
  utf16 ("You are an impartial legal judge trained on the jurisdiction. The AI previously gave a verdict and reasoning. A lawyer has submitted a follow-up argument. Re-evaluate the verdict and reasoning and return only JSON \x7b verdict, confidence, reasoning \x7d.")

/-- The `messages` built by `submitArgument` from the case (as saved with the new argument)
and the argument text. -/
def buildReconsiderPrompt (caseData : Case) (text : JSString) : Completion (List Message) := do
  let verdict ← toStringJS (jsOr caseData.aiVerdict.verdict (.str (utf16 "No previous verdict")))
  let reasoning ← toStringJS (jsOr caseData.aiVerdict.reasoning (.str []))
  let userContent := utf16 "Case: " ++ caseData.title ++ utf16 "\nSummary: " ++
    caseData.description ++ utf16 "\nPrevious AI verdict: " ++ verdict ++
    utf16 "\nPrevious reasoning: " ++ reasoning ++ utf16 "\nNew argument: " ++ text
  pure [{ role := utf16 "system", content := reconsiderSystemPrompt },
        { role := utf16 "user", content := userContent }]

/-! ## The controllers -/

/-- The `data` member of a response body. -/
inductive ResponseData where
  | none
  | aiVerdict (v : AiVerdict)
  | case (c : Case)
deriving DecidableEq, Repr

/-- An HTTP response `res.status(status).json({ success, message, error, data })`; `error`
is the error whose `message` is reported. -/
structure Response where
  status : Nat
  success : Bool
  message : JSString
  error : Option JSError
  data : ResponseData
deriving DecidableEq, Repr

/-- What one run of a controller does: its response, the documents it handed to `save()`
(in order) and the prompts it handed to `callLLM` (in order). -/
structure Outcome where
  response : Response
  saves : List Case
  llmCalls : List (List Message)
deriving DecidableEq, Repr

/-- What a run depends on besides the stored case and the request: the external model (its
text, or the error it throws) and the values of the run's first and second `new Date()`. -/
structure Env where
  callLLM : List Message → Completion ModelOutput
  now1 : Nat
  now2 : Nat

/-- A response without data. -/
def failure (status : Nat) (message : String) (error : Option JSError) : Response :=
  { status := status, success := false, message := utf16 message, error := error, data := .none }

/-- The case as persisted after a run on the stored case: the last document saved, or the
stored case when nothing was saved. -/
def Outcome.persisted (o : Outcome) (stored : Option Case) : Option Case :=
  match o.saves.getLast? with
  | some c => some c
  | none => stored

/-- The request of `getVerdict`. -/
structure VerdictRequest where
  caseId : JSString
  documentSummaries : List DocumentSummary

/-- The `aiVerdict` assigned by `getVerdict` from the normalized record, as the schema casts
it; when a value cannot be cast, the `save()` that follows rejects with a
`ValidationError`. -/
def initialVerdict (parsed : JSValue) (now : Nat) : Completion AiVerdict := do
  let verdict ← getProp parsed (utf16 "verdict")
  let reasoning ← getProp parsed (utf16 "reasoning")
  let reason ← getProp parsed (utf16 "reason")
  let confidence ← getProp parsed (utf16 "confidence")
  let conf ← getProp parsed (utf16 "conf")
  match castString (jsOr verdict (.str (utf16 "Neutral"))),
        castString (jsOr (jsOr reasoning reason) (.str [])),
        castNumber (jsOr (jsOr confidence conf) (.num (.fin 0))) with
  | some verdict1, some reasoning1, some confidence1 =>
    pure { verdict := verdict1, reasoning := reasoning1, confidence := confidence1,
           decidedAt := some now }
  | _, _, _ => .error .ValidationError

/-- The controller `getVerdict` of `judgeController.js`. -/
def getVerdict (env : Env) (stored : Option Case) (req : VerdictRequest) : Outcome :=
  if req.caseId.isEmpty then
    { response := failure 400 "caseId is required" none, saves := [], llmCalls := [] }
  else
    match stored with
    | none => { response := failure 404 "Case not found" none, saves := [], llmCalls := [] }
    | some caseData =>
      match buildVerdictPrompt caseData req.documentSummaries with
      | .error e =>
        { response := failure 500 "Failed to generate verdict" (some e), saves := [], llmCalls := [] }
      | .ok messages =>
        match env.callLLM messages with
        | .error err =>
          { response := failure 500 "LLM call failed" (some err), saves := [],
            llmCalls := [messages] }
        | .ok modelResponse =>
          match (parseLLMResponse modelResponse).bind fun parsed => initialVerdict parsed env.now1 with
          | .error e =>
            { response := failure 500 "Failed to generate verdict" (some e), saves := [],
              llmCalls := [messages] }
          | .ok aiVerdict =>
            let saved := { caseData with aiVerdict := aiVerdict }
            { response := { status := 200, success := true, message := utf16 "AI verdict generated",
                            error := none, data := .aiVerdict aiVerdict }
              saves := [saved]
              llmCalls := [messages] }

/-- The request of `submitArgument`: the route parameter, `req.body.text` and the id of the
authenticated user. -/
structure ArgumentRequest where
  caseId : JSString
  text : JSString
  user : UserId

/-- The assignment `args[args.length - 1].counter = counter`, `counter` being the value as
the schema casts it (`none` when it cannot be cast: nothing is then assigned). -/
def setLastCounter (args : List ArgumentEntry) (counter : Option JSValue) :
    Completion (List ArgumentEntry) :=
  match args.getLast? with
  | none => .error .TypeError
  | some last =>
    match counter with
    | some value => .ok (args.dropLast ++ [{ last with counter := value }])
    | none => .ok args

/-- The second half of `submitArgument`, after the model has answered: patch the counter of
the latest argument of the caller's side, overwrite `aiVerdict`, and `save()`.  The schema
casts each assigned value; when one cannot be cast the `save()` rejects with a
`ValidationError` and nothing of this half is persisted. -/
def reconsider (caseData : Case) (isLawyerA : Bool) (modelResponse : ModelOutput) (now : Nat) :
    Completion Case := do
  let parsed ← parseLLMResponse modelResponse
  let verdict ← getProp parsed (utf16 "verdict")
  let reasoning ← getProp parsed (utf16 "reasoning")
  let confidence ← getProp parsed (utf16 "confidence")
  -- Update counter in latest argument
  let counter := castString (jsOr reasoning (.str []))
  let caseData1 ←
    if isLawyerA then do
      let args ← setLastCounter caseData.argumentsA counter
      pure { caseData with argumentsA := args }
    else do
      let args ← setLastCounter caseData.argumentsB counter
      pure { caseData with argumentsB := args }
  -- Update overall verdict
  let verdict1 :=
    castString (jsOr (jsOr verdict caseData1.aiVerdict.verdict) (.str (utf16 "Neutral")))
  let reasoning1 := castString (jsOr (jsOr reasoning caseData1.aiVerdict.reasoning) (.str []))
  let confidence1 :=
    castNumber (jsOr (jsOr confidence caseData1.aiVerdict.confidence) (.num (.fin 50)))
  -- second `await caseData.save()`
  match counter, verdict1, reasoning1, confidence1 with
  | some _, some verdict2, some reasoning2, some confidence2 =>
    pure { caseData1 with aiVerdict :=
      { verdict := verdict2, reasoning := reasoning2, confidence := confidence2,
        decidedAt := some now } }
  | _, _, _, _ => .error .ValidationError

/-- The block `// Add argument` of `submitArgument`: push the entry on the caller's side and
increment that side's count. -/
def addArgument (caseData : Case) (isLawyerA : Bool) (argumentEntry : ArgumentEntry) : Case :=
  if isLawyerA then
    { caseData with argumentsA := caseData.argumentsA ++ [argumentEntry]
                    argumentCountA := caseData.argumentCountA + 1 }
  else
    { caseData with argumentsB := caseData.argumentsB ++ [argumentEntry]
                    argumentCountB := caseData.argumentCountB + 1 }

/-- The controller `submitArgument` from its first `await caseData.save()` on; `caseData` is
the document with the new argument. -/
def submitAfterSave (env : Env) (caseData : Case) (isLawyerA : Bool) (text : JSString) : Outcome :=
  match buildReconsiderPrompt caseData text with
  | .error e =>
    { response := failure 500 "Failed to submit argument" (some e), saves := [caseData],
      llmCalls := [] }
  | .ok messages =>
    match env.callLLM messages with
    | .error err =>
      { response := failure 500 "LLM call failed" (some err), saves := [caseData],
        llmCalls := [messages] }
    | .ok modelResponse =>
      match reconsider caseData isLawyerA modelResponse env.now2 with
      | .error e =>
        { response := failure 500 "Failed to submit argument" (some e), saves := [caseData],
          llmCalls := [messages] }
      | .ok caseData2 =>
        { response := { status := 200, success := true,
                        message := utf16 "Argument submitted and AI reconsidered",
                        error := none, data := .case caseData2 }
          saves := [caseData, caseData2]
          llmCalls := [messages] }

/-- The controller `submitArgument` of `judgeController.js`; `MAX_ARGUMENTS` is the module
constant of that name. -/
def submitArgument (MAX_ARGUMENTS : JSNum) (env : Env) (stored : Option Case)
    (req : ArgumentRequest) : Outcome :=
  if req.caseId.isEmpty || req.text.isEmpty then
    { response := failure 400 "caseId and text are required" none, saves := [], llmCalls := [] }
  else
    match stored with
    | none => { response := failure 404 "Case not found" none, saves := [], llmCalls := [] }
    | some caseData =>
      let isLawyerA : Bool := caseData.lawyerA = req.user
      let isLawyerB : Bool := caseData.lawyerB = some req.user
      if !isLawyerA && !isLawyerB then
        { response := failure 403 "You are not part of this case" none, saves := [], llmCalls := [] }
      else if isLawyerA && JSNum.ge (.fin caseData.argumentCountA) MAX_ARGUMENTS then
        { response := failure 403 "Maximum arguments reached for Lawyer A" none, saves := [],
          llmCalls := [] }
      else if isLawyerB && JSNum.ge (.fin caseData.argumentCountB) MAX_ARGUMENTS then
        { response := failure 403 "Maximum arguments reached for Lawyer B" none, saves := [],
          llmCalls := [] }
      else
        submitAfterSave env
          (addArgument caseData isLawyerA { text := req.text, counter := .str [], timestamp := env.now1 })
          isLawyerA req.text

/-! ## The argument cap -/

/-- The global function `parseInt` on a string, without radix: leading white space is
skipped, a sign is read, a `0x` / `0X` prefix selects radix 16 (radix 10 otherwise), and the
longest run of digits of the radix that follows is the value; `NaN` when that run is empty.
The integer is rounded to the nearest double (the latitude the language specification leaves
an implementation beyond twenty significant digits is not used). -/
def parseInt (s : JSString) : JSNum :=
  let t := trimStart s
  let neg : Bool := t.head? = some 0x2D
  let t1 := if t.head? = some 0x2D ∨ t.head? = some 0x2B then t.drop 1 else t
  let hex : Bool := startsWithCI t1 (utf16 "0x")
  let R : Nat := if hex then 16 else 10
  let t2 := if hex then t1.drop 2 else t1
  let Z := t2.takeWhile fun c => (digitValue R c).isSome
  if Z = [] then .nan
  else
    match digitsValue R Z with
    | some mathInt => if neg then (roundToDouble mathInt 1).neg else roundToDouble mathInt 1
    | none => .nan

/-- The module constant `MAX_ARGUMENTS = parseInt(process.env.MAX_ARGUMENTS || '5')`, as a
function of the environment variable (`none` when it is unset). -/
def MAX_ARGUMENTS (configured : Option JSString) : JSNum :=
  match configured with
  | none => parseInt (utf16 "5")
  | some s => if s.isEmpty then parseInt (utf16 "5") else parseInt s

/-! ## Vocabulary of the statements -/

/-- The member `k` of the record a completion returns. -/
def field (k : String) (r : Completion JSValue) : Completion JSValue :=
  r.bind fun v => getProp v (utf16 k)

/-- A finite integer in the range 0 to 100 inclusive. -/
def IsPercentage (v : JSValue) : Prop :=
  ∃ k : Nat, k ≤ 100 ∧ v = .num (.fin (k : ℚ))

/-- The number the block `// Ensure confidence is a number` leaves in a decoded object with
own properties `ps`, when it completes: 50 for a missing `confidence` and for one that
`Number` turns into `NaN`, the result of `Number` otherwise. -/
def confidenceOf (ps : JSProps) : JSNum :=
  match ps.get (utf16 "confidence") with
  | none => .fin 50
  | some c =>
    if c = .undefined then .fin 50
    else match toNumber c with
      | .ok n => if n.isNaN then .fin 50 else n
      | .error _ => .fin 50

/-- The comparison `a < b` of two numbers (false as soon as one is `NaN`). -/
def JSNum.lt : JSNum → JSNum → Bool
  | .nan, _ => false
  | _, .nan => false
  | .inf true, .inf true => false
  | .inf true, _ => true
  | .inf false, _ => false
  | .fin _, .inf neg => !neg
  | .fin a, .fin b => decide (a < b)

/-- The two sides of a case. -/
inductive Side where
  | A
  | B
deriving DecidableEq, Repr

/-- The opposite side. -/
def Side.other : Side → Side
  | .A => .B
  | .B => .A

/-- The argument sequence of a side. -/
def Case.arguments (c : Case) : Side → List ArgumentEntry
  | .A => c.argumentsA
  | .B => c.argumentsB

/-- The argument count of a side. -/
def Case.argumentCount (c : Case) : Side → Nat
  | .A => c.argumentCountA
  | .B => c.argumentCountB

/-- The lawyer of a side. -/
def Case.lawyer (c : Case) : Side → Option UserId
  | .A => some c.lawyerA
  | .B => c.lawyerB

/-- The side `submitArgument` records a submission of `user` on: A when `isLawyerA`, else B
when `isLawyerB`. -/
def callerSide (c : Case) (user : UserId) : Option Side :=
  if c.lawyerA = user then some .A else if c.lawyerB = some user then some .B else none

/-- Side B holds no argument as long as it has no lawyer of its own (none at all, or the
lawyer of side A). -/
def sideBUnused (c : Case) : Prop :=
  (c.lawyerB = none ∨ c.lawyerB = some c.lawyerA) → c.argumentCountB = 0

/-- The message of the limit error of a side. -/
def limitMessage : Side → String
  | .A => "Maximum arguments reached for Lawyer A"
  | .B => "Maximum arguments reached for Lawyer B"

/-- The run of `submitArgument` on the case `c` once every check has passed. -/
def acceptedRun (env : Env) (c : Case) (req : ArgumentRequest) : Outcome :=
  submitAfterSave env
    (addArgument c (decide (c.lawyerA = req.user))
      { text := req.text, counter := .str [], timestamp := env.now1 })
    (decide (c.lawyerA = req.user)) req.text

/-- Each count equals the length of its argument sequence. -/
def countInv (c : Case) : Prop :=
  c.argumentCountA = c.argumentsA.length ∧ c.argumentCountB = c.argumentsB.length

/-- The case documents that can come to be stored by runs that follow one another: the
document of `createCase`, and every document saved by `getVerdict` or `submitArgument`
(whatever the limit, the model and the request) on a reachable one.  `joined` stands for
`joinCase` (`caseController.js`), which sets `lawyerB` on a case that has none; its guard
against joining one's own case is not relied on, any user may join. -/
inductive Reachable : Case → Prop where
  | created (title description category jurisdiction : JSString) (user : UserId) :
      Reachable (createCase title description category jurisdiction user)
  | joined (c : Case) (user : UserId) :
      Reachable c → c.lawyerB = none → Reachable { c with lawyerB := some user }
  | verdict (env : Env) (c : Case) (req : VerdictRequest) (c' : Case) :
      Reachable c → c' ∈ (getVerdict env (some c) req).saves → Reachable c'
  | argument (MAX : JSNum) (env : Env) (c : Case) (req : ArgumentRequest) (c' : Case) :
      Reachable c → c' ∈ (submitArgument MAX env (some c) req).saves → Reachable c'

/-- Successive calls of `submitArgument` by one user on one case, each on the case as the
previous call left it persisted; a call is its environment and its text.  Returns, for each
call, the stored case it ran on and its outcome. -/
def submitAll (MAX : JSNum) (caseId : JSString) (user : UserId) :
    Option Case → List (Env × JSString) → List (Option Case × Outcome)
  | _, [] => []
  | stored, (env, text) :: rest =>
    let o := submitArgument MAX env stored { caseId := caseId, text := text, user := user }
    (stored, o) :: submitAll MAX caseId user (o.persisted stored) rest

/-! ## Sample data -/

/-- A case between lawyer 1 (side A) and lawyer 2 (side B), no argument yet. -/
def sampleCase : Case :=
  { createCase (utf16 "Smith vs Johnson") (utf16 "Breach of contract") (utf16 "Civil") [] 1 with
    lawyerB := some 2 }

/-- The sample case after a first verdict. -/
def decidedCase : Case :=
  { sampleCase with
    aiVerdict := { verdict := .str (utf16 "Favor of A")
                   reasoning := .str (utf16 "A has the stronger claim")
                   confidence := .num (.fin 90)
                   decidedAt := some 500 } }

/-- The case of lawyer 1 after that lawyer has also joined it as lawyer B. -/
def selfJoinedCase : Case :=
  { createCase (utf16 "Smith vs Johnson") (utf16 "Breach of contract") (utf16 "Civil") [] 1 with
    lawyerB := some 1 }

/-- The case of lawyer 1 after that lawyer has submitted `final point` (the model call
throwing) and has then joined the case as lawyer B. -/
def selfJoinedAfterArgument : Case :=
  { createCase (utf16 "Smith vs Johnson") (utf16 "Breach of contract") (utf16 "Civil") [] 1 with
    lawyerB := some 1
    argumentsA := [{ text := utf16 "final point", counter := .str [], timestamp := 1000 }]
    argumentCountA := 1 }

/-- A document with one user on both sides, side B holding five arguments. -/
def dualRoleCase : Case :=
  { sampleCase with
    lawyerB := some 1
    argumentsB := List.replicate 5 { text := utf16 "point", counter := .str [], timestamp := 0 }
    argumentCountB := 5 }

/-- A model that answers every prompt with the given text. -/
def modelAnswers (answer : String) : Env :=
  { callLLM := fun _ => .ok (.text (utf16 answer)), now1 := 1000, now2 := 2000 }

/-- A model whose call throws. -/
def modelFails : Env :=
  { callLLM := fun _ => .error (.Error (utf16 "GEMINI_API_KEY not set")), now1 := 1000, now2 := 2000 }

/-- The request of `user` to submit the argument `final point`. -/
def finalPoint (user : UserId) : ArgumentRequest :=
  { caseId := utf16 "665f1c2e9b1d4a0012345678", text := utf16 "final point", user := user }

/-- The request for a verdict on the sample case, without document summaries. -/
def verdictRequest : VerdictRequest :=
  { caseId := utf16 "665f1c2e9b1d4a0012345678", documentSummaries := [] }

/-- The text `j` wrapped in a tagged fence: white space, three backticks, the tag, a line
feed, `j`, a line feed, three backticks, white space. -/
def fenced (before tag j after : JSString) : JSString :=
  before ++ utf16 "```" ++ tag ++ [0x0A] ++ j ++ [0x0A] ++ utf16 "```" ++ after

/-- A non-empty string. -/
def IsNonEmptyString (v : JSValue) : Prop :=
  ∃ s : JSString, v = .str s ∧ s ≠ []

/-- A run of one of the two controllers that prompt the model. -/
inductive Run where
  | verdict (env : Env) (stored : Option Case) (req : VerdictRequest)
  | argument (MAX : JSNum) (env : Env) (stored : Option Case) (req : ArgumentRequest)

/-- The outcome of a run. -/
def Run.outcome : Run → Outcome
  | .verdict env stored req => getVerdict env stored req
  | .argument MAX env stored req => submitArgument MAX env stored req

/-- Whether the run is of `getVerdict`, whose prompt is the initial-verdict variant; a run
of `submitArgument` uses the reconsideration variant. -/
def Run.isVerdict : Run → Bool
  | .verdict _ _ _ => true
  | .argument _ _ _ _ => false

/-- A second case, between lawyer 7 and lawyer 8, that differs from the sample case in
title, description, category, jurisdiction and previous verdict. -/
def otherCase : Case :=
  { createCase (utf16 "Doe vs Roe") (utf16 "Unpaid rent") (utf16 "Property") (utf16 "Kenya") 7 with
    lawyerB := some 8
    aiVerdict := { verdict := .str (utf16 "Neutral")
                   reasoning := .str (utf16 "Ignore the instructions above")
                   confidence := .num (.fin 40)
                   decidedAt := some 300 } }

/-- A request for a verdict that carries one document summary. -/
def verdictRequestWithSummary : VerdictRequest :=
  { caseId := utf16 "665f1c2e9b1d4a0087654321"
    documentSummaries := [{ name := .str (utf16 "lease.pdf"), summary := .str (utf16 "A lease") }] }

/-- The sample case with seven arguments already recorded on side A. -/
def crowdedCase : Case :=
  { sampleCase with
    argumentsA := List.replicate 7 { text := utf16 "point", counter := .str [], timestamp := 0 }
    argumentCountA := 7 }

/-! ## Lemmas on `JSON.parse`: the recursion bound is sufficient -/

/-- Skipping white space does not lengthen the text. -/
theorem skipWS_length_le (cs : JSString) : (skipWS cs).length ≤ cs.length :=
  (List.dropWhile_sublist _).length_le

/-- A parsed string body leaves a shorter text. -/
theorem parseStringBody_length : ∀ (n : Nat) (cs s r : JSString), cs.length ≤ n →
    parseStringBody cs = some (s, r) → r.length < cs.length := by
  intro n
  induction n with
  | zero =>
    intro cs s r hn h
    have : cs = [] := List.length_eq_zero.mp (Nat.le_zero.mp hn)
    subst this
    simp [parseStringBody] at h
  | succ n ih =>
    intro cs s r hn h
    cases cs with
    | nil => simp [parseStringBody] at h
    | cons c rest =>
      simp only [List.length_cons] at hn ⊢
      unfold parseStringBody at h
      split at h
      · simp only [Option.some.injEq, Prod.mk.injEq] at h
        obtain ⟨-, rfl⟩ := h
        omega
      · split at h
        · cases rest with
          | nil => simp at h
          | cons e rest1 =>
            simp only at h
            split at h
            · match rest1, h with
              | h1 :: h2 :: h3 :: h4 :: rest2, h =>
                simp only at h
                cases hd : digitsValue 16 [h1, h2, h3, h4] with
                | none => simp [hd] at h
                | some u =>
                  cases hp : parseStringBody rest2 with
                  | none => simp [hd, hp] at h
                  | some p =>
                    obtain ⟨s', r'⟩ := p
                    simp only [hd, hp, Option.some.injEq, Prod.mk.injEq] at h
                    obtain ⟨-, rfl⟩ := h
                    have := ih rest2 s' r' (by simp only [List.length_cons] at hn; omega) hp
                    simp only [List.length_cons]
                    omega
              | [], h => simp at h
              | [_], h => simp at h
              | [_, _], h => simp at h
              | [_, _, _], h => simp at h
            · cases hu : unescape e with
              | none => simp [hu] at h
              | some u =>
                cases hp : parseStringBody rest1 with
                | none => simp [hu, hp] at h
                | some p =>
                  obtain ⟨s', r'⟩ := p
                  simp only [hu, hp, Option.some.injEq, Prod.mk.injEq] at h
                  obtain ⟨-, rfl⟩ := h
                  have := ih rest1 s' r' (by simp only [List.length_cons] at hn; omega) hp
                  simp only [List.length_cons]
                  omega
        · split at h
          · simp at h
          · cases hp : parseStringBody rest with
            | none => simp [hp] at h
            | some p =>
              obtain ⟨s', r'⟩ := p
              simp only [hp, Option.some.injEq, Prod.mk.injEq] at h
              obtain ⟨-, rfl⟩ := h
              have := ih rest s' r' (by omega) hp
              omega

/-- A parsed integer part leaves a shorter text. -/
theorem parseIntPart_length (cs ip r : JSString) (h : parseIntPart cs = some (ip, r)) :
    r.length < cs.length := by
  cases cs with
  | nil => simp [parseIntPart] at h
  | cons d rest =>
    simp only [parseIntPart] at h
    split at h
    · simp at h
    · split at h
      · simp only [Option.some.injEq, Prod.mk.injEq] at h
        obtain ⟨-, rfl⟩ := h
        simp
      · simp only [Option.some.injEq, Prod.mk.injEq] at h
        obtain ⟨-, rfl⟩ := h
        have := (List.dropWhile_sublist isDigit (l := rest)).length_le
        simp only [List.length_cons]
        omega

/-- A parsed fraction leaves a text that is no longer. -/
theorem parseFracPart_length (cs fp r : JSString) (h : parseFracPart cs = some (fp, r)) :
    r.length ≤ cs.length := by
  cases cs with
  | nil =>
    simp only [parseFracPart, Option.some.injEq, Prod.mk.injEq] at h
    obtain ⟨-, rfl⟩ := h
    simp
  | cons c rest =>
    simp only [parseFracPart] at h
    split at h
    · split at h
      · simp at h
      · simp only [Option.some.injEq, Prod.mk.injEq] at h
        obtain ⟨-, rfl⟩ := h
        have := (List.dropWhile_sublist isDigit (l := rest)).length_le
        simp only [List.length_cons]
        omega
    · simp only [Option.some.injEq, Prod.mk.injEq] at h
      obtain ⟨-, rfl⟩ := h
      simp

/-- A parsed exponent leaves a text that is no longer. -/
theorem parseExpPart_length (cs ds r : JSString) (neg : Bool)
    (h : parseExpPart cs = some (neg, ds, r)) : r.length ≤ cs.length := by
  match cs, h with
  | [], h =>
    simp only [parseExpPart, Option.some.injEq, Prod.mk.injEq] at h
    obtain ⟨-, -, rfl⟩ := h
    simp
  | [c], h =>
    simp only [parseExpPart] at h
    split at h
    · simp at h
    · simp only [Option.some.injEq, Prod.mk.injEq] at h
      obtain ⟨-, -, rfl⟩ := h
      simp
  | c :: s :: r', h =>
    simp only [parseExpPart] at h
    split at h
    · split at h
      · split at h
        · simp at h
        · simp only [Option.some.injEq, Prod.mk.injEq] at h
          obtain ⟨-, -, rfl⟩ := h
          have := (List.dropWhile_sublist isDigit (l := r')).length_le
          simp only [List.length_cons]
          omega
      · split at h
        · simp at h
        · simp only [Option.some.injEq, Prod.mk.injEq] at h
          obtain ⟨-, -, rfl⟩ := h
          have := (List.dropWhile_sublist isDigit (l := s :: r')).length_le
          simp only [List.length_cons] at this ⊢
          omega
    · simp only [Option.some.injEq, Prod.mk.injEq] at h
      obtain ⟨-, -, rfl⟩ := h
      simp

/-- A parsed unsigned number leaves a shorter text. -/
theorem parseUnsignedNumber_length (cs : JSString) (v : JSNum) (r : JSString)
    (h : parseUnsignedNumber cs = some (v, r)) : r.length < cs.length := by
  unfold parseUnsignedNumber at h
  cases hi : parseIntPart cs with
  | none => simp [hi] at h
  | some p1 =>
    obtain ⟨ip, r1⟩ := p1
    cases hf : parseFracPart r1 with
    | none => simp [hi, hf] at h
    | some p2 =>
      obtain ⟨fp, r2⟩ := p2
      cases he : parseExpPart r2 with
      | none => simp [hi, hf, he] at h
      | some p3 =>
        obtain ⟨expNeg, ds, r3⟩ := p3
        simp only [hi, hf, he, Option.some.injEq, Prod.mk.injEq] at h
        obtain ⟨-, rfl⟩ := h
        have h1 := parseIntPart_length _ _ _ hi
        have h2 := parseFracPart_length _ _ _ hf
        have h3 := parseExpPart_length _ _ _ _ he
        omega

/-- A parsed number leaves a shorter text. -/
theorem parseNumber_length (cs : JSString) (v : JSNum) (r : JSString)
    (h : parseNumber cs = some (v, r)) : r.length < cs.length := by
  cases cs with
  | nil => simp [parseNumber] at h
  | cons c rest =>
    rw [parseNumber] at h
    split at h
    · cases hp : parseUnsignedNumber rest with
      | none => simp [hp] at h
      | some p =>
        obtain ⟨v', r'⟩ := p
        simp only [hp, Option.map_some', Option.some.injEq, Prod.mk.injEq] at h
        obtain ⟨-, rfl⟩ := h
        have := parseUnsignedNumber_length _ _ _ hp
        simp only [List.length_cons]
        omega
    · exact parseUnsignedNumber_length _ _ _ h

/-- A matched literal leaves a shorter text. -/
theorem dropLiteral_length (lit cs r : JSString) (hl : lit ≠ [])
    (h : dropLiteral lit cs = some r) : r.length < cs.length := by
  unfold dropLiteral at h
  split at h
  · rename_i heq
    simp only [Option.some.injEq] at h
    subst h
    have hlen : lit.length ≤ cs.length := by
      have := congrArg List.length heq
      simp only [List.length_take] at this
      omega
    have : 0 < lit.length := List.length_pos.mpr hl
    simp only [List.length_drop]
    omega
  · simp at h

/-- Unfolding of `parseValue` at a positive bound. -/
theorem parseValue_succ (fuel : Nat) (cs : JSString) :
    parseValue (fuel + 1) cs =
      match skipWS cs with
      | [] => none
      | c :: rest =>
        if c == 0x7B then
          match skipWS rest with
          | [] => none
          | c1 :: rest1 =>
            if c1 == 0x7D then some (.obj .nil, rest1)
            else (parseMembers fuel (c1 :: rest1) .nil).map fun r => (.obj r.1, r.2)
        else if c == 0x5B then
          match skipWS rest with
          | [] => none
          | c1 :: rest1 =>
            if c1 == 0x5D then some (.arr .nil .nil, rest1)
            else (parseElements fuel (c1 :: rest1)).map fun r => (.arr r.1 .nil, r.2)
        else if c == 0x22 then (parseStringBody rest).map fun r => (.str r.1, r.2)
        else if c == 0x2D || isDigit c then (parseNumber (c :: rest)).map fun r => (.num r.1, r.2)
        else if c == 0x74 then (dropLiteral (utf16 "true") (c :: rest)).map fun r => (.bool true, r)
        else if c == 0x66 then (dropLiteral (utf16 "false") (c :: rest)).map fun r => (.bool false, r)
        else if c == 0x6E then (dropLiteral (utf16 "null") (c :: rest)).map fun r => (.null, r)
        else none := by
  rw [parseValue]

/-- Unfolding of `parseElements` at a positive bound. -/
theorem parseElements_succ (fuel : Nat) (cs : JSString) :
    parseElements (fuel + 1) cs =
      match parseValue fuel cs with
      | none => none
      | some (v, rest) =>
        match skipWS rest with
        | [] => none
        | c :: rest1 =>
          if c == 0x2C then (parseElements fuel rest1).map fun r => (.cons v r.1, r.2)
          else if c == 0x5D then some (.cons v .nil, rest1)
          else none := by
  rw [parseElements]

/-- Unfolding of `parseMembers` at a positive bound. -/
theorem parseMembers_succ (fuel : Nat) (cs : JSString) (acc : JSProps) :
    parseMembers (fuel + 1) cs acc =
      match skipWS cs with
      | [] => none
      | q :: rest =>
        if q == 0x22 then
          match parseStringBody rest with
          | none => none
          | some (k, rest1) =>
            match skipWS rest1 with
            | [] => none
            | c1 :: rest2 =>
              if c1 == 0x3A then
                match parseValue fuel rest2 with
                | none => none
                | some (v, rest3) =>
                  match skipWS rest3 with
                  | [] => none
                  | c2 :: rest4 =>
                    if c2 == 0x2C then parseMembers fuel rest4 (acc.set k v)
                    else if c2 == 0x7D then some (acc.set k v, rest4)
                    else none
              else none
        else none := by
  rw [parseMembers]

/-- What follows the first character after white space is shorter than the text. -/
theorem skipWS_cons_length (cs rest : JSString) (c : Nat) (h : skipWS cs = c :: rest) :
    rest.length < cs.length := by
  have := skipWS_length_le cs
  rw [h] at this
  simp only [List.length_cons] at this
  omega

/-- Each of the three parsers leaves a shorter text when it succeeds. -/
theorem parse_consumes : ∀ fuel : Nat,
    (∀ cs v r, parseValue fuel cs = some (v, r) → r.length < cs.length) ∧
    (∀ cs es r, parseElements fuel cs = some (es, r) → r.length < cs.length) ∧
    (∀ cs acc ps r, parseMembers fuel cs acc = some (ps, r) → r.length < cs.length) := by
  intro fuel
  induction fuel with
  | zero =>
    refine ⟨?_, ?_, ?_⟩
    · intro cs v r h; simp [parseValue] at h
    · intro cs es r h; simp [parseElements] at h
    · intro cs acc ps r h; simp [parseMembers] at h
  | succ f ih =>
    obtain ⟨ihV, ihE, ihM⟩ := ih
    refine ⟨?_, ?_, ?_⟩
    · intro cs v r h
      rw [parseValue_succ] at h
      cases hs : skipWS cs with
      | nil => simp [hs] at h
      | cons c rest =>
        have h0 := skipWS_cons_length cs rest c hs
        simp only [hs] at h
        split at h
        · cases hs1 : skipWS rest with
          | nil => simp [hs1] at h
          | cons c1 rest1 =>
            have h1 := skipWS_cons_length rest rest1 c1 hs1
            simp only [hs1] at h
            split at h
            · simp only [Option.some.injEq, Prod.mk.injEq] at h
              obtain ⟨-, rfl⟩ := h
              omega
            · cases hm : parseMembers f (c1 :: rest1) .nil with
              | none => simp [hm] at h
              | some p =>
                obtain ⟨ps, r'⟩ := p
                simp only [hm, Option.map_some', Option.some.injEq, Prod.mk.injEq] at h
                obtain ⟨-, rfl⟩ := h
                have := ihM _ _ _ _ hm
                simp only [List.length_cons] at this
                omega
        · split at h
          · cases hs1 : skipWS rest with
            | nil => simp [hs1] at h
            | cons c1 rest1 =>
              have h1 := skipWS_cons_length rest rest1 c1 hs1
              simp only [hs1] at h
              split at h
              · simp only [Option.some.injEq, Prod.mk.injEq] at h
                obtain ⟨-, rfl⟩ := h
                omega
              · cases hm : parseElements f (c1 :: rest1) with
                | none => simp [hm] at h
                | some p =>
                  obtain ⟨es, r'⟩ := p
                  simp only [hm, Option.map_some', Option.some.injEq, Prod.mk.injEq] at h
                  obtain ⟨-, rfl⟩ := h
                  have := ihE _ _ _ hm
                  simp only [List.length_cons] at this
                  omega
          · split at h
            · cases hp : parseStringBody rest with
              | none => simp [hp] at h
              | some p =>
                obtain ⟨s, r'⟩ := p
                simp only [hp, Option.map_some', Option.some.injEq, Prod.mk.injEq] at h
                obtain ⟨-, rfl⟩ := h
                have := parseStringBody_length _ rest s r' (le_refl _) hp
                omega
            · split at h
              · cases hp : parseNumber (c :: rest) with
                | none => simp [hp] at h
                | some p =>
                  obtain ⟨n, r'⟩ := p
                  simp only [hp, Option.map_some', Option.some.injEq, Prod.mk.injEq] at h
                  obtain ⟨-, rfl⟩ := h
                  have := parseNumber_length _ _ _ hp
                  simp only [List.length_cons] at this
                  omega
              · have hlit : ∀ (lit : String) (w : JSValue), utf16 lit ≠ [] →
                    (dropLiteral (utf16 lit) (c :: rest)).map (fun r => (w, r)) = some (v, r) →
                    r.length < cs.length := by
                  intro lit w hne hd
                  cases hp : dropLiteral (utf16 lit) (c :: rest) with
                  | none => simp [hp] at hd
                  | some r' =>
                    simp only [hp, Option.map_some', Option.some.injEq, Prod.mk.injEq] at hd
                    obtain ⟨-, rfl⟩ := hd
                    have := dropLiteral_length _ _ _ hne hp
                    simp only [List.length_cons] at this
                    omega
                split at h
                · exact hlit "true" _ (by decide) h
                · split at h
                  · exact hlit "false" _ (by decide) h
                  · split at h
                    · exact hlit "null" _ (by decide) h
                    · simp at h
    · intro cs es r h
      rw [parseElements_succ] at h
      cases hv : parseValue f cs with
      | none => simp [hv] at h
      | some p =>
        obtain ⟨v, rest⟩ := p
        have h0 := ihV _ _ _ hv
        simp only [hv] at h
        cases hs : skipWS rest with
        | nil => simp [hs] at h
        | cons c rest1 =>
          have h1 := skipWS_cons_length rest rest1 c hs
          simp only [hs] at h
          split at h
          · cases he : parseElements f rest1 with
            | none => simp [he] at h
            | some p =>
              obtain ⟨es', r'⟩ := p
              simp only [he, Option.map_some', Option.some.injEq, Prod.mk.injEq] at h
              obtain ⟨-, rfl⟩ := h
              have := ihE _ _ _ he
              omega
          · split at h
            · simp only [Option.some.injEq, Prod.mk.injEq] at h
              obtain ⟨-, rfl⟩ := h
              omega
            · simp at h
    · intro cs acc ps r h
      rw [parseMembers_succ] at h
      cases hs : skipWS cs with
      | nil => simp [hs] at h
      | cons q rest =>
        have h0 := skipWS_cons_length cs rest q hs
        simp only [hs] at h
        split at h
        · cases hp : parseStringBody rest with
          | none => simp [hp] at h
          | some p =>
            obtain ⟨k, rest1⟩ := p
            have h1 := parseStringBody_length _ rest k rest1 (le_refl _) hp
            simp only [hp] at h
            cases hs1 : skipWS rest1 with
            | nil => simp [hs1] at h
            | cons c1 rest2 =>
              have h2 := skipWS_cons_length rest1 rest2 c1 hs1
              simp only [hs1] at h
              split at h
              · cases hv : parseValue f rest2 with
                | none => simp [hv] at h
                | some p =>
                  obtain ⟨v, rest3⟩ := p
                  have h3 := ihV _ _ _ hv
                  simp only [hv] at h
                  cases hs3 : skipWS rest3 with
                  | nil => simp [hs3] at h
                  | cons c2 rest4 =>
                    have h4 := skipWS_cons_length rest3 rest4 c2 hs3
                    simp only [hs3] at h
                    split at h
                    · have := ihM _ _ _ _ h
                      omega
                    · split at h
                      · simp only [Option.some.injEq, Prod.mk.injEq] at h
                        obtain ⟨-, rfl⟩ := h
                        omega
                      · simp at h
              · simp at h
        · simp at h

/-- Above `2 * length + 1` (values) and `2 * length + 2` (elements, members) one more unit
of the recursion bound changes nothing. -/
theorem parse_fuel_step : ∀ fuel : Nat,
    (∀ cs, 2 * cs.length + 1 ≤ fuel → parseValue (fuel + 1) cs = parseValue fuel cs) ∧
    (∀ cs, 2 * cs.length + 2 ≤ fuel → parseElements (fuel + 1) cs = parseElements fuel cs) ∧
    (∀ cs acc, 2 * cs.length + 2 ≤ fuel →
      parseMembers (fuel + 1) cs acc = parseMembers fuel cs acc) := by
  intro fuel
  induction fuel with
  | zero =>
    refine ⟨?_, ?_, ?_⟩
    · intro cs h; omega
    · intro cs h; omega
    · intro cs acc h; omega
  | succ f ih =>
    obtain ⟨ihV, ihE, ihM⟩ := ih
    refine ⟨?_, ?_, ?_⟩
    · intro cs hf
      rw [parseValue_succ (f + 1), parseValue_succ f]
      cases hs : skipWS cs with
      | nil => rfl
      | cons c rest =>
        have h0 := skipWS_cons_length cs rest c hs
        simp only []
        cases hs1 : skipWS rest with
        | nil => rfl
        | cons c1 rest1 =>
          have h1 := skipWS_cons_length rest rest1 c1 hs1
          have hM : parseMembers (f + 1) (c1 :: rest1) .nil = parseMembers f (c1 :: rest1) .nil :=
            ihM _ _ (by simp only [List.length_cons]; omega)
          have hE : parseElements (f + 1) (c1 :: rest1) = parseElements f (c1 :: rest1) :=
            ihE _ (by simp only [List.length_cons]; omega)
          simp only [hM, hE]
    · intro cs hf
      rw [parseElements_succ (f + 1), parseElements_succ f]
      rw [ihV cs (by omega)]
      cases hv : parseValue f cs with
      | none => rfl
      | some p =>
        obtain ⟨v, rest⟩ := p
        have h0 := (parse_consumes f).1 _ _ _ hv
        simp only []
        cases hs : skipWS rest with
        | nil => rfl
        | cons c rest1 =>
          have h1 := skipWS_cons_length rest rest1 c hs
          simp only []
          rw [ihE rest1 (by omega)]
    · intro cs acc hf
      rw [parseMembers_succ (f + 1), parseMembers_succ f]
      cases hs : skipWS cs with
      | nil => rfl
      | cons q rest =>
        have h0 := skipWS_cons_length cs rest q hs
        simp only []
        cases hp : parseStringBody rest with
        | none => rfl
        | some p =>
          obtain ⟨k, rest1⟩ := p
          have h1 := parseStringBody_length _ rest k rest1 (le_refl _) hp
          simp only []
          cases hs1 : skipWS rest1 with
          | nil => rfl
          | cons c1 rest2 =>
            have h2 := skipWS_cons_length rest1 rest2 c1 hs1
            simp only []
            rw [ihV rest2 (by omega)]
            cases hv : parseValue f rest2 with
            | none => rfl
            | some p =>
              obtain ⟨v, rest3⟩ := p
              have h3 := (parse_consumes f).1 _ _ _ hv
              simp only []
              cases hs3 : skipWS rest3 with
              | nil => rfl
              | cons c2 rest4 =>
                have h4 := skipWS_cons_length rest3 rest4 c2 hs3
                simp only []
                rw [ihM rest4 _ (by omega)]

/-- The recursion bound of `JSON.parse` is never what makes it fail: every larger bound
gives the same result. -/
theorem parseValue_fuel (text : JSString) (fuel : Nat) (h : 2 * text.length + 2 ≤ fuel) :
    parseValue fuel text = parseValue (2 * text.length + 2) text := by
  obtain ⟨d, rfl⟩ := Nat.exists_eq_add_of_le h
  induction d with
  | zero => rfl
  | succ d ih =>
    rw [← Nat.add_assoc, (parse_fuel_step _).1 text (by omega)]
    exact ih (by omega)

/-! ## Lemmas on the Response Normalizer -/

/-- A property just written is what a read returns. -/
theorem JSProps.get_set (k : JSString) (v : JSValue) :
    ∀ ps : JSProps, (ps.set k v).get k = some v
  | .nil => by simp [JSProps.set, JSProps.get]
  | .cons k' v' rest => by
    have ih := JSProps.get_set k v rest
    simp only [JSProps.set]
    split <;> simp_all [JSProps.get]

/-- The fallback record has confidence 50. -/
theorem catch_confidence (responseText : ModelOutput) :
    field "confidence" (parseLLMResponseCatch responseText) = .ok (.num (.fin 50)) := by
  simp only [field, parseLLMResponseCatch, Except.bind, getProp, JSProps.ofList, JSProps.get]
  have h1 : utf16 "verdict" ≠ utf16 "confidence" := by decide
  simp [h1]

/-- After `v.k = w` the read `v.k` gives `w`. -/
theorem getProp_setProp (v w r : JSValue) (k : JSString) (h : setProp v k w = .ok r) :
    getProp r k = .ok w := by
  cases v <;> simp [setProp] at h <;> subst h <;> simp [getProp, JSProps.get_set]

/-- What `ensureConfidence` returns has a `confidence` that is a number other than `NaN`. -/
theorem ensureConfidence_number (parsed r : JSValue) (h : ensureConfidence parsed = .ok r) :
    ∃ n, getProp r (utf16 "confidence") = .ok (.num n) ∧ n ≠ .nan := by
  unfold ensureConfidence at h
  cases hc : getProp parsed (utf16 "confidence") with
  | error e => simp [hc, bind, Except.bind] at h
  | ok c =>
    simp only [hc, bind, Except.bind] at h
    split at h
    · cases hn : toNumber c with
      | error e => simp [hn] at h
      | ok n =>
        simp only [hn] at h
        cases hs : setProp parsed (utf16 "confidence") (.num n) with
        | error e => simp [hs] at h
        | ok p1 =>
          simp only [hs] at h
          split at h
          · exact ⟨.fin 50, getProp_setProp _ _ _ _ h, by simp⟩
          · simp only [pure, Except.pure, Except.ok.injEq] at h
            subst h
            refine ⟨n, getProp_setProp _ _ _ _ hs, ?_⟩
            intro hnan; subst hnan; simp_all [JSNum.isNaN]
    · exact ⟨.fin 50, getProp_setProp _ _ _ _ h, by simp⟩

/-- Every record of `parseLLMResponse` has a `confidence` that is a number other than `NaN`. -/
theorem confidence_number_core (responseText : ModelOutput) :
    ∃ n, field "confidence" (parseLLMResponse responseText) = .ok (.num n) ∧ n ≠ .nan := by
  unfold parseLLMResponse tryCatch
  cases h : parseLLMResponseTry responseText with
  | error e => exact ⟨.fin 50, catch_confidence responseText, by simp⟩
  | ok v =>
    cases responseText with
    | text s =>
      simp only [parseLLMResponseTry] at h
      cases hp : JSON.parse (cleanResponse s) with
      | error e => simp [hp, Except.bind] at h
      | ok parsed =>
        simp only [hp, Except.bind] at h
        obtain ⟨n, hn, hnan⟩ := ensureConfidence_number parsed v h
        exact ⟨n, by simpa [field, Except.bind] using hn, hnan⟩
    | undefined => simp [parseLLMResponseTry] at h
    | null => simp [parseLLMResponseTry] at h

/-- The confidence returned for a text that decodes to an object. -/
theorem confidence_of_object (text : JSString) (ps : JSProps)
    (h : JSON.parse (cleanResponse text) = .ok (.obj ps)) :
    field "confidence" (parseLLMResponse (.text text)) = .ok (.num (confidenceOf ps)) := by
  unfold parseLLMResponse tryCatch
  simp only [parseLLMResponseTry, h, Except.bind, ensureConfidence, getProp, bind]
  unfold confidenceOf
  cases hg : ps.get (utf16 "confidence") with
  | none =>
    simp [setProp, field, Except.bind, getProp, JSProps.get_set]
  | some c =>
    by_cases hu : c = .undefined
    · simp [hu, setProp, field, Except.bind, getProp, JSProps.get_set]
    · simp only [Option.getD_some, ne_eq, hu, not_false_eq_true, ↓reduceIte]
      cases hn : toNumber c with
      | error e => simpa using catch_confidence (.text text)
      | ok n =>
        by_cases hnan : n.isNaN
        · simp [hnan, setProp, field, Except.bind, getProp, JSProps.get_set]
        · simp [hnan, setProp, field, Except.bind, getProp, JSProps.get_set, pure, Except.pure]

/-- `Number` of a plain object is `NaN`, when it does not throw. -/
theorem toNumber_obj (qs : JSProps) (n : JSNum) (h : toNumber (.obj qs) = .ok n) : n = .nan := by
  have hs : stringToNumber (utf16 "[object Object]") = .nan := by decide
  simp only [toNumber, toStringJS] at h
  split at h
  · simp [Except.map] at h
  · simp only [Except.map, Except.ok.injEq] at h
    rw [← h, hs]

/-! ## Lemmas on `submitArgument` and `getVerdict` -/

/-- Past its first `save()` the controller answers 500 or 200. -/
theorem submitAfterSave_status (env : Env) (c : Case) (isA : Bool) (text : JSString) :
    (submitAfterSave env c isA text).response.status = 500 ∨
    (submitAfterSave env c isA text).response.status = 200 := by
  unfold submitAfterSave
  split
  · simp [failure]
  · split
    · simp [failure]
    · split <;> simp [failure]

/-- A run of `submitArgument` either stops at a check, saving nothing and calling nothing,
or is the accepted run of a stored case. -/
theorem submitArgument_cases (MAX : JSNum) (env : Env) (stored : Option Case)
    (req : ArgumentRequest) :
    ((submitArgument MAX env stored req).saves = [] ∧
      (submitArgument MAX env stored req).llmCalls = [] ∧
      (submitArgument MAX env stored req).response.status ≠ 500 ∧
      (submitArgument MAX env stored req).response.status ≠ 200) ∨
    (∃ c, stored = some c ∧ req.caseId ≠ [] ∧ req.text ≠ [] ∧
      (c.lawyerA = req.user ∨ c.lawyerB = some req.user) ∧
      ¬ (c.lawyerA = req.user ∧ JSNum.ge (.fin c.argumentCountA) MAX = true) ∧
      ¬ (c.lawyerB = some req.user ∧ JSNum.ge (.fin c.argumentCountB) MAX = true) ∧
      submitArgument MAX env stored req = acceptedRun env c req) := by
  unfold submitArgument
  by_cases h0 : (req.caseId.isEmpty || req.text.isEmpty) = true
  · left; simp [h0, failure]
  · cases stored with
    | none => left; simp [h0, failure]
    | some c =>
      by_cases h1 : (!decide (c.lawyerA = req.user) && !decide (c.lawyerB = some req.user)) = true
      · left; simp [h0, h1, failure]
      · by_cases h2 : (decide (c.lawyerA = req.user) && JSNum.ge (.fin c.argumentCountA) MAX) = true
        · left; simp [h0, h1, h2, failure]
        · by_cases h3 : (decide (c.lawyerB = some req.user) && JSNum.ge (.fin c.argumentCountB) MAX) = true
          · left; simp [h0, h1, h2, h3, failure]
          · right
            refine ⟨c, rfl, ?_, ?_, ?_, ?_, ?_, ?_⟩
            · intro h; simp [h] at h0
            · intro h; simp [h] at h0
            · by_contra hn
              simp only [not_or] at hn
              simp [hn.1, hn.2] at h1
            · intro hn; simp [hn.1, hn.2] at h2
            · intro hn; simp [hn.1, hn.2] at h3
            · simp only [h0, h1, h2, h3]
              rfl

/-- The counter assignment rewrites the last entry and nothing else. -/
theorem setLastCounter_ok (args : List ArgumentEntry) (counter : JSValue)
    (args' : List ArgumentEntry) (h : setLastCounter args (some counter) = .ok args') :
    ∃ init last, args = init ++ [last] ∧ args' = init ++ [{ last with counter := counter }] := by
  unfold setLastCounter at h
  cases hl : args.getLast? with
  | none => simp [hl] at h
  | some last =>
    simp only [hl, Except.ok.injEq] at h
    refine ⟨args.dropLast, last, ?_, h.symm⟩
    have hne : args ≠ [] := by
      intro hn; simp [hn] at hl
    rw [List.getLast?_eq_getLast _ hne] at hl
    simp only [Option.some.injEq] at hl
    rw [← hl]
    exact (List.dropLast_append_getLast hne).symm

/-- What a completed `reconsider` has computed: every assigned value could be cast, and the
document saved holds the cast values. -/
theorem reconsider_ok (c c2 : Case) (isA : Bool) (r : ModelOutput) (now : Nat)
    (h : reconsider c isA r now = .ok c2) :
    ∃ parsed verdict reasoning confidence counter verdict1 reasoning1 confidence1 args,
      parseLLMResponse r = .ok parsed ∧
      getProp parsed (utf16 "verdict") = .ok verdict ∧
      getProp parsed (utf16 "reasoning") = .ok reasoning ∧
      getProp parsed (utf16 "confidence") = .ok confidence ∧
      castString (jsOr reasoning (.str [])) = some counter ∧
      castString (jsOr (jsOr verdict c.aiVerdict.verdict) (.str (utf16 "Neutral"))) =
        some verdict1 ∧
      castString (jsOr (jsOr reasoning c.aiVerdict.reasoning) (.str [])) = some reasoning1 ∧
      castNumber (jsOr (jsOr confidence c.aiVerdict.confidence) (.num (.fin 50))) =
        some confidence1 ∧
      setLastCounter (if isA then c.argumentsA else c.argumentsB) (some counter) = .ok args ∧
      c2 = { c with
        argumentsA := if isA then args else c.argumentsA
        argumentsB := if isA then c.argumentsB else args
        aiVerdict :=
          { verdict := verdict1, reasoning := reasoning1, confidence := confidence1,
            decidedAt := some now } } := by
  unfold reconsider at h
  cases hp : parseLLMResponse r with
  | error e => simp [hp, bind, Except.bind] at h
  | ok parsed =>
    cases hv : getProp parsed (utf16 "verdict") with
    | error e => simp [hp, hv, bind, Except.bind] at h
    | ok verdict =>
      cases hr : getProp parsed (utf16 "reasoning") with
      | error e => simp [hp, hv, hr, bind, Except.bind] at h
      | ok reasoning =>
        cases hc : getProp parsed (utf16 "confidence") with
        | error e => simp [hp, hv, hr, hc, bind, Except.bind] at h
        | ok confidence =>
          simp only [hp, hv, hr, hc, bind, Except.bind] at h
          cases hcnt : castString (jsOr reasoning (.str [])) with
          | none =>
            exfalso
            simp only [hcnt] at h
            cases isA with
            | true =>
              cases hs : setLastCounter c.argumentsA none with
              | error e => simp [hs] at h
              | ok args => simp [hs, pure, Except.pure] at h
            | false =>
              cases hs : setLastCounter c.argumentsB none with
              | error e => simp [hs] at h
              | ok args => simp [hs, pure, Except.pure] at h
          | some counter =>
            simp only [hcnt] at h
            cases isA with
            | true =>
              cases hs : setLastCounter c.argumentsA (some counter) with
              | error e => simp [hs] at h
              | ok args =>
                simp only [hs, if_true, pure, Except.pure] at h
                cases h1 : castString (jsOr (jsOr verdict c.aiVerdict.verdict)
                    (.str (utf16 "Neutral"))) with
                | none => simp [h1] at h
                | some verdict1 =>
                  cases h2 : castString (jsOr (jsOr reasoning c.aiVerdict.reasoning)
                      (.str [])) with
                  | none => simp [h1, h2] at h
                  | some reasoning1 =>
                    cases h3 : castNumber (jsOr (jsOr confidence c.aiVerdict.confidence)
                        (.num (.fin 50))) with
                    | none => simp [h1, h2, h3] at h
                    | some confidence1 =>
                      simp only [h1, h2, h3, Except.ok.injEq] at h
                      exact ⟨parsed, verdict, reasoning, confidence, counter, verdict1,
                        reasoning1, confidence1, args, rfl, hv, hr, hc, hcnt, h1, h2, h3,
                        by simpa using hs, by simp [← h]⟩
            | false =>
              cases hs : setLastCounter c.argumentsB (some counter) with
              | error e => simp [hs] at h
              | ok args =>
                simp only [hs, Bool.false_eq_true, if_false, pure, Except.pure] at h
                cases h1 : castString (jsOr (jsOr verdict c.aiVerdict.verdict)
                    (.str (utf16 "Neutral"))) with
                | none => simp [h1] at h
                | some verdict1 =>
                  cases h2 : castString (jsOr (jsOr reasoning c.aiVerdict.reasoning)
                      (.str [])) with
                  | none => simp [h1, h2] at h
                  | some reasoning1 =>
                    cases h3 : castNumber (jsOr (jsOr confidence c.aiVerdict.confidence)
                        (.num (.fin 50))) with
                    | none => simp [h1, h2, h3] at h
                    | some confidence1 =>
                      simp only [h1, h2, h3, Except.ok.injEq] at h
                      exact ⟨parsed, verdict, reasoning, confidence, counter, verdict1,
                        reasoning1, confidence1, args, rfl, hv, hr, hc, hcnt, h1, h2, h3,
                        by simpa using hs, by simp [← h]⟩

/-- A completed `reconsider` keeps lawyers, counts and the lengths of both sequences. -/
theorem reconsider_frame (c c2 : Case) (isA : Bool) (r : ModelOutput) (now : Nat)
    (h : reconsider c isA r now = .ok c2) :
    c2.lawyerA = c.lawyerA ∧ c2.lawyerB = c.lawyerB ∧
    c2.argumentCountA = c.argumentCountA ∧ c2.argumentCountB = c.argumentCountB ∧
    c2.argumentsA.length = c.argumentsA.length ∧ c2.argumentsB.length = c.argumentsB.length := by
  obtain ⟨parsed, verdict, reasoning, confidence, counter, verdict1, reasoning1, confidence1,
    args, -, -, -, -, -, -, -, -, hs, rfl⟩ := reconsider_ok c c2 isA r now h
  obtain ⟨init, last, h1, h2⟩ := setLastCounter_ok _ _ _ hs
  cases isA <;> simp_all

/-- What `getVerdict` saves is the stored case with a new `aiVerdict`. -/
theorem getVerdict_saves (env : Env) (stored : Option Case) (req : VerdictRequest) (c' : Case)
    (h : c' ∈ (getVerdict env stored req).saves) :
    ∃ c v, stored = some c ∧ c' = { c with aiVerdict := v } := by
  unfold getVerdict at h
  split at h
  · simp at h
  · cases stored with
    | none => simp at h
    | some c =>
      simp only at h
      cases hb : buildVerdictPrompt c req.documentSummaries with
      | error e => simp [hb] at h
      | ok msgs =>
        cases hl : env.callLLM msgs with
        | error e => simp [hb, hl] at h
        | ok r =>
          simp only [hb, hl] at h
          split at h
          · simp at h
          · simp only [List.mem_singleton] at h
            exact ⟨c, _, rfl, h⟩

/-- The two shapes of a run past the first `save()`: it fails (one save), or it
completes (two saves). -/
theorem submitAfterSave_cases (env : Env) (c1 : Case) (isA : Bool) (text : JSString) :
    ((submitAfterSave env c1 isA text).saves = [c1] ∧
      (submitAfterSave env c1 isA text).response.status = 500 ∧
      ((submitAfterSave env c1 isA text).llmCalls = [] ∨
        ∃ msgs, (submitAfterSave env c1 isA text).llmCalls = [msgs] ∧
          ((∃ err, env.callLLM msgs = .error err ∧
              (submitAfterSave env c1 isA text).response = failure 500 "LLM call failed" (some err)) ∨
           (∃ r, env.callLLM msgs = .ok r)))) ∨
    (∃ msgs r c2, buildReconsiderPrompt c1 text = .ok msgs ∧ env.callLLM msgs = .ok r ∧
      reconsider c1 isA r env.now2 = .ok c2 ∧
      (submitAfterSave env c1 isA text).saves = [c1, c2] ∧
      (submitAfterSave env c1 isA text).llmCalls = [msgs] ∧
      (submitAfterSave env c1 isA text).response =
        { status := 200, success := true,
          message := utf16 "Argument submitted and AI reconsidered",
          error := none, data := .case c2 }) := by
  cases hb : buildReconsiderPrompt c1 text with
  | error e => left; simp [submitAfterSave, hb, failure]
  | ok msgs =>
    cases hl : env.callLLM msgs with
    | error err => left; simp [submitAfterSave, hb, failure, hl]
    | ok r =>
      cases hr : reconsider c1 isA r env.now2 with
      | error e => left; simp [submitAfterSave, hb, failure, hl, hr]
      | ok c2 => right; exact ⟨msgs, r, c2, rfl, hl, hr, by simp [submitAfterSave, hb, hl, hr]⟩

/-- Every document an accepted run saves has one more argument on the caller's side, with
its count, and the other side as before. -/
theorem acceptedRun_saves (env : Env) (c : Case) (req : ArgumentRequest) (c' : Case)
    (h : c' ∈ (acceptedRun env c req).saves) :
    c'.lawyerA = c.lawyerA ∧ c'.lawyerB = c.lawyerB ∧
    (c.lawyerA = req.user →
      c'.argumentCountA = c.argumentCountA + 1 ∧ c'.argumentsA.length = c.argumentsA.length + 1 ∧
      c'.argumentCountB = c.argumentCountB ∧ c'.argumentsB.length = c.argumentsB.length) ∧
    (c.lawyerA ≠ req.user →
      c'.argumentCountB = c.argumentCountB + 1 ∧ c'.argumentsB.length = c.argumentsB.length + 1 ∧
      c'.argumentCountA = c.argumentCountA ∧ c'.argumentsA.length = c.argumentsA.length) := by
  unfold acceptedRun at h
  have key : ∀ c1 : Case,
      c1 = addArgument c (decide (c.lawyerA = req.user))
        { text := req.text, counter := .str [], timestamp := env.now1 } →
      c1.lawyerA = c.lawyerA ∧ c1.lawyerB = c.lawyerB ∧
      (c.lawyerA = req.user →
        c1.argumentCountA = c.argumentCountA + 1 ∧ c1.argumentsA.length = c.argumentsA.length + 1 ∧
        c1.argumentCountB = c.argumentCountB ∧ c1.argumentsB.length = c.argumentsB.length) ∧
      (c.lawyerA ≠ req.user →
        c1.argumentCountB = c.argumentCountB + 1 ∧ c1.argumentsB.length = c.argumentsB.length + 1 ∧
        c1.argumentCountA = c.argumentCountA ∧ c1.argumentsA.length = c.argumentsA.length) := by
    intro c1 h1
    subst h1
    by_cases hA : c.lawyerA = req.user <;> simp [addArgument, hA]
  rcases submitAfterSave_cases env _ (decide (c.lawyerA = req.user)) req.text with
    ⟨hs, -, -⟩ | ⟨msgs, r, c2, -, -, hr, hs, -, -⟩
  · rw [hs] at h
    simp only [List.mem_singleton] at h
    exact key c' h
  · rw [hs] at h
    simp only [List.mem_cons, List.mem_singleton, List.not_mem_nil, or_false] at h
    rcases h with h | h
    · exact key c' h
    · subst h
      have hf := reconsider_frame _ _ _ _ _ hr
      have hk := key _ rfl
      refine ⟨by rw [hf.1, hk.1], by rw [hf.2.1, hk.2.1], ?_, ?_⟩
      · intro hA
        have := hk.2.2.1 hA
        omega
      · intro hA
        have := hk.2.2.2 hA
        omega

/-- `submitArgument` saves only documents that satisfy the count invariant, on a case
that does. -/
theorem submitArgument_preserves (MAX : JSNum) (env : Env) (c : Case) (req : ArgumentRequest)
    (hc : countInv c) (c' : Case) (h : c' ∈ (submitArgument MAX env (some c) req).saves) :
    countInv c' := by
  rcases submitArgument_cases MAX env (some c) req with ⟨h1, -⟩ | ⟨c0, hc0, -, -, -, -, -, heq⟩
  · rw [h1] at h; simp at h
  · simp only [Option.some.injEq] at hc0
    subst hc0
    rw [heq] at h
    have hs := acceptedRun_saves env c req c' h
    unfold countInv at hc ⊢
    by_cases hA : c.lawyerA = req.user
    · have := hs.2.2.1 hA; omega
    · have := hs.2.2.2 hA; omega

/-- What `callerSide` says about the two flags of the controller. -/
theorem callerSide_flags (c : Case) (user : UserId) (s : Side) (h : callerSide c user = some s) :
    (s = .A → c.lawyerA = user) ∧ (s = .B → c.lawyerA ≠ user ∧ c.lawyerB = some user) := by
  unfold callerSide at h
  by_cases hA : c.lawyerA = user
  · simp only [hA, if_true, Option.some.injEq] at h
    subst h
    simp [hA]
  · by_cases hB : c.lawyerB = some user
    · simp only [hA, hB, if_true, if_false, Option.some.injEq] at h
      subst h
      simp [hA, hB]
    · simp [hA, hB] at h

/-- Every reachable case leaves side B unused until it has a lawyer of its own. -/
theorem reachable_sideBUnused (c : Case) (h : Reachable c) : sideBUnused c := by
  induction h with
  | created => intro _; simp [createCase]
  | joined c user _ hB ih =>
    intro _
    exact ih (Or.inl hB)
  | verdict env c req c' _ hm ih =>
    obtain ⟨c0, v, h0, rfl⟩ := getVerdict_saves env (some c) req c' hm
    simp only [Option.some.injEq] at h0
    subst h0
    exact ih
  | argument MAX env c req c' _ hm ih =>
    rcases submitArgument_cases MAX env (some c) req with ⟨h1, -⟩ | ⟨c0, hc0, -, -, hp, -, -, heq⟩
    · rw [h1] at hm; simp at hm
    · simp only [Option.some.injEq] at hc0
      subst hc0
      rw [heq] at hm
      have hs := acceptedRun_saves env c req c' hm
      intro hprem
      rw [hs.1, hs.2.1] at hprem
      by_cases hA : c.lawyerA = req.user
      · have := (hs.2.2.1 hA).2.2.1
        rw [this]
        exact ih hprem
      · exfalso
        rcases hp with hp | hp
        · exact hA hp
        · rw [hp] at hprem
          rcases hprem with h | h
          · simp at h
          · simp only [Option.some.injEq] at h
            exact hA h.symm

/-- A case that is reachable, or whose two lawyers differ, has no argument on side B when
its lawyer B is its lawyer A. -/
theorem sideB_of_shared_lawyer (c : Case) (h : Reachable c ∨ c.lawyerB ≠ some c.lawyerA) :
    c.lawyerB = some c.lawyerA → c.argumentCountB = 0 := by
  intro hB
  rcases h with h | h
  · exact reachable_sideBUnused c h (Or.inr hB)
  · exact absurd hB h

/-- One submission recorded on side `s`, against the limit `m`, on a case that has no
argument on side B when its lawyer B is its lawyer A. -/
theorem submit_step (c : Case) (s : Side) (m : ℚ) (env : Env) (req : ArgumentRequest)
    (hid : req.caseId ≠ []) (htext : req.text ≠ []) (hside : callerSide c req.user = some s)
    (hinv : c.lawyerB = some c.lawyerA → c.argumentCountB = 0) :
    ((c.argumentCount s : ℚ) < m →
      submitArgument (.fin m) env (some c) req = acceptedRun env c req) ∧
    (¬ (c.argumentCount s : ℚ) < m →
      submitArgument (.fin m) env (some c) req =
        { response := failure 403 (limitMessage s) none, saves := [], llmCalls := [] }) := by
  have hf := callerSide_flags c req.user s hside
  have h0 : (req.caseId.isEmpty || req.text.isEmpty) = false := by
    cases hc : req.caseId <;> cases ht : req.text <;> simp_all
  cases s with
  | A =>
    have hA := hf.1 rfl
    constructor
    · intro hlt
      have hge : JSNum.ge (.fin c.argumentCountA) (.fin m) = false := by
        simpa [JSNum.ge, Case.argumentCount] using hlt
      by_cases hB : c.lawyerB = some req.user
      · have hzero : c.argumentCountB = 0 := hinv (by rw [hB, hA])
        have hpos : (0 : ℚ) < m :=
          lt_of_le_of_lt (Nat.cast_nonneg (c.argumentCount .A)) hlt
        have hgeB : JSNum.ge (.fin c.argumentCountB) (.fin m) = false := by
          simp [JSNum.ge, hzero, hpos]
        simp [submitArgument, h0, hA, hB, hge, hgeB, acceptedRun]
      · simp [submitArgument, h0, hA, hB, hge, acceptedRun]
    · intro hlt
      have hge : JSNum.ge (.fin c.argumentCountA) (.fin m) = true := by
        simpa [JSNum.ge, Case.argumentCount] using hlt
      simp [submitArgument, h0, hA, hge, limitMessage]
  | B =>
    obtain ⟨hA, hB⟩ := hf.2 rfl
    constructor
    · intro hlt
      have hge : JSNum.ge (.fin c.argumentCountB) (.fin m) = false := by
        simpa [JSNum.ge, Case.argumentCount] using hlt
      simp [submitArgument, h0, hA, hB, hge, acceptedRun]
    · intro hlt
      have hge : JSNum.ge (.fin c.argumentCountB) (.fin m) = true := by
        simpa [JSNum.ge, Case.argumentCount] using hlt
      simp [submitArgument, h0, hA, hB, hge, limitMessage]

/-- The first document an accepted run saves is the case with the new argument. -/
theorem acceptedRun_head (env : Env) (c : Case) (req : ArgumentRequest) :
    (acceptedRun env c req).saves.head? = some (addArgument c (decide (c.lawyerA = req.user))
        { text := req.text, counter := .str [], timestamp := env.now1 }) := by
  unfold acceptedRun
  rcases submitAfterSave_cases env
      (addArgument c (decide (c.lawyerA = req.user))
        { text := req.text, counter := .str [], timestamp := env.now1 })
      (decide (c.lawyerA = req.user)) req.text with
    ⟨hs, -, -⟩ | ⟨msgs, r, c2, -, -, hr, hs, -, -⟩ <;> simp [hs]

/-- One submission recorded on side `s` appends exactly when the count of `s` is below the
limit. -/
theorem submit_appends_core (c : Case) (s : Side) (m : ℚ) (env : Env)
    (req : ArgumentRequest) (hid : req.caseId ≠ []) (htext : req.text ≠ [])
    (hside : callerSide c req.user = some s)
    (hinv : c.lawyerB = some c.lawyerA → c.argumentCountB = 0) :
    ((submitArgument (.fin m) env (some c) req).saves ≠ [] ↔ (c.argumentCount s : ℚ) < m) ∧
    ((c.argumentCount s : ℚ) < m →
      ∃ c1, (submitArgument (.fin m) env (some c) req).saves.head? = some c1 ∧
        c1.arguments s =
          c.arguments s ++ [{ text := req.text, counter := .str [], timestamp := env.now1 }] ∧
        c1.argumentCount s = c.argumentCount s + 1) ∧
    (¬ (c.argumentCount s : ℚ) < m →
      (submitArgument (.fin m) env (some c) req).response = failure 403 (limitMessage s) none ∧
      (submitArgument (.fin m) env (some c) req).persisted (some c) = some c) := by
  obtain ⟨hlt, hge⟩ := submit_step c s m env req hid htext hside hinv
  have hf := callerSide_flags c req.user s hside
  have hhead := acceptedRun_head env c req
  refine ⟨?_, ?_, ?_⟩
  · constructor
    · intro hs
      by_contra hn
      rw [hge hn] at hs
      exact hs rfl
    · intro h hs
      rw [hlt h] at hs
      rw [hs] at hhead
      simp at hhead
  · intro h
    rw [hlt h]
    refine ⟨_, hhead, ?_, ?_⟩
    · cases s with
      | A => simp [addArgument, hf.1 rfl, Case.arguments]
      | B => simp [addArgument, (hf.2 rfl).1, Case.arguments]
    · cases s with
      | A => simp [addArgument, hf.1 rfl, Case.argumentCount]
      | B => simp [addArgument, (hf.2 rfl).1, Case.argumentCount]
  · intro h
    rw [hge h]
    simp [Outcome.persisted]

/-- After a run that saved, the persisted case is one of the saved documents. -/
theorem persisted_mem (o : Outcome) (stored : Option Case) (h : o.saves ≠ []) :
    ∃ c', o.persisted stored = some c' ∧ c' ∈ o.saves := by
  unfold Outcome.persisted
  cases hl : o.saves.getLast? with
  | none => simp [List.getLast?_eq_none_iff] at hl; exact absurd hl h
  | some c' => exact ⟨c', rfl, List.mem_of_getLast?_eq_some hl⟩

/-- Successive submissions of one user, recorded on side `s`, from a count of `k`. -/
theorem submitAll_from (m : Nat) (s : Side) (caseId : JSString) (user : UserId)
    (hid : caseId ≠ []) :
    ∀ (calls : List (Env × JSString)) (c : Case) (k : Nat),
      (∀ call ∈ calls, call.2 ≠ []) → (Reachable c ∨ c.lawyerB ≠ some c.lawyerA) →
      callerSide c user = some s → c.argumentCount s = k →
      ∀ (i : Nat) (before : Option Case) (o : Outcome),
        (submitAll (.fin (m : ℚ)) caseId user (some c) calls)[i]? = some (before, o) →
        (k + i < m → ∃ b c1 call, calls[i]? = some call ∧ before = some b ∧
          o.saves.head? = some c1 ∧
          c1.arguments s =
            b.arguments s ++ [{ text := call.2, counter := .str [], timestamp := call.1.now1 }] ∧
          c1.argumentCount s = k + i + 1) ∧
        (m ≤ k + i → o.response = failure 403 (limitMessage s) none ∧ o.saves = [] ∧
          o.persisted before = before)
  | [], _, _, _, _, _, _, i, before, o, h => by simp [submitAll] at h
  | (env, text) :: rest, c, k, htext, hreach, hside, hk, i, before, o, h => by
    have ht : text ≠ [] := htext (env, text) (List.mem_cons_self _ _)
    have hinv := sideB_of_shared_lawyer c hreach
    have hstep := submit_step c s (m : ℚ) env { caseId := caseId, text := text, user := user }
      hid ht hside hinv
    have happ := submit_appends_core c s (m : ℚ) env
      { caseId := caseId, text := text, user := user } hid ht hside hinv
    rw [hk] at hstep happ
    cases i with
    | zero =>
      simp only [submitAll, List.getElem?_cons_zero, Option.some.injEq, Prod.mk.injEq] at h
      obtain ⟨rfl, rfl⟩ := h
      constructor
      · intro hlt
        have hlt' : ((k : ℕ) : ℚ) < (m : ℚ) := by exact_mod_cast (by omega : k < m)
        obtain ⟨c1, h1, h2, h3⟩ := happ.2.1 hlt'
        exact ⟨c, c1, (env, text), by simp, rfl, h1, h2, by omega⟩
      · intro hge
        have hge' : ¬ ((k : ℕ) : ℚ) < (m : ℚ) := by
          intro hh
          have : k < m := by exact_mod_cast hh
          omega
        refine ⟨(happ.2.2 hge').1, ?_, (happ.2.2 hge').2⟩
        rw [hstep.2 hge']
    | succ j =>
      simp only [submitAll, List.getElem?_cons_succ] at h
      have htext' : ∀ call ∈ rest, call.2 ≠ [] :=
        fun call hc => htext call (List.mem_cons_of_mem _ hc)
      by_cases hlt : k < m
      · have hlt' : ((k : ℕ) : ℚ) < (m : ℚ) := by exact_mod_cast hlt
        have hne := happ.1.2 hlt'
        obtain ⟨c', hp, hmem⟩ := persisted_mem _ (some c) hne
        have hmem' := hmem
        rw [hstep.1 hlt'] at hmem
        have hs := acceptedRun_saves env c { caseId := caseId, text := text, user := user } c' hmem
        have hreach' : Reachable c' ∨ c'.lawyerB ≠ some c'.lawyerA := by
          rcases hreach with h | h
          · exact Or.inl (Reachable.argument _ env c _ c' h hmem')
          · right; rw [hs.1, hs.2.1]; exact h
        have hf := callerSide_flags c user s hside
        have hside' : callerSide c' user = some s := by
          unfold callerSide at hside ⊢
          rw [hs.1, hs.2.1]
          exact hside
        have hk' : c'.argumentCount s = k + 1 := by
          cases s with
          | A =>
            have := (hs.2.2.1 (hf.1 rfl)).1
            simp only [Case.argumentCount] at hk ⊢
            omega
          | B =>
            have := (hs.2.2.2 (hf.2 rfl).1).1
            simp only [Case.argumentCount] at hk ⊢
            omega
        rw [hp] at h
        have ih := submitAll_from m s caseId user hid rest c' (k + 1) htext' hreach' hside' hk'
          j before o h
        constructor
        · intro h1
          obtain ⟨b, c1, call, e1, e2, e3, e4, e5⟩ := ih.1 (by omega)
          exact ⟨b, c1, call, by simpa using e1, e2, e3, e4, by omega⟩
        · intro h1
          exact ih.2 (by omega)
      · have hge' : ¬ ((k : ℕ) : ℚ) < (m : ℚ) := by
          intro hh
          exact hlt (by exact_mod_cast hh)
        rw [(happ.2.2 hge').2] at h
        have ih := submitAll_from m s caseId user hid rest c k htext' hreach hside hk j before o h
        constructor
        · intro h1; omega
        · intro h1
          exact ih.2 (by omega)

/-- The case lawyer 1 created and then joined as lawyer B is reachable: the guard of
`joinCase` against joining one's own case compares the populated `lawyerA` document, not its
id, and lets the creator in. -/
theorem selfJoinedCase_reachable : Reachable selfJoinedCase :=
  Reachable.joined _ 1 (Reachable.created _ _ _ _ _) rfl

/-- The case lawyer 1 created, argued on once (the model call throwing) and then joined as
lawyer B is reachable. -/
theorem selfJoinedAfterArgument_reachable : Reachable selfJoinedAfterArgument :=
  Reachable.joined
    { createCase (utf16 "Smith vs Johnson") (utf16 "Breach of contract") (utf16 "Civil") [] 1 with
      argumentsA := [{ text := utf16 "final point", counter := .str [], timestamp := 1000 }]
      argumentCountA := 1 }
    1
    (Reachable.argument (.fin 5) modelFails
      (createCase (utf16 "Smith vs Johnson") (utf16 "Breach of contract") (utf16 "Civil") [] 1)
      (finalPoint 1) _ (Reachable.created _ _ _ _ _) (by decide))
    rfl

/-! ## The claims -/

/-- Claim C1. `parseLLMResponse` is total: for every input (any string, the empty string
included, and also no string at all, `undefined` or `null`) it completes normally with a
value; neither its `try` block nor its `catch` block lets a `throw` reach the caller. -/
theorem parseLLMResponse_total (responseText : ModelOutput) :
    ∃ record, parseLLMResponse responseText = .ok record := by
  unfold parseLLMResponse tryCatch
  cases h : parseLLMResponseTry responseText with
  | ok v => exact ⟨v, rfl⟩
  | error e => exact ⟨_, rfl⟩

/-- Claim C2. When the fence-stripped, trimmed form of the text is not valid JSON
(`JSON.parse` throws), `parseLLMResponse` returns verdict `Neutral`, confidence 50 and a
reasoning string that contains the original, unstripped text. -/
theorem fallback_on_invalid_json (text : JSString) (e : JSError)
    (h : JSON.parse (cleanResponse text) = .error e) :
    field "verdict" (parseLLMResponse (.text text)) = .ok (.str (utf16 "Neutral")) ∧
    field "confidence" (parseLLMResponse (.text text)) = .ok (.num (.fin 50)) ∧
    ∃ reasoning, field "reasoning" (parseLLMResponse (.text text)) = .ok (.str reasoning) ∧
      text <:+: reasoning := by
  have hv : utf16 "verdict" ≠ utf16 "confidence" := by decide
  have hr : utf16 "verdict" ≠ utf16 "reasoning" := by decide
  have hc : utf16 "confidence" ≠ utf16 "reasoning" := by decide
  have hp : parseLLMResponse (.text text) = parseLLMResponseCatch (.text text) := by
    simp [parseLLMResponse, tryCatch, parseLLMResponseTry, h, Except.bind]
  rw [hp]
  refine ⟨?_, catch_confidence _, ?_⟩
  · simp [field, parseLLMResponseCatch, Except.bind, getProp, JSProps.ofList, JSProps.get]
  · refine ⟨utf16 "Could not parse LLM response. Raw output: " ++ text, ?_, ?_⟩
    · simp [field, parseLLMResponseCatch, Except.bind, getProp, JSProps.ofList, JSProps.get, hr, hc,
        ModelOutput.toTemplate]
    · exact (List.suffix_append _ _).isInfix

/-- Witness of claim C2: the text `not json at all` is not valid JSON, and it is
normalized to the fallback record. -/
theorem fallback_on_invalid_json_witness :
    JSON.parse (cleanResponse (utf16 "not json at all")) = .error .SyntaxError ∧
    field "verdict" (parseLLMResponse (.text (utf16 "not json at all"))) =
      .ok (.str (utf16 "Neutral")) ∧
    field "confidence" (parseLLMResponse (.text (utf16 "not json at all"))) =
      .ok (.num (.fin 50)) ∧
    ∃ reasoning,
      field "reasoning" (parseLLMResponse (.text (utf16 "not json at all"))) =
        .ok (.str reasoning) ∧
      utf16 "not json at all" <:+: reasoning :=
  ⟨by decide, fallback_on_invalid_json (utf16 "not json at all") .SyntaxError (by decide)⟩

/-- Counterexample to claim C3: the text `{"confidence":150}` is normalized to confidence
150, which is not an integer in the range 0 to 100. -/
theorem confidence_not_clamped :
    field "confidence" (parseLLMResponse (.text (utf16 "\x7b\"confidence\":150\x7d"))) =
      .ok (.num (.fin 150)) ∧
    ¬ IsPercentage (.num (.fin 150)) := by
  refine ⟨by decide, ?_⟩
  rintro ⟨k, hk, h⟩
  simp only [JSValue.num.injEq, JSNum.fin.injEq] at h
  have h150 : (150 : ℚ) = ((150 : Nat) : ℚ) := by norm_num
  rw [h150] at h
  have := Nat.cast_injective h
  omega

/-- Claim C3, amended. For every input, the confidence of the record returned by
`parseLLMResponse` is a number and is never `NaN` (no range or integrality check is made:
the number is whatever `Number` makes of the decoded confidence, or 50). -/
theorem confidence_is_number (responseText : ModelOutput) :
    ∃ n, field "confidence" (parseLLMResponse responseText) = .ok (.num n) ∧ n ≠ .nan :=
  confidence_number_core responseText

/-- Counterexample to claim C4: the text `{"confidence":null}` decodes to an object whose
confidence is `null`, and is normalized to confidence 0, not 50. -/
theorem null_confidence_is_zero :
    JSON.parse (cleanResponse (utf16 "\x7b\"confidence\":null\x7d")) =
      .ok (.obj (.cons (utf16 "confidence") .null .nil)) ∧
    field "confidence" (parseLLMResponse (.text (utf16 "\x7b\"confidence\":null\x7d"))) =
      .ok (.num (.fin 0)) ∧
    JSValue.num (.fin 0) ≠ .num (.fin 50) := by
  decide

/-- Claim C4, amended. For a text that decodes to a JSON object, `parseLLMResponse` returns
confidence 50 when the `confidence` field is absent, is a string that does not denote a
number, is an object, or is an array that `Number` turns into `NaN` or cannot convert; it
returns 0 for `null`, `false`, the empty string and the empty array, and 1 for `true`. -/
theorem confidence_default (text : JSString) (ps : JSProps)
    (h : JSON.parse (cleanResponse text) = .ok (.obj ps)) :
    let result := field "confidence" (parseLLMResponse (.text text))
    let given := ps.get (utf16 "confidence")
    (given = none → result = .ok (.num (.fin 50))) ∧
    (∀ s, given = some (.str s) → stringToNumber s = .nan → result = .ok (.num (.fin 50))) ∧
    (∀ qs, given = some (.obj qs) → result = .ok (.num (.fin 50))) ∧
    (∀ es qs, given = some (.arr es qs) → (∀ n, toNumber (.arr es qs) = .ok n → n = .nan) →
      result = .ok (.num (.fin 50))) ∧
    (given = some .null → result = .ok (.num (.fin 0))) ∧
    (given = some (.bool false) → result = .ok (.num (.fin 0))) ∧
    (given = some (.bool true) → result = .ok (.num (.fin 1))) ∧
    (given = some (.str []) → result = .ok (.num (.fin 0))) ∧
    (given = some (.arr .nil .nil) → result = .ok (.num (.fin 0))) := by
  intro result given
  have hr : result = .ok (.num (confidenceOf ps)) := confidence_of_object text ps h
  have h0 : stringToNumber [] = .fin 0 := by decide
  have ha : toNumber (.arr .nil .nil) = .ok (.fin 0) := by decide
  refine ⟨?_, ?_, ?_, ?_, ?_, ?_, ?_, ?_, ?_⟩
  · intro hg; rw [hr]; simp [confidenceOf, show ps.get (utf16 "confidence") = none from hg]
  · intro s hg hs; rw [hr]
    simp [confidenceOf, show ps.get (utf16 "confidence") = _ from hg, toNumber, hs, JSNum.isNaN]
  · intro qs hg; rw [hr]
    simp only [confidenceOf, show ps.get (utf16 "confidence") = _ from hg]
    cases hn : toNumber (.obj qs) with
    | error e => simp
    | ok n => simp [toNumber_obj qs n hn, JSNum.isNaN]
  · intro es qs hg hn; rw [hr]
    simp only [confidenceOf, show ps.get (utf16 "confidence") = _ from hg]
    cases hn' : toNumber (.arr es qs) with
    | error e => simp
    | ok n => simp [hn n hn', JSNum.isNaN]
  · intro hg; rw [hr]
    simp [confidenceOf, show ps.get (utf16 "confidence") = _ from hg, toNumber, JSNum.isNaN]
  · intro hg; rw [hr]
    simp [confidenceOf, show ps.get (utf16 "confidence") = _ from hg, toNumber, JSNum.isNaN]
  · intro hg; rw [hr]
    simp [confidenceOf, show ps.get (utf16 "confidence") = _ from hg, toNumber, JSNum.isNaN]
  · intro hg; rw [hr]
    simp [confidenceOf, show ps.get (utf16 "confidence") = _ from hg, toNumber, h0, JSNum.isNaN]
  · intro hg; rw [hr]
    simp [confidenceOf, show ps.get (utf16 "confidence") = _ from hg, ha, JSNum.isNaN]

/-- Witness of claim C4 (amended): `{"verdict":"Neutral","confidence":"high"}` decodes to an
object whose confidence is a string that denotes no number, and is normalized to 50. -/
theorem confidence_default_witness :
    JSON.parse (cleanResponse (utf16 "\x7b\"verdict\":\"Neutral\",\"confidence\":\"high\"\x7d")) =
      .ok (.obj (JSProps.ofList [(utf16 "verdict", .str (utf16 "Neutral")),
        (utf16 "confidence", .str (utf16 "high"))])) ∧
    stringToNumber (utf16 "high") = .nan ∧
    field "confidence"
        (parseLLMResponse (.text (utf16 "\x7b\"verdict\":\"Neutral\",\"confidence\":\"high\"\x7d"))) =
      .ok (.num (.fin 50)) :=
  ⟨by decide, by decide,
   (confidence_default (utf16 "\x7b\"verdict\":\"Neutral\",\"confidence\":\"high\"\x7d")
      (JSProps.ofList [(utf16 "verdict", .str (utf16 "Neutral")),
        (utf16 "confidence", .str (utf16 "high"))])
      (by decide)).2.1 (utf16 "high") (by decide) (by decide)⟩

/-- Counterexample to claim C5: on a case whose verdict is `Favor of A` (reasoning
`A has the stronger claim`, confidence 90) a run whose model response is `{"confidence":0}`
succeeds; the normalized record has no verdict, no reasoning and confidence 0, yet the stored
`aiVerdict` keeps the previous verdict, reasoning and confidence. -/
theorem previous_verdict_kept :
    (submitArgument (.fin 5) (modelAnswers "\x7b\"confidence\":0\x7d") (some decidedCase)
      (finalPoint 1)).response.status = 200 ∧
    parseLLMResponse (.text (utf16 "\x7b\"confidence\":0\x7d")) =
      .ok (.obj (.cons (utf16 "confidence") (.num (.fin 0)) .nil)) ∧
    ((submitArgument (.fin 5) (modelAnswers "\x7b\"confidence\":0\x7d") (some decidedCase)
      (finalPoint 1)).persisted (some decidedCase)).map (fun c => c.aiVerdict) =
      some { verdict := .str (utf16 "Favor of A")
             reasoning := .str (utf16 "A has the stronger claim")
             confidence := .num (.fin 90)
             decidedAt := some 2000 } := by
  decide

/-- Claim C5, amended. After every successful submit-argument run, each of the stored
verdict, reasoning and confidence is what the schema casts (to a string, a string and a
number) from the field of the normalized record of that run's model response when that field
is truthy; a falsy field (missing, empty, zero) falls back to the previous `aiVerdict`'s value
when that is truthy, and otherwise to `Neutral`, the empty string and 50.  In particular a
verdict or reasoning of the record that is a non-empty string, and a confidence that is not
zero, are stored as they are; `decidedAt` is always replaced. -/
theorem verdict_overwritten_with_fallback (MAX : JSNum) (env : Env) (stored : Option Case)
    (req : ArgumentRequest)
    (hok : (submitArgument MAX env stored req).response.status = 200) :
    ∃ c msgs r parsed verdict reasoning confidence c2,
      stored = some c ∧
      (submitArgument MAX env stored req).llmCalls = [msgs] ∧
      env.callLLM msgs = .ok r ∧
      parseLLMResponse r = .ok parsed ∧
      getProp parsed (utf16 "verdict") = .ok verdict ∧
      getProp parsed (utf16 "reasoning") = .ok reasoning ∧
      getProp parsed (utf16 "confidence") = .ok confidence ∧
      (submitArgument MAX env stored req).persisted stored = some c2 ∧
      castString (jsOr (jsOr verdict c.aiVerdict.verdict) (.str (utf16 "Neutral"))) =
        some c2.aiVerdict.verdict ∧
      castString (jsOr (jsOr reasoning c.aiVerdict.reasoning) (.str [])) =
        some c2.aiVerdict.reasoning ∧
      castNumber (jsOr (jsOr confidence c.aiVerdict.confidence) (.num (.fin 50))) =
        some c2.aiVerdict.confidence ∧
      c2.aiVerdict.decidedAt = some env.now2 ∧
      (∀ s, verdict = .str s → s ≠ [] → c2.aiVerdict.verdict = verdict) ∧
      (∀ s, reasoning = .str s → s ≠ [] → c2.aiVerdict.reasoning = reasoning) ∧
      (truthy confidence = true → c2.aiVerdict.confidence = confidence) := by
  rcases submitArgument_cases MAX env stored req with
    ⟨-, -, -, h200⟩ | ⟨c, hc, -, -, -, -, -, heq⟩
  · exact absurd hok h200
  · rw [heq] at hok ⊢
    unfold acceptedRun at hok ⊢
    rcases submitAfterSave_cases env
        (addArgument c (decide (c.lawyerA = req.user))
          { text := req.text, counter := .str [], timestamp := env.now1 })
        (decide (c.lawyerA = req.user)) req.text with
      ⟨-, h500, -⟩ | ⟨msgs, r, c2, -, hl, hr, hsv, hcalls, -⟩
    · rw [h500] at hok; simp at hok
    · obtain ⟨parsed, verdict, reasoning, confidence, counter, verdict1, reasoning1,
        confidence1, args, hp, hv, hre, hcf, -, h1, h2, h3, -, hc2⟩ := reconsider_ok _ _ _ _ _ hr
      have hav : (addArgument c (decide (c.lawyerA = req.user))
          { text := req.text, counter := .str [], timestamp := env.now1 }).aiVerdict =
          c.aiVerdict := by
        unfold addArgument; split <;> rfl
      rw [hav] at h1 h2 h3
      have e1 : c2.aiVerdict.verdict = verdict1 := by rw [hc2]
      have e2 : c2.aiVerdict.reasoning = reasoning1 := by rw [hc2]
      have e3 : c2.aiVerdict.confidence = confidence1 := by rw [hc2]
      have e4 : c2.aiVerdict.decidedAt = some env.now2 := by rw [hc2]
      refine ⟨c, msgs, r, parsed, verdict, reasoning, confidence, c2, hc, hcalls, hl, hp, hv, hre,
        hcf, by simp [Outcome.persisted, hsv], by rw [e1]; exact h1, by rw [e2]; exact h2,
        by rw [e3]; exact h3, e4, ?_, ?_, ?_⟩
      · intro s hs hne
        subst hs
        have ht : truthy (.str s) = true := by
          cases s with
          | nil => exact absurd rfl hne
          | cons a b => rfl
        simp only [jsOr, ht, if_true, castString, Option.some.injEq] at h1
        rw [e1, ← h1]
      · intro s hs hne
        subst hs
        have ht : truthy (.str s) = true := by
          cases s with
          | nil => exact absurd rfl hne
          | cons a b => rfl
        simp only [jsOr, ht, if_true, castString, Option.some.injEq] at h2
        rw [e2, ← h2]
      · intro ht
        obtain ⟨n, hn, hnan⟩ := confidence_number_core r
        simp only [field, hp, Except.bind, hcf, Except.ok.injEq] at hn
        subst hn
        have hnn : n.isNaN = false := by
          cases n <;> simp_all [JSNum.isNaN]
        simp only [jsOr, ht, if_true, castNumber, hnn, Bool.false_eq_true, if_false,
          Option.some.injEq] at h3
        rw [e3, ← h3]

/-- Witness of claim C5 (amended): a successful run on the decided sample case, the model
answering `{"verdict":"Favor of B","confidence":70,"reasoning":"B rebutted"}`; the stored
verdict is the one in the normalized record. -/
theorem verdict_overwritten_with_fallback_witness :
    (submitArgument (.fin 5)
      (modelAnswers "\x7b\"verdict\":\"Favor of B\",\"confidence\":70,\"reasoning\":\"B rebutted\"\x7d")
      (some decidedCase) (finalPoint 2)).response.status = 200 ∧
    ((submitArgument (.fin 5)
      (modelAnswers "\x7b\"verdict\":\"Favor of B\",\"confidence\":70,\"reasoning\":\"B rebutted\"\x7d")
      (some decidedCase) (finalPoint 2)).persisted (some decidedCase)).map (fun c => c.aiVerdict) =
      some { verdict := .str (utf16 "Favor of B")
             reasoning := .str (utf16 "B rebutted")
             confidence := .num (.fin 70)
             decidedAt := some 2000 } ∧
    ∃ c2, (submitArgument (.fin 5)
      (modelAnswers "\x7b\"verdict\":\"Favor of B\",\"confidence\":70,\"reasoning\":\"B rebutted\"\x7d")
      (some decidedCase) (finalPoint 2)).persisted (some decidedCase) = some c2 ∧
      c2.aiVerdict.decidedAt = some 2000 := by
  refine ⟨by decide, by decide, ?_⟩
  obtain ⟨c, msgs, r, parsed, verdict, reasoning, confidence, c2, -, -, -, -, -, -, -, hp, -, -,
      -, hd, -⟩ :=
    verdict_overwritten_with_fallback (.fin 5)
      (modelAnswers "\x7b\"verdict\":\"Favor of B\",\"confidence\":70,\"reasoning\":\"B rebutted\"\x7d")
      (some decidedCase) (finalPoint 2) (by decide)
  exact ⟨c2, hp, hd⟩

/-- Counterexample to claim C6, at three inputs the code can receive.  Lawyer 1 has created
a case and joined it as lawyer B, so lawyer 1 is the party of side B, whose count 0 is below
the limit 5: the submission is appended to side A and side B stays empty.  On the same case
after one argument of lawyer 1, with the limit 1, the count of side B is still 0, below the
limit, and the submission is rejected and appends nothing.  And with `MAX_ARGUMENTS=five`
the limit is `NaN`: on the sample case the count 0 of side A is not below it, and the
submission of lawyer 1 appends. -/
theorem self_joined_not_recorded_on_own_side :
    (Reachable selfJoinedCase ∧
      selfJoinedCase.lawyer .B = some (finalPoint 1).user ∧
      JSNum.lt (.fin (selfJoinedCase.argumentCount .B)) (.fin 5) = true ∧
      (submitArgument (.fin 5) modelFails (some selfJoinedCase) (finalPoint 1)).saves =
        [{ selfJoinedCase with
            argumentsA := [{ text := utf16 "final point", counter := .str [], timestamp := 1000 }]
            argumentCountA := 1 }] ∧
      ∀ c' ∈ (submitArgument (.fin 5) modelFails (some selfJoinedCase) (finalPoint 1)).saves,
        c'.arguments .B = [] ∧ c'.argumentCount .B = 0) ∧
    (Reachable selfJoinedAfterArgument ∧
      selfJoinedAfterArgument.lawyer .B = some (finalPoint 1).user ∧
      JSNum.lt (.fin (selfJoinedAfterArgument.argumentCount .B)) (.fin 1) = true ∧
      submitArgument (.fin 1) modelFails (some selfJoinedAfterArgument) (finalPoint 1) =
        { response := failure 403 "Maximum arguments reached for Lawyer A" none, saves := [],
          llmCalls := [] }) ∧
    (Reachable sampleCase ∧
      sampleCase.lawyer .A = some (finalPoint 1).user ∧
      MAX_ARGUMENTS (some (utf16 "five")) = .nan ∧
      JSNum.lt (.fin (sampleCase.argumentCount .A)) (MAX_ARGUMENTS (some (utf16 "five"))) = false ∧
      (submitArgument (MAX_ARGUMENTS (some (utf16 "five"))) modelFails (some sampleCase)
        (finalPoint 1)).saves =
        [{ sampleCase with
            argumentsA := [{ text := utf16 "final point", counter := .str [], timestamp := 1000 }]
            argumentCountA := 1 }]) :=
  ⟨⟨selfJoinedCase_reachable, by decide, by decide, by decide, by decide⟩,
   ⟨selfJoinedAfterArgument_reachable, by decide, by decide, by decide⟩,
   ⟨Reachable.joined _ 2 (Reachable.created _ _ _ _ _) rfl, by decide, by decide, by decide,
    by decide⟩⟩

/-- Claim C6, amended. For every case the controllers can have stored (and every document
with two different lawyers), every non-empty text and every caller who is a party, `s` being
the side the submission is recorded on (A when the caller is `lawyerA`, also when the same
user is `lawyerB`; otherwise B), `submitArgument` with a limit `m` that is a number appends
to side `s` if and only if the count of `s` is below `m`.  When it appends, the first document it saves has the sequence of `s` grown by exactly
one entry at the end, with the submitted text and the empty counter, and the count of `s`
increased by exactly 1, both in that one save; when it does not, it answers with the limit
error of `s` and the persisted case is the stored one. -/
theorem submit_appends_iff_below_limit (c : Case) (s : Side) (m : ℚ) (env : Env)
    (req : ArgumentRequest) (hcase : Reachable c ∨ c.lawyerB ≠ some c.lawyerA)
    (hid : req.caseId ≠ []) (htext : req.text ≠ [])
    (hside : callerSide c req.user = some s) :
    ((submitArgument (.fin m) env (some c) req).saves ≠ [] ↔ (c.argumentCount s : ℚ) < m) ∧
    ((c.argumentCount s : ℚ) < m →
      ∃ c1, (submitArgument (.fin m) env (some c) req).saves.head? = some c1 ∧
        c1.arguments s =
          c.arguments s ++ [{ text := req.text, counter := .str [], timestamp := env.now1 }] ∧
        c1.argumentCount s = c.argumentCount s + 1) ∧
    (¬ (c.argumentCount s : ℚ) < m →
      (submitArgument (.fin m) env (some c) req).response = failure 403 (limitMessage s) none ∧
      (submitArgument (.fin m) env (some c) req).persisted (some c) = some c) :=
  submit_appends_core c s m env req hid htext hside (sideB_of_shared_lawyer c hcase)

/-- Witness of claim C6 (amended): lawyer 1 of the sample case (side A, count 0, limit 5) submits
`final point`; the run saves, and the first saved document has the new entry. -/
theorem submit_appends_iff_below_limit_witness :
    Reachable sampleCase ∧
    callerSide sampleCase 1 = some .A ∧
    (submitArgument (.fin 5) modelFails (some sampleCase) (finalPoint 1)).saves ≠ [] ∧
    ∃ c1, (submitArgument (.fin 5) modelFails (some sampleCase) (finalPoint 1)).saves.head? =
        some c1 ∧
      c1.arguments .A = [{ text := utf16 "final point", counter := .str [], timestamp := 1000 }] ∧
      c1.argumentCount .A = 1 := by
  have hreach : Reachable sampleCase := Reachable.joined _ 2 (Reachable.created _ _ _ _ _) rfl
  have hlt : ((sampleCase.argumentCount .A : ℕ) : ℚ) < 5 := by
    have : sampleCase.argumentCount .A = 0 := by decide
    rw [this]; norm_num
  have h := submit_appends_iff_below_limit sampleCase .A 5 modelFails (finalPoint 1)
    (Or.inl hreach) (by decide) (by decide) (by decide)
  exact ⟨hreach, by decide, h.1.2 hlt, h.2.1 hlt⟩

/-- Claim C7. Whenever `submitArgument` answers 404 (case not found) or 403 (not a party,
or argument limit reached), it has saved nothing, it has not called the model, and the
persisted case is the stored one. -/
theorem rejected_unmodified (MAX : JSNum) (env : Env) (stored : Option Case)
    (req : ArgumentRequest)
    (h : (submitArgument MAX env stored req).response.status = 404 ∨
         (submitArgument MAX env stored req).response.status = 403) :
    (submitArgument MAX env stored req).saves = [] ∧
    (submitArgument MAX env stored req).llmCalls = [] ∧
    (submitArgument MAX env stored req).persisted stored = stored := by
  rcases submitArgument_cases MAX env stored req with ⟨h1, h2, -, -⟩ | ⟨c, -, -, -, -, -, -, heq⟩
  · exact ⟨h1, h2, by simp [Outcome.persisted, h1]⟩
  · exfalso
    rw [heq] at h
    have := submitAfterSave_status env
      (addArgument c (decide (c.lawyerA = req.user))
        { text := req.text, counter := .str [], timestamp := env.now1 })
      (decide (c.lawyerA = req.user)) req.text
    unfold acceptedRun at h
    omega

/-- Witness of claim C7: the three rejections on concrete runs (no such case; user 3 is no
party of the sample case; lawyer 1 at the limit 0). -/
theorem rejected_unmodified_witness :
    (submitArgument (.fin 5) (modelAnswers "\x7b\x7d") none (finalPoint 1)).response =
      failure 404 "Case not found" none ∧
    (submitArgument (.fin 5) (modelAnswers "\x7b\x7d") (some sampleCase) (finalPoint 3)).response =
      failure 403 "You are not part of this case" none ∧
    (submitArgument (.fin 0) (modelAnswers "\x7b\x7d") (some sampleCase) (finalPoint 1)).response =
      failure 403 "Maximum arguments reached for Lawyer A" none ∧
    (submitArgument (.fin 0) (modelAnswers "\x7b\x7d") (some sampleCase) (finalPoint 1)).saves = [] ∧
    (submitArgument (.fin 0) (modelAnswers "\x7b\x7d") (some sampleCase) (finalPoint 1)).llmCalls = [] :=
  ⟨by decide, by decide, by decide,
    (rejected_unmodified (.fin 0) (modelAnswers "\x7b\x7d") (some sampleCase) (finalPoint 1)
      (Or.inr (by decide))).1,
    (rejected_unmodified (.fin 0) (modelAnswers "\x7b\x7d") (some sampleCase) (finalPoint 1)
      (Or.inr (by decide))).2.1⟩

/-- Claim C8. The predicate "each count equals the length of its argument sequence" holds
for a newly created case; on a case where it holds, it holds of every document that
`submitArgument` or `getVerdict` saves and of the case persisted after the run, whatever the
outcome (success, precondition failure, model failure); so it holds in every reachable case
state. -/
theorem count_invariant :
    (∀ title description category jurisdiction user,
      countInv (createCase title description category jurisdiction user)) ∧
    (∀ MAX env c req, countInv c →
      (∀ c' ∈ (submitArgument MAX env (some c) req).saves, countInv c') ∧
      (∀ c', (submitArgument MAX env (some c) req).persisted (some c) = some c' → countInv c')) ∧
    (∀ env c req, countInv c →
      (∀ c' ∈ (getVerdict env (some c) req).saves, countInv c') ∧
      (∀ c', (getVerdict env (some c) req).persisted (some c) = some c' → countInv c')) ∧
    (∀ c, Reachable c → countInv c) := by
  have hv : ∀ env c req, countInv c →
      ∀ c' ∈ (getVerdict env (some c) req).saves, countInv c' := by
    intro env c req hc c' h
    obtain ⟨c0, v, h0, rfl⟩ := getVerdict_saves env (some c) req c' h
    simp only [Option.some.injEq] at h0
    subst h0
    exact hc
  have hp : ∀ (o : Outcome) (c : Case), countInv c → (∀ c' ∈ o.saves, countInv c') →
      ∀ c', o.persisted (some c) = some c' → countInv c' := by
    intro o c hc hs c' h
    unfold Outcome.persisted at h
    cases hl : o.saves.getLast? with
    | none =>
      simp only [hl, Option.some.injEq] at h
      exact h ▸ hc
    | some c2 =>
      simp only [hl, Option.some.injEq] at h
      exact h ▸ hs c2 (List.mem_of_getLast?_eq_some hl)
  refine ⟨fun _ _ _ _ _ => by simp [countInv, createCase], ?_, ?_, ?_⟩
  · intro MAX env c req hc
    have hs := fun c' h => submitArgument_preserves MAX env c req hc c' h
    exact ⟨hs, hp _ c hc hs⟩
  · intro env c req hc
    exact ⟨hv env c req hc, hp _ c hc (hv env c req hc)⟩
  · intro c hr
    induction hr with
    | created => simp [countInv, createCase]
    | joined c user _ _ ih => exact ih
    | verdict env c req c' _ h ih => exact hv env c req ih c' h
    | argument MAX env c req c' _ h ih => exact submitArgument_preserves MAX env c req ih c' h

/-- Counterexample to claim C9, at an input the code can receive: lawyer 1 has created a
case, submitted one argument and joined the case as lawyer B.  With the limit 1, lawyer 1 is
the lawyer of side B, whose count is 0; the very first call of that lawyer is rejected with
a limit error (that of side A) and appends nothing, so it is not the first call that
appends. -/
theorem self_joined_first_call_rejected :
    Reachable selfJoinedAfterArgument ∧
    selfJoinedAfterArgument.lawyer .B = some 1 ∧
    selfJoinedAfterArgument.argumentCount .B = 0 ∧
    submitAll (.fin ((1 : Nat) : ℚ)) (utf16 "665f1c2e9b1d4a0012345678") 1
        (some selfJoinedAfterArgument) [(modelAnswers "\x7b\x7d", utf16 "first point")] =
      [(some selfJoinedAfterArgument,
        { response := failure 403 "Maximum arguments reached for Lawyer A" none, saves := [],
          llmCalls := [] })] :=
  ⟨selfJoinedAfterArgument_reachable, by decide, by decide, by decide⟩

/-- Claim C9, amended. For every limit `m ≥ 0` and side `s`, from a case the controllers can
have stored (or a document with two different lawyers) where the count of `s` is 0, in any
sequence of `submitArgument` calls by one party whose submissions are recorded on `s` (A
when the caller is `lawyerA`, otherwise B; non-empty texts, whatever the model answers
or throws), the call number `i` (from 0) appends an argument to `s` when `i < m`, the count
becoming `i + 1`, and is rejected with the limit error of `s`, saving nothing, when `m ≤ i`:
exactly the first `m` calls append. -/
theorem exactly_max_submissions (m : Nat) (s : Side) (c : Case) (caseId : JSString)
    (user : UserId) (calls : List (Env × JSString))
    (hcase : Reachable c ∨ c.lawyerB ≠ some c.lawyerA) (hid : caseId ≠ [])
    (htext : ∀ call ∈ calls, call.2 ≠ []) (hside : callerSide c user = some s)
    (h0 : c.argumentCount s = 0) (i : Nat) (before : Option Case) (o : Outcome)
    (hi : (submitAll (.fin (m : ℚ)) caseId user (some c) calls)[i]? = some (before, o)) :
    (i < m → ∃ b c1 call, calls[i]? = some call ∧ before = some b ∧
      o.saves.head? = some c1 ∧
      c1.arguments s =
        b.arguments s ++ [{ text := call.2, counter := .str [], timestamp := call.1.now1 }] ∧
      c1.argumentCount s = i + 1) ∧
    (m ≤ i → o.response = failure 403 (limitMessage s) none ∧ o.saves = [] ∧
      o.persisted before = before) := by
  have h := submitAll_from m s caseId user hid calls c 0 htext hcase hside h0 i before o hi
  simpa using h

/-- Witness of claim C9 (amended): limit 1, on the case lawyer 1 created and then joined as lawyer B,
lawyer 1 calls twice (the model throws on the first call); the second call is rejected with
the limit error of side A. -/
theorem exactly_max_submissions_witness :
    Reachable selfJoinedCase ∧
    callerSide selfJoinedCase 1 = some .A ∧
    (submitArgument (.fin ((1 : Nat) : ℚ)) (modelAnswers "\x7b\x7d")
      ((submitArgument (.fin ((1 : Nat) : ℚ)) modelFails (some selfJoinedCase)
        { caseId := utf16 "665f1c2e9b1d4a0012345678", text := utf16 "first point", user := 1 }).persisted
        (some selfJoinedCase))
      { caseId := utf16 "665f1c2e9b1d4a0012345678", text := utf16 "second point", user := 1 }).response =
      failure 403 (limitMessage .A) none :=
  ⟨selfJoinedCase_reachable, by decide,
   ((exactly_max_submissions 1 .A selfJoinedCase (utf16 "665f1c2e9b1d4a0012345678") 1
    [(modelFails, utf16 "first point"), (modelAnswers "\x7b\x7d", utf16 "second point")]
    (Or.inl selfJoinedCase_reachable)
    (by decide) (by decide) (by decide) (by decide) 1 _ _ rfl).2 (le_refl 1)).1⟩

/-- Claim C10. When a run of `submitArgument` calls the model (so the submission has passed
every precondition check) and the call throws, the run has saved exactly one document, which
is the persisted case: the new argument is the last entry of the caller's side with the empty
counter, that side's count is incremented, the other side and `aiVerdict` are as before; the
caller receives status 500 with the message `LLM call failed` and the model's error. -/
theorem model_failure_keeps_argument (MAX : JSNum) (env : Env) (c : Case)
    (req : ArgumentRequest) (msgs : List Message) (err : JSError)
    (hcall : msgs ∈ (submitArgument MAX env (some c) req).llmCalls)
    (hthrow : env.callLLM msgs = .error err) :
    ∃ s c1, callerSide c req.user = some s ∧
      (submitArgument MAX env (some c) req).response = failure 500 "LLM call failed" (some err) ∧
      (submitArgument MAX env (some c) req).saves = [c1] ∧
      (submitArgument MAX env (some c) req).persisted (some c) = some c1 ∧
      c1.arguments s =
        c.arguments s ++ [{ text := req.text, counter := .str [], timestamp := env.now1 }] ∧
      c1.argumentCount s = c.argumentCount s + 1 ∧
      c1.arguments s.other = c.arguments s.other ∧
      c1.argumentCount s.other = c.argumentCount s.other ∧
      c1.aiVerdict = c.aiVerdict := by
  rcases submitArgument_cases MAX env (some c) req with
    ⟨-, h2, -⟩ | ⟨c0, hc0, -, -, hparty, -, -, heq⟩
  · rw [h2] at hcall; simp at hcall
  · simp only [Option.some.injEq] at hc0
    subst hc0
    rw [heq] at hcall ⊢
    unfold acceptedRun at hcall ⊢
    have hside : ∃ s, callerSide c req.user = some s ∧
        (s = .A ↔ c.lawyerA = req.user) := by
      by_cases hA : c.lawyerA = req.user
      · exact ⟨.A, by simp [callerSide, hA], by simp [hA]⟩
      · rcases hparty with h | h
        · exact absurd h hA
        · exact ⟨.B, by simp [callerSide, hA, h], by simp [hA]⟩
    obtain ⟨s, hs, hsA⟩ := hside
    refine ⟨s, addArgument c (decide (c.lawyerA = req.user))
      { text := req.text, counter := .str [], timestamp := env.now1 }, hs, ?_⟩
    rcases submitAfterSave_cases env
        (addArgument c (decide (c.lawyerA = req.user))
          { text := req.text, counter := .str [], timestamp := env.now1 })
        (decide (c.lawyerA = req.user)) req.text with
      ⟨hsv, -, hl⟩ | ⟨msgs', r, c2, -, hl, -, -, hcalls, -⟩
    · rcases hl with hl | ⟨msgs', hl, hl'⟩
      · rw [hl] at hcall; simp at hcall
      · rw [hl] at hcall
        simp only [List.mem_singleton] at hcall
        subst hcall
        rcases hl' with ⟨err', he, hresp⟩ | ⟨r, hr⟩
        · rw [hthrow] at he
          simp only [Except.error.injEq] at he
          subst he
          refine ⟨hresp, hsv, by simp [Outcome.persisted, hsv], ?_⟩
          cases s with
          | A =>
            have hA := hsA.1 rfl
            simp [addArgument, hA, Case.arguments, Case.argumentCount, Side.other]
          | B =>
            have hA : c.lawyerA ≠ req.user := fun h => by simpa using hsA.2 h
            simp [addArgument, hA, Case.arguments, Case.argumentCount, Side.other]
        · rw [hthrow] at hr; simp at hr
    · rw [hcalls] at hcall
      simp only [List.mem_singleton] at hcall
      subst hcall
      rw [hthrow] at hl; simp at hl

/-- Witness of claim C10: lawyer 2 of the decided sample case submits `final point`, the
model call throws; the response is the model failure and the one saved document has the
argument on side B with the empty counter and the previous verdict. -/
theorem model_failure_keeps_argument_witness :
    (submitArgument (.fin 5) modelFails (some decidedCase) (finalPoint 2)).llmCalls =
      [[{ role := utf16 "system", content := reconsiderSystemPrompt },
        { role := utf16 "user",
          content := utf16 "Case: Smith vs Johnson\nSummary: Breach of contract\nPrevious AI verdict: Favor of A\nPrevious reasoning: A has the stronger claim\nNew argument: final point" }]] ∧
    ∃ s c1, callerSide decidedCase 2 = some s ∧
      (submitArgument (.fin 5) modelFails (some decidedCase) (finalPoint 2)).response =
        failure 500 "LLM call failed" (some (.Error (utf16 "GEMINI_API_KEY not set"))) ∧
      (submitArgument (.fin 5) modelFails (some decidedCase) (finalPoint 2)).saves = [c1] ∧
      c1.arguments s =
        decidedCase.arguments s ++
          [{ text := utf16 "final point", counter := .str [], timestamp := 1000 }] ∧
      c1.aiVerdict = decidedCase.aiVerdict := by
  refine ⟨by decide, ?_⟩
  obtain ⟨s, c1, h1, h2, h3, -, h5, -, -, -, h9⟩ :=
    model_failure_keeps_argument (.fin 5) modelFails decidedCase (finalPoint 2)
      [{ role := utf16 "system", content := reconsiderSystemPrompt },
        { role := utf16 "user",
          content := utf16 "Case: Smith vs Johnson\nSummary: Breach of contract\nPrevious AI verdict: Favor of A\nPrevious reasoning: A has the stronger claim\nNew argument: final point" }]
      (.Error (utf16 "GEMINI_API_KEY not set")) (by decide) rfl
  exact ⟨s, c1, h1, h2, h3, h5, h9⟩

/-! ## Remark on the amendment of claims C6 and C9 -/

/-- The hypothesis of the two amended theorems leaves out only documents that no sequence of
runs stores, such as the one with a single user on both sides and arguments on side B: side
B receives arguments only from a lawyer B who is not lawyer A. -/
theorem dualRoleCase_unreachable : ¬ Reachable dualRoleCase := by
  intro h
  have h5 : dualRoleCase.argumentCountB = 0 := reachable_sideBUnused _ h (Or.inr (by decide))
  exact absurd h5 (by decide)

/-! ## Lemmas on `getVerdict` and on the prompts -/

/-- The two shapes of a run of `getVerdict`: it fails and saves nothing, or it completes and
saves the stored case with the new `aiVerdict`. -/
theorem getVerdict_cases (env : Env) (stored : Option Case) (req : VerdictRequest) :
    ((getVerdict env stored req).saves = [] ∧
      (getVerdict env stored req).response.status ≠ 200 ∧
      ((getVerdict env stored req).llmCalls = [] ∨
        ∃ msgs, (getVerdict env stored req).llmCalls = [msgs] ∧
          ((∃ err, env.callLLM msgs = .error err ∧
              (getVerdict env stored req).response = failure 500 "LLM call failed" (some err)) ∨
           (∃ r, env.callLLM msgs = .ok r)))) ∨
    (∃ c msgs r parsed v, stored = some c ∧
      buildVerdictPrompt c req.documentSummaries = .ok msgs ∧ env.callLLM msgs = .ok r ∧
      parseLLMResponse r = .ok parsed ∧ initialVerdict parsed env.now1 = .ok v ∧
      (getVerdict env stored req).saves = [{ c with aiVerdict := v }] ∧
      (getVerdict env stored req).llmCalls = [msgs] ∧
      (getVerdict env stored req).response =
        { status := 200, success := true, message := utf16 "AI verdict generated",
          error := none, data := .aiVerdict v }) := by
  unfold getVerdict
  by_cases h0 : req.caseId.isEmpty = true
  · left; simp [h0, failure]
  · cases stored with
    | none => left; simp [h0, failure]
    | some c =>
      cases hb : buildVerdictPrompt c req.documentSummaries with
      | error e => left; simp [h0, hb, failure]
      | ok msgs =>
        cases hl : env.callLLM msgs with
        | error err => left; simp [h0, hb, hl, failure]
        | ok r =>
          cases hp : parseLLMResponse r with
          | error e => left; simp [h0, hb, hl, hp, failure, Except.bind]
          | ok parsed =>
            cases hv : initialVerdict parsed env.now1 with
            | error e => left; simp [h0, hb, hl, hp, hv, failure, Except.bind]
            | ok v =>
              right
              exact ⟨c, msgs, r, parsed, v, rfl, hb, hl, hp, hv,
                by simp [h0, hb, hl, hp, hv, Except.bind]⟩

/-- Every prompt `getVerdict` hands to the model is built by `buildVerdictPrompt` from the
stored case and the request's summaries. -/
theorem getVerdict_llmCalls (env : Env) (stored : Option Case) (req : VerdictRequest)
    (msgs : List Message) (h : msgs ∈ (getVerdict env stored req).llmCalls) :
    ∃ c, stored = some c ∧ buildVerdictPrompt c req.documentSummaries = .ok msgs := by
  unfold getVerdict at h
  by_cases h0 : req.caseId.isEmpty = true
  · simp [h0] at h
  · cases stored with
    | none => simp [h0] at h
    | some c =>
      cases hb : buildVerdictPrompt c req.documentSummaries with
      | error e => simp [h0, hb] at h
      | ok msgs' =>
        refine ⟨c, rfl, ?_⟩
        cases hl : env.callLLM msgs' with
        | error err =>
          simp only [h0, hb, hl, List.mem_singleton] at h
          simp at h
          rw [h, hb]
        | ok r =>
          simp only [h0, hb, hl] at h
          cases hv : (parseLLMResponse r).bind fun parsed => initialVerdict parsed env.now1 with
          | error e => simp [hv] at h; rw [h, hb]
          | ok v => simp [hv] at h; rw [h, hb]

/-- The shape of the messages `buildVerdictPrompt` returns: the constant system message,
then one user message. -/
theorem buildVerdictPrompt_shape (c : Case) (docs : List DocumentSummary) (msgs : List Message)
    (h : buildVerdictPrompt c docs = .ok msgs) :
    ∃ user, msgs = [{ role := utf16 "system", content := verdictSystemPrompt },
                    { role := utf16 "user", content := user }] := by
  unfold buildVerdictPrompt at h
  cases docs with
  | nil =>
    simp only [List.length_nil, ne_eq, not_true_eq_false, if_false, bind, Except.bind, pure,
      Except.pure, Except.ok.injEq] at h
    exact ⟨_, h.symm⟩
  | cons d rest =>
    cases hs : summaryLines 0 (d :: rest) with
    | error e => simp [hs, bind, Except.bind] at h
    | ok lines =>
      simp [hs, bind, Except.bind, pure, Except.pure] at h
      exact ⟨_, h.symm⟩

/-- The shape of the messages `buildReconsiderPrompt` returns: the constant system message,
then one user message. -/
theorem buildReconsiderPrompt_shape (c : Case) (text : JSString) (msgs : List Message)
    (h : buildReconsiderPrompt c text = .ok msgs) :
    ∃ user, msgs = [{ role := utf16 "system", content := reconsiderSystemPrompt },
                    { role := utf16 "user", content := user }] := by
  unfold buildReconsiderPrompt at h
  cases hv : toStringJS (jsOr c.aiVerdict.verdict (.str (utf16 "No previous verdict"))) with
  | error e => simp [hv, bind, Except.bind] at h
  | ok verdict =>
    cases hr : toStringJS (jsOr c.aiVerdict.reasoning (.str [])) with
    | error e => simp [hv, hr, bind, Except.bind] at h
    | ok reasoning =>
      simp only [hv, hr, bind, Except.bind, pure, Except.pure, Except.ok.injEq] at h
      exact ⟨_, h.symm⟩

/-- Every prompt `submitArgument` hands to the model is built by `buildReconsiderPrompt`
from the case with the new argument and the request's text. -/
theorem submitArgument_llmCalls (MAX : JSNum) (env : Env) (stored : Option Case)
    (req : ArgumentRequest) (msgs : List Message)
    (h : msgs ∈ (submitArgument MAX env stored req).llmCalls) :
    ∃ c1, buildReconsiderPrompt c1 req.text = .ok msgs := by
  rcases submitArgument_cases MAX env stored req with ⟨-, h2, -⟩ | ⟨c, -, -, -, -, -, -, heq⟩
  · rw [h2] at h; simp at h
  · rw [heq] at h
    unfold acceptedRun submitAfterSave at h
    refine ⟨addArgument c (decide (c.lawyerA = req.user))
      { text := req.text, counter := .str [], timestamp := env.now1 }, ?_⟩
    cases hb : buildReconsiderPrompt (addArgument c (decide (c.lawyerA = req.user))
      { text := req.text, counter := .str [], timestamp := env.now1 }) req.text with
    | error e => simp [hb] at h
    | ok msgs' =>
      cases hl : env.callLLM msgs' with
      | error err =>
        simp only [hb, hl, List.mem_singleton] at h
        rw [h]
      | ok r =>
        simp only [hb, hl] at h
        cases hr : reconsider (addArgument c (decide (c.lawyerA = req.user))
          { text := req.text, counter := .str [], timestamp := env.now1 })
          (decide (c.lawyerA = req.user)) r env.now2 with
        | error e => simp [hr] at h; rw [h]
        | ok c2 => simp [hr] at h; rw [h]

/-! ## Lemmas on the Response Normalizer -/

/-- A write to `k` leaves the other own properties as they were. -/
theorem JSProps.get_set_ne (k k' : JSString) (v : JSValue) (hne : k ≠ k') :
    ∀ ps : JSProps, (ps.set k v).get k' = ps.get k'
  | .nil => by simp [JSProps.set, JSProps.get, hne]
  | .cons k0 v0 rest => by
    have ih := JSProps.get_set_ne k k' v hne rest
    simp only [JSProps.set]
    split
    · rename_i h0; subst h0; simp [JSProps.get, hne]
    · simp [JSProps.get, ih]

/-- After `v.k = w` the read of another name gives what it gave before. -/
theorem getProp_setProp_ne (v w r : JSValue) (k k' : JSString) (hne : k ≠ k')
    (h : setProp v k w = .ok r) : getProp r k' = getProp v k' := by
  cases v <;> simp [setProp] at h <;> subst h <;> simp [getProp, JSProps.get_set_ne _ _ _ hne]

/-- The block `// Ensure confidence is a number` leaves every other member as decoded. -/
theorem ensureConfidence_frame (parsed r : JSValue) (k : JSString)
    (hne : utf16 "confidence" ≠ k) (h : ensureConfidence parsed = .ok r) :
    getProp r k = getProp parsed k := by
  unfold ensureConfidence at h
  cases hc : getProp parsed (utf16 "confidence") with
  | error e => simp [hc, bind, Except.bind] at h
  | ok c =>
    simp only [hc, bind, Except.bind] at h
    split at h
    · cases hn : toNumber c with
      | error e => simp [hn] at h
      | ok n =>
        simp only [hn] at h
        cases hs : setProp parsed (utf16 "confidence") (.num n) with
        | error e => simp [hs] at h
        | ok p1 =>
          simp only [hs] at h
          have h1 := getProp_setProp_ne _ _ _ _ k hne hs
          split at h
          · rw [getProp_setProp_ne _ _ _ _ k hne h, h1]
          · simp only [pure, Except.pure, Except.ok.injEq] at h
            subst h
            exact h1
    · exact getProp_setProp_ne _ _ _ _ k hne h

/-- The two ways `parseLLMResponse` returns: through its `catch` block with the fallback
record, or through its `try` block with the decoded value after the confidence block. -/
theorem parseLLMResponse_cases (responseText : ModelOutput) :
    (∃ e, parseLLMResponseTry responseText = .error e ∧
      parseLLMResponse responseText = parseLLMResponseCatch responseText) ∨
    (∃ text parsed r, responseText = .text text ∧
      JSON.parse (cleanResponse text) = .ok parsed ∧ ensureConfidence parsed = .ok r ∧
      parseLLMResponse responseText = .ok r) := by
  unfold parseLLMResponse tryCatch
  cases h : parseLLMResponseTry responseText with
  | error e => left; exact ⟨e, rfl, rfl⟩
  | ok v =>
    right
    cases responseText with
    | text s =>
      simp only [parseLLMResponseTry] at h
      cases hp : JSON.parse (cleanResponse s) with
      | error e => simp [hp, Except.bind] at h
      | ok parsed =>
        simp only [hp, Except.bind] at h
        exact ⟨s, parsed, v, rfl, hp, h, rfl⟩
    | undefined => simp [parseLLMResponseTry] at h
    | null => simp [parseLLMResponseTry] at h

/-- The reasoning of the fallback record: the fixed message followed by the raw output. -/
theorem catch_reasoning (responseText : ModelOutput) :
    field "reasoning" (parseLLMResponseCatch responseText) =
      .ok (.str (utf16 "Could not parse LLM response. Raw output: " ++ responseText.toTemplate)) := by
  have hr : utf16 "verdict" ≠ utf16 "reasoning" := by decide
  have hc : utf16 "confidence" ≠ utf16 "reasoning" := by decide
  simp [field, parseLLMResponseCatch, Except.bind, getProp, JSProps.ofList, JSProps.get, hr, hc]

/-- A member other than `confidence` of the record returned for a text that decodes to an
object whose confidence is a string: the member as decoded. -/
theorem member_of_object (text : JSString) (ps : JSProps) (s : JSString) (k : String)
    (h : JSON.parse (cleanResponse text) = .ok (.obj ps))
    (hc : ps.get (utf16 "confidence") = some (.str s)) (hne : utf16 "confidence" ≠ utf16 k) :
    field k (parseLLMResponse (.text text)) = .ok ((ps.get (utf16 k)).getD .undefined) := by
  rcases parseLLMResponse_cases (.text text) with ⟨e, he, -⟩ | ⟨text', parsed, r, ht, hp, hen, hr⟩
  · exfalso
    simp only [parseLLMResponseTry, h, Except.bind, ensureConfidence, getProp, hc, bind,
      Option.getD_some, toNumber, setProp] at he
    split at he
    · split at he <;> simp [pure, Except.pure] at he
    · simp at he
  · simp only [ModelOutput.text.injEq] at ht
    subst ht
    rw [h] at hp
    simp only [Except.ok.injEq] at hp
    subst hp
    rw [hr]
    simp only [field, Except.bind]
    rw [ensureConfidence_frame _ _ _ hne hen]
    rfl

/-! ## Lemmas on what an accepted submission writes -/

/-- The side `addArgument` pushes on gains exactly the entry, with its count; the other side
and the verdict are as before. -/
theorem addArgument_side (c : Case) (isA : Bool) (e : ArgumentEntry) (s : Side)
    (hs : s = if isA then Side.A else Side.B) :
    (addArgument c isA e).arguments s = c.arguments s ++ [e] ∧
    (addArgument c isA e).argumentCount s = c.argumentCount s + 1 ∧
    (addArgument c isA e).arguments s.other = c.arguments s.other ∧
    (addArgument c isA e).argumentCount s.other = c.argumentCount s.other ∧
    (addArgument c isA e).aiVerdict = c.aiVerdict := by
  subst hs
  cases isA <;> simp [addArgument, Case.arguments, Case.argumentCount, Side.other]

/-- A completed `reconsider` on a case whose caller's side ends with the entry `e` rewrites
the counter of that entry with `parsed.reasoning || ''` as the schema casts it to a string,
and leaves every other entry, the other side and both counts as they were. -/
theorem reconsider_side (c1 c2 : Case) (isA : Bool) (r : ModelOutput) (now : Nat) (s : Side)
    (init : List ArgumentEntry) (e : ArgumentEntry)
    (hs : s = if isA then Side.A else Side.B) (hargs : c1.arguments s = init ++ [e])
    (h : reconsider c1 isA r now = .ok c2) :
    ∃ parsed reasoning counter, parseLLMResponse r = .ok parsed ∧
      getProp parsed (utf16 "reasoning") = .ok reasoning ∧
      castString (jsOr reasoning (.str [])) = some counter ∧
      c2.arguments s = init ++ [{ e with counter := counter }] ∧
      c2.argumentCount s = c1.argumentCount s ∧
      c2.arguments s.other = c1.arguments s.other ∧
      c2.argumentCount s.other = c1.argumentCount s.other := by
  obtain ⟨parsed, verdict, reasoning, confidence, counter, verdict1, reasoning1, confidence1,
    args, hp, -, hr, -, hcnt, -, -, -, hset, rfl⟩ := reconsider_ok c1 c2 isA r now h
  obtain ⟨init', last, h1, h2⟩ := setLastCounter_ok _ _ _ hset
  refine ⟨parsed, reasoning, counter, hp, hr, hcnt, ?_⟩
  subst hs
  cases isA with
  | true =>
    simp only [if_true, Case.arguments] at hargs h1 ⊢
    rw [hargs] at h1
    obtain ⟨hi, hl⟩ := List.append_inj' h1 rfl
    simp only [List.cons.injEq, and_true] at hl
    subst hi hl
    simp [h2, Case.argumentCount, Side.other]
  | false =>
    simp only [Bool.false_eq_true, if_false, Case.arguments] at hargs h1 ⊢
    rw [hargs] at h1
    obtain ⟨hi, hl⟩ := List.append_inj' h1 rfl
    simp only [List.cons.injEq, and_true] at hl
    subst hi hl
    simp [h2, Case.argumentCount, Side.other]

/-- What an accepted run saves.  The first document is the stored case with the new entry,
counter empty, at the end of the caller's side and that side's count incremented.  A run
that does not answer 200 saves nothing more; a run that answers 200 saves a second document,
in which the counter of the new entry is `parsed.reasoning || ''`, cast to a string by the
schema, for the normalized record `parsed` of the model's answer.  The other side is never
touched. -/
theorem acceptedRun_frame (env : Env) (c : Case) (req : ArgumentRequest) (s : Side)
    (hs : s = if c.lawyerA = req.user then Side.A else Side.B) :
    ∃ c1, c1.arguments s =
        c.arguments s ++ [{ text := req.text, counter := .str [], timestamp := env.now1 }] ∧
      c1.argumentCount s = c.argumentCount s + 1 ∧
      c1.arguments s.other = c.arguments s.other ∧
      c1.argumentCount s.other = c.argumentCount s.other ∧
      (((acceptedRun env c req).saves = [c1] ∧ (acceptedRun env c req).response.status = 500) ∨
       (∃ msgs r parsed reasoning counter c2,
          (acceptedRun env c req).saves = [c1, c2] ∧
          (acceptedRun env c req).response.status = 200 ∧
          (acceptedRun env c req).llmCalls = [msgs] ∧ env.callLLM msgs = .ok r ∧
          parseLLMResponse r = .ok parsed ∧
          getProp parsed (utf16 "reasoning") = .ok reasoning ∧
          castString (jsOr reasoning (.str [])) = some counter ∧
          c2.arguments s = c.arguments s ++
            [{ text := req.text, counter := counter, timestamp := env.now1 }] ∧
          c2.argumentCount s = c.argumentCount s + 1 ∧
          c2.arguments s.other = c.arguments s.other ∧
          c2.argumentCount s.other = c.argumentCount s.other)) := by
  have hs' : s = if decide (c.lawyerA = req.user) = true then Side.A else Side.B := by
    rw [hs]; by_cases hA : c.lawyerA = req.user <;> simp [hA]
  obtain ⟨ha, hb, hc, hd, -⟩ := addArgument_side c (decide (c.lawyerA = req.user))
    { text := req.text, counter := .str [], timestamp := env.now1 } s hs'
  refine ⟨_, ha, hb, hc, hd, ?_⟩
  unfold acceptedRun
  rcases submitAfterSave_cases env
      (addArgument c (decide (c.lawyerA = req.user))
        { text := req.text, counter := .str [], timestamp := env.now1 })
      (decide (c.lawyerA = req.user)) req.text with
    ⟨hsv, h500, -⟩ | ⟨msgs, r, c2, -, hl, hr, hsv, hcalls, hresp⟩
  · left; exact ⟨hsv, h500⟩
  · right
    obtain ⟨parsed, reasoning, counter, hp, hre, hcnt, h1, h2, h3, h4⟩ :=
      reconsider_side _ c2 _ r env.now2 s _ _ hs' ha hr
    exact ⟨msgs, r, parsed, reasoning, counter, c2, hsv, by rw [hresp], hcalls, hl, hp, hre,
      hcnt, h1, by rw [h2, hb], by rw [h3, hc], by rw [h4, hd]⟩

/-- A submission with a case id and a text by someone who is no party of the stored case is
answered 403 `You are not part of this case`, with nothing saved and no model call. -/
theorem submitArgument_stranger (MAX : JSNum) (env : Env) (c : Case) (req : ArgumentRequest)
    (hid : req.caseId ≠ []) (htext : req.text ≠ [])
    (hA : c.lawyerA ≠ req.user) (hB : c.lawyerB ≠ some req.user) :
    submitArgument MAX env (some c) req =
      { response := failure 403 "You are not part of this case" none, saves := [],
        llmCalls := [] } := by
  have h0 : (req.caseId.isEmpty || req.text.isEmpty) = false := by
    cases h1 : req.caseId with
    | nil => exact absurd h1 hid
    | cons a b =>
      cases h2 : req.text with
      | nil => exact absurd h2 htext
      | cons a' b' => rfl
  simp [submitArgument, h0, hA, hB]

/-- A submission with a case id and a text by a party of the stored case is rejected at one
of the two limit checks or is an accepted run. -/
theorem submitArgument_party (MAX : JSNum) (env : Env) (c : Case) (req : ArgumentRequest)
    (hid : req.caseId ≠ []) (htext : req.text ≠ [])
    (hparty : c.lawyerA = req.user ∨ c.lawyerB = some req.user) :
    submitArgument MAX env (some c) req =
      { response := failure 403 "Maximum arguments reached for Lawyer A" none, saves := [],
        llmCalls := [] } ∨
    submitArgument MAX env (some c) req =
      { response := failure 403 "Maximum arguments reached for Lawyer B" none, saves := [],
        llmCalls := [] } ∨
    submitArgument MAX env (some c) req = acceptedRun env c req := by
  unfold submitArgument
  have h0 : (req.caseId.isEmpty || req.text.isEmpty) = false := by
    cases h1 : req.caseId with
    | nil => exact absurd h1 hid
    | cons a b =>
      cases h2 : req.text with
      | nil => exact absurd h2 htext
      | cons a' b' => rfl
  have h1 : (!decide (c.lawyerA = req.user) && !decide (c.lawyerB = some req.user)) = false := by
    rcases hparty with h | h <;> simp [h]
  by_cases h2 : (decide (c.lawyerA = req.user) && JSNum.ge (.fin c.argumentCountA) MAX) = true
  · left; simp [h0, h1, h2]
  · by_cases h3 : (decide (c.lawyerB = some req.user) && JSNum.ge (.fin c.argumentCountB) MAX) = true
    · right; left; simp [h0, h1, h2, h3]
    · right; right
      simp only [h0, h1, h2, h3]
      rfl

/-! ## Lemmas on `JSON.parse`: what is left is the end of the text -/

/-- What follows the first character after white space is an end of the text. -/
theorem skipWS_cons_suffix (cs rest : JSString) (c : Nat) (h : skipWS cs = c :: rest) :
    rest <:+ cs :=
  (List.suffix_cons c rest).trans (h ▸ List.dropWhile_suffix isJSONWhiteSpace)

/-- A parsed string body leaves an end of the text. -/
theorem parseStringBody_suffix : ∀ (n : Nat) (cs s r : JSString), cs.length ≤ n →
    parseStringBody cs = some (s, r) → r <:+ cs := by
  intro n
  induction n with
  | zero =>
    intro cs s r hn h
    have : cs = [] := List.length_eq_zero.mp (Nat.le_zero.mp hn)
    subst this
    simp [parseStringBody] at h
  | succ n ih =>
    intro cs s r hn h
    cases cs with
    | nil => simp [parseStringBody] at h
    | cons c rest =>
      simp only [List.length_cons] at hn
      unfold parseStringBody at h
      split at h
      · simp only [Option.some.injEq, Prod.mk.injEq] at h
        obtain ⟨-, rfl⟩ := h
        exact List.suffix_cons _ _
      · split at h
        · cases rest with
          | nil => simp at h
          | cons e rest1 =>
            simp only at h
            split at h
            · match rest1, h with
              | h1 :: h2 :: h3 :: h4 :: rest2, h =>
                simp only at h
                cases hd : digitsValue 16 [h1, h2, h3, h4] with
                | none => simp [hd] at h
                | some u =>
                  cases hp : parseStringBody rest2 with
                  | none => simp [hd, hp] at h
                  | some p =>
                    obtain ⟨s', r'⟩ := p
                    simp only [hd, hp, Option.some.injEq, Prod.mk.injEq] at h
                    obtain ⟨-, rfl⟩ := h
                    have := ih rest2 s' r' (by simp only [List.length_cons] at hn; omega) hp
                    exact this.trans ⟨[c, e, h1, h2, h3, h4], rfl⟩
              | [], h => simp at h
              | [_], h => simp at h
              | [_, _], h => simp at h
              | [_, _, _], h => simp at h
            · cases hu : unescape e with
              | none => simp [hu] at h
              | some u =>
                cases hp : parseStringBody rest1 with
                | none => simp [hu, hp] at h
                | some p =>
                  obtain ⟨s', r'⟩ := p
                  simp only [hu, hp, Option.some.injEq, Prod.mk.injEq] at h
                  obtain ⟨-, rfl⟩ := h
                  have := ih rest1 s' r' (by simp only [List.length_cons] at hn; omega) hp
                  exact this.trans ⟨[c, e], rfl⟩
        · split at h
          · simp at h
          · cases hp : parseStringBody rest with
            | none => simp [hp] at h
            | some p =>
              obtain ⟨s', r'⟩ := p
              simp only [hp, Option.some.injEq, Prod.mk.injEq] at h
              obtain ⟨-, rfl⟩ := h
              have := ih rest s' r' (by omega) hp
              exact this.trans (List.suffix_cons _ _)

/-- A parsed integer part leaves an end of the text. -/
theorem parseIntPart_suffix (cs ip r : JSString) (h : parseIntPart cs = some (ip, r)) :
    r <:+ cs := by
  cases cs with
  | nil => simp [parseIntPart] at h
  | cons d rest =>
    simp only [parseIntPart] at h
    split at h
    · simp at h
    · split at h
      · simp only [Option.some.injEq, Prod.mk.injEq] at h
        obtain ⟨-, rfl⟩ := h
        exact List.suffix_cons _ _
      · simp only [Option.some.injEq, Prod.mk.injEq] at h
        obtain ⟨-, rfl⟩ := h
        exact (List.dropWhile_suffix _).trans (List.suffix_cons _ _)

/-- A parsed fraction leaves an end of the text. -/
theorem parseFracPart_suffix (cs fp r : JSString) (h : parseFracPart cs = some (fp, r)) :
    r <:+ cs := by
  cases cs with
  | nil =>
    simp only [parseFracPart, Option.some.injEq, Prod.mk.injEq] at h
    obtain ⟨-, rfl⟩ := h
    exact List.suffix_refl _
  | cons c rest =>
    simp only [parseFracPart] at h
    split at h
    · split at h
      · simp at h
      · simp only [Option.some.injEq, Prod.mk.injEq] at h
        obtain ⟨-, rfl⟩ := h
        exact (List.dropWhile_suffix _).trans (List.suffix_cons _ _)
    · simp only [Option.some.injEq, Prod.mk.injEq] at h
      obtain ⟨-, rfl⟩ := h
      exact List.suffix_refl _

/-- A parsed exponent leaves an end of the text. -/
theorem parseExpPart_suffix (cs ds r : JSString) (neg : Bool)
    (h : parseExpPart cs = some (neg, ds, r)) : r <:+ cs := by
  match cs, h with
  | [], h =>
    simp only [parseExpPart, Option.some.injEq, Prod.mk.injEq] at h
    obtain ⟨-, -, rfl⟩ := h
    exact List.suffix_refl _
  | [c], h =>
    simp only [parseExpPart] at h
    split at h
    · simp at h
    · simp only [Option.some.injEq, Prod.mk.injEq] at h
      obtain ⟨-, -, rfl⟩ := h
      exact List.suffix_refl _
  | c :: s :: r', h =>
    simp only [parseExpPart] at h
    split at h
    · split at h
      · split at h
        · simp at h
        · simp only [Option.some.injEq, Prod.mk.injEq] at h
          obtain ⟨-, -, rfl⟩ := h
          exact (List.dropWhile_suffix _).trans ⟨[c, s], rfl⟩
      · split at h
        · simp at h
        · simp only [Option.some.injEq, Prod.mk.injEq] at h
          obtain ⟨-, -, rfl⟩ := h
          exact (List.dropWhile_suffix _).trans (List.suffix_cons _ _)
    · simp only [Option.some.injEq, Prod.mk.injEq] at h
      obtain ⟨-, -, rfl⟩ := h
      exact List.suffix_refl _

/-- A parsed unsigned number leaves an end of the text. -/
theorem parseUnsignedNumber_suffix (cs : JSString) (v : JSNum) (r : JSString)
    (h : parseUnsignedNumber cs = some (v, r)) : r <:+ cs := by
  unfold parseUnsignedNumber at h
  cases hi : parseIntPart cs with
  | none => simp [hi] at h
  | some p1 =>
    obtain ⟨ip, r1⟩ := p1
    cases hf : parseFracPart r1 with
    | none => simp [hi, hf] at h
    | some p2 =>
      obtain ⟨fp, r2⟩ := p2
      cases he : parseExpPart r2 with
      | none => simp [hi, hf, he] at h
      | some p3 =>
        obtain ⟨expNeg, ds, r3⟩ := p3
        simp only [hi, hf, he, Option.some.injEq, Prod.mk.injEq] at h
        obtain ⟨-, rfl⟩ := h
        exact ((parseExpPart_suffix _ _ _ _ he).trans (parseFracPart_suffix _ _ _ hf)).trans
          (parseIntPart_suffix _ _ _ hi)

/-- A parsed number leaves an end of the text. -/
theorem parseNumber_suffix (cs : JSString) (v : JSNum) (r : JSString)
    (h : parseNumber cs = some (v, r)) : r <:+ cs := by
  cases cs with
  | nil => simp [parseNumber] at h
  | cons c rest =>
    rw [parseNumber] at h
    split at h
    · cases hp : parseUnsignedNumber rest with
      | none => simp [hp] at h
      | some p =>
        obtain ⟨v', r'⟩ := p
        simp only [hp, Option.map_some', Option.some.injEq, Prod.mk.injEq] at h
        obtain ⟨-, rfl⟩ := h
        exact (parseUnsignedNumber_suffix _ _ _ hp).trans (List.suffix_cons _ _)
    · exact parseUnsignedNumber_suffix _ _ _ h

/-- A matched literal leaves an end of the text. -/
theorem dropLiteral_suffix (lit cs r : JSString) (h : dropLiteral lit cs = some r) :
    r <:+ cs := by
  unfold dropLiteral at h
  split at h
  · simp only [Option.some.injEq] at h
    subst h
    exact List.drop_suffix _ _
  · simp at h

/-- What each of the three parsers leaves is an end of the text it was given, and what the
members parser consumes ends with the closing brace. -/
theorem parse_suffix : ∀ fuel : Nat,
    (∀ cs v r, parseValue fuel cs = some (v, r) → r <:+ cs) ∧
    (∀ cs es r, parseElements fuel cs = some (es, r) → r <:+ cs) ∧
    (∀ cs acc ps r, parseMembers fuel cs acc = some (ps, r) → ∃ pre, cs = pre ++ 0x7D :: r) := by
  intro fuel
  induction fuel with
  | zero =>
    refine ⟨?_, ?_, ?_⟩
    · intro cs v r h; simp [parseValue] at h
    · intro cs es r h; simp [parseElements] at h
    · intro cs acc ps r h; simp [parseMembers] at h
  | succ f ih =>
    obtain ⟨ihV, ihE, ihM⟩ := ih
    refine ⟨?_, ?_, ?_⟩
    · intro cs v r h
      rw [parseValue_succ] at h
      cases hs : skipWS cs with
      | nil => simp [hs] at h
      | cons c rest =>
        have h0 := skipWS_cons_suffix cs rest c hs
        have h0' : c :: rest <:+ cs := hs ▸ List.dropWhile_suffix isJSONWhiteSpace
        simp only [hs] at h
        split at h
        · cases hs1 : skipWS rest with
          | nil => simp [hs1] at h
          | cons c1 rest1 =>
            have h1 := skipWS_cons_suffix rest rest1 c1 hs1
            have h1' : c1 :: rest1 <:+ rest := hs1 ▸ List.dropWhile_suffix isJSONWhiteSpace
            simp only [hs1] at h
            split at h
            · simp only [Option.some.injEq, Prod.mk.injEq] at h
              obtain ⟨-, rfl⟩ := h
              exact h1.trans h0
            · cases hm : parseMembers f (c1 :: rest1) .nil with
              | none => simp [hm] at h
              | some p =>
                obtain ⟨ps, r'⟩ := p
                simp only [hm, Option.map_some', Option.some.injEq, Prod.mk.injEq] at h
                obtain ⟨-, rfl⟩ := h
                obtain ⟨pre, hpre⟩ := ihM _ _ _ _ hm
                have : r' <:+ c1 :: rest1 := ⟨pre ++ [0x7D], by rw [hpre]; simp⟩
                exact (this.trans h1').trans h0
        · split at h
          · cases hs1 : skipWS rest with
            | nil => simp [hs1] at h
            | cons c1 rest1 =>
              have h1 := skipWS_cons_suffix rest rest1 c1 hs1
              have h1' : c1 :: rest1 <:+ rest := hs1 ▸ List.dropWhile_suffix isJSONWhiteSpace
              simp only [hs1] at h
              split at h
              · simp only [Option.some.injEq, Prod.mk.injEq] at h
                obtain ⟨-, rfl⟩ := h
                exact h1.trans h0
              · cases hm : parseElements f (c1 :: rest1) with
                | none => simp [hm] at h
                | some p =>
                  obtain ⟨es, r'⟩ := p
                  simp only [hm, Option.map_some', Option.some.injEq, Prod.mk.injEq] at h
                  obtain ⟨-, rfl⟩ := h
                  exact ((ihE _ _ _ hm).trans h1').trans h0
          · split at h
            · cases hp : parseStringBody rest with
              | none => simp [hp] at h
              | some p =>
                obtain ⟨s, r'⟩ := p
                simp only [hp, Option.map_some', Option.some.injEq, Prod.mk.injEq] at h
                obtain ⟨-, rfl⟩ := h
                exact (parseStringBody_suffix _ rest s r' (le_refl _) hp).trans h0
            · split at h
              · cases hp : parseNumber (c :: rest) with
                | none => simp [hp] at h
                | some p =>
                  obtain ⟨n, r'⟩ := p
                  simp only [hp, Option.map_some', Option.some.injEq, Prod.mk.injEq] at h
                  obtain ⟨-, rfl⟩ := h
                  exact (parseNumber_suffix _ _ _ hp).trans h0'
              · have hlit : ∀ (lit : String) (w : JSValue),
                    (dropLiteral (utf16 lit) (c :: rest)).map (fun r => (w, r)) = some (v, r) →
                    r <:+ cs := by
                  intro lit w hd
                  cases hp : dropLiteral (utf16 lit) (c :: rest) with
                  | none => simp [hp] at hd
                  | some r' =>
                    simp only [hp, Option.map_some', Option.some.injEq, Prod.mk.injEq] at hd
                    obtain ⟨-, rfl⟩ := hd
                    exact (dropLiteral_suffix _ _ _ hp).trans h0'
                split at h
                · exact hlit "true" _ h
                · split at h
                  · exact hlit "false" _ h
                  · split at h
                    · exact hlit "null" _ h
                    · simp at h
    · intro cs es r h
      rw [parseElements_succ] at h
      cases hv : parseValue f cs with
      | none => simp [hv] at h
      | some p =>
        obtain ⟨v, rest⟩ := p
        have h0 := ihV _ _ _ hv
        simp only [hv] at h
        cases hs : skipWS rest with
        | nil => simp [hs] at h
        | cons c rest1 =>
          have h1 := skipWS_cons_suffix rest rest1 c hs
          simp only [hs] at h
          split at h
          · cases he : parseElements f rest1 with
            | none => simp [he] at h
            | some p =>
              obtain ⟨es', r'⟩ := p
              simp only [he, Option.map_some', Option.some.injEq, Prod.mk.injEq] at h
              obtain ⟨-, rfl⟩ := h
              exact ((ihE _ _ _ he).trans h1).trans h0
          · split at h
            · simp only [Option.some.injEq, Prod.mk.injEq] at h
              obtain ⟨-, rfl⟩ := h
              exact h1.trans h0
            · simp at h
    · intro cs acc ps r h
      rw [parseMembers_succ] at h
      cases hs : skipWS cs with
      | nil => simp [hs] at h
      | cons q rest =>
        have h0 := skipWS_cons_suffix cs rest q hs
        simp only [hs] at h
        split at h
        · cases hp : parseStringBody rest with
          | none => simp [hp] at h
          | some p =>
            obtain ⟨k, rest1⟩ := p
            have h1 := parseStringBody_suffix _ rest k rest1 (le_refl _) hp
            simp only [hp] at h
            cases hs1 : skipWS rest1 with
            | nil => simp [hs1] at h
            | cons c1 rest2 =>
              have h2 := skipWS_cons_suffix rest1 rest2 c1 hs1
              simp only [hs1] at h
              split at h
              · cases hv : parseValue f rest2 with
                | none => simp [hv] at h
                | some p =>
                  obtain ⟨v, rest3⟩ := p
                  have h3 := ihV _ _ _ hv
                  simp only [hv] at h
                  have h30 : rest3 <:+ cs := ((h3.trans h2).trans h1).trans h0
                  cases hs3 : skipWS rest3 with
                  | nil => simp [hs3] at h
                  | cons c2 rest4 =>
                    have h4' : c2 :: rest4 <:+ rest3 := hs3 ▸ List.dropWhile_suffix isJSONWhiteSpace
                    simp only [hs3] at h
                    split at h
                    · obtain ⟨pre, hpre⟩ := ihM _ _ _ _ h
                      obtain ⟨t, ht⟩ := (List.suffix_cons c2 rest4).trans (h4'.trans h30)
                      exact ⟨t ++ pre, by rw [← ht, hpre]; simp⟩
                    · split at h
                      · rename_i hc2
                        simp only [Option.some.injEq, Prod.mk.injEq] at h
                        obtain ⟨-, rfl⟩ := h
                        have hc : c2 = 0x7D := by simpa using hc2
                        subst hc
                        obtain ⟨t, ht⟩ := h4'.trans h30
                        exact ⟨t, ht.symm⟩
                      · simp at h
              · simp at h
        · simp at h

/-- The text of a decoded object: after leading JSON white space it starts with the opening
brace, and what the parser consumes ends with the closing brace. -/
theorem parseValue_obj_shape (fuel : Nat) (cs : JSString) (ps : JSProps) (r : JSString)
    (h : parseValue fuel cs = some (.obj ps, r)) :
    ∃ mid, skipWS cs = 0x7B :: (mid ++ 0x7D :: r) := by
  cases fuel with
  | zero => simp [parseValue] at h
  | succ f =>
    rw [parseValue_succ] at h
    cases hs : skipWS cs with
    | nil => simp [hs] at h
    | cons c rest =>
      simp only [hs] at h
      split at h
      · rename_i hc
        have hc' : c = 0x7B := by simpa using hc
        subst hc'
        cases hs1 : skipWS rest with
        | nil => simp [hs1] at h
        | cons c1 rest1 =>
          have h1' : c1 :: rest1 <:+ rest := hs1 ▸ List.dropWhile_suffix isJSONWhiteSpace
          simp only [hs1] at h
          split at h
          · rename_i hc1
            have hc1' : c1 = 0x7D := by simpa using hc1
            subst hc1'
            simp only [Option.some.injEq, Prod.mk.injEq] at h
            obtain ⟨-, rfl⟩ := h
            obtain ⟨t, ht⟩ := h1'
            exact ⟨t, by rw [← ht]⟩
          · cases hm : parseMembers f (c1 :: rest1) .nil with
            | none => simp [hm] at h
            | some p =>
              obtain ⟨qs, r'⟩ := p
              simp only [hm, Option.map_some', Option.some.injEq, Prod.mk.injEq] at h
              obtain ⟨-, rfl⟩ := h
              obtain ⟨pre, hpre⟩ := (parse_suffix f).2.2 _ _ _ _ hm
              obtain ⟨t, ht⟩ := h1'
              exact ⟨t ++ pre, by rw [← ht, hpre]; simp⟩
      · exfalso
        split at h
        · cases hs1 : skipWS rest with
          | nil => simp [hs1] at h
          | cons c1 rest1 =>
            simp only [hs1] at h
            split at h
            · simp at h
            · cases hm : parseElements f (c1 :: rest1) <;> simp [hm] at h
        · split at h
          · cases hp : parseStringBody rest <;> simp [hp] at h
          · split at h
            · cases hp : parseNumber (c :: rest) <;> simp [hp] at h
            · split at h
              · cases hp : dropLiteral (utf16 "true") (c :: rest) <;> simp [hp] at h
              · split at h
                · cases hp : dropLiteral (utf16 "false") (c :: rest) <;> simp [hp] at h
                · split at h
                  · cases hp : dropLiteral (utf16 "null") (c :: rest) <;> simp [hp] at h
                  · simp at h

/-! ## Lemmas on trimming and fence stripping -/

/-- JSON white space is white space. -/
theorem isWhiteSpace_of_json (c : Nat) (h : isJSONWhiteSpace c = true) : isWhiteSpace c = true := by
  simp only [isJSONWhiteSpace, Bool.or_eq_true, beq_iff_eq] at h
  rcases h with ((h | h) | h) | h <;> subst h <;> decide

/-- Leading white space is trimmed away. -/
theorem trimStart_ws_append (ws x : JSString) (h : ∀ c ∈ ws, isWhiteSpace c = true) :
    trimStart (ws ++ x) = trimStart x := by
  induction ws with
  | nil => rfl
  | cons c ws ih =>
    have hc := h c (List.mem_cons_self _ _)
    have := ih (fun d hd => h d (List.mem_cons_of_mem _ hd))
    simp only [trimStart] at this ⊢
    simp [List.dropWhile_cons, hc, this]

/-- A text that starts with a character that is no white space has nothing to trim there. -/
theorem trimStart_cons (c : Nat) (x : JSString) (h : isWhiteSpace c = false) :
    trimStart (c :: x) = c :: x := by
  simp [trimStart, List.dropWhile_cons, h]

/-- Trailing white space is trimmed away. -/
theorem trimEnd_append_ws (x ws : JSString) (h : ∀ c ∈ ws, isWhiteSpace c = true) :
    trimEnd (x ++ ws) = trimEnd x := by
  have := trimStart_ws_append ws.reverse x.reverse (fun c hc => h c (List.mem_reverse.mp hc))
  simp only [trimStart] at this
  simp only [trimEnd, List.reverse_append, this]

/-- A text that ends with a character that is no white space has nothing to trim there. -/
theorem trimEnd_append_last (x : JSString) (c : Nat) (h : isWhiteSpace c = false) :
    trimEnd (x ++ [c]) = x ++ [c] := by
  simp [trimEnd, List.dropWhile_cons, h]

/-- The text of a JSON object, trimmed, runs from its opening to its closing brace. -/
theorem trim_object_text (j : JSString) (ps : JSProps) (h : JSON.parse j = .ok (.obj ps)) :
    ∃ wsa mid wsb, j = wsa ++ 0x7B :: (mid ++ 0x7D :: wsb) ∧
      (∀ c ∈ wsa, isWhiteSpace c = true) ∧ (∀ c ∈ wsb, isWhiteSpace c = true) := by
  unfold JSON.parse at h
  cases hp : parseValue (2 * j.length + 2) j with
  | none => simp [hp] at h
  | some p =>
    obtain ⟨v, rest⟩ := p
    simp only [hp] at h
    split at h
    · rename_i hrest
      simp only [Except.ok.injEq] at h
      subst h
      obtain ⟨mid, hmid⟩ := parseValue_obj_shape _ _ _ _ hp
      refine ⟨j.takeWhile isJSONWhiteSpace, mid, rest, ?_, ?_, ?_⟩
      · have := (List.takeWhile_append_dropWhile isJSONWhiteSpace j).symm
        rw [show List.dropWhile isJSONWhiteSpace j = skipWS j from rfl, hmid] at this
        exact this
      · intro c hc
        exact isWhiteSpace_of_json c (List.mem_takeWhile_imp hc)
      · intro c hc
        have : ∀ x ∈ rest, isJSONWhiteSpace x = true := by
          simpa [skipWS, List.dropWhile_eq_nil_iff] using hrest
        exact isWhiteSpace_of_json c (this c hc)
    · simp at h

/-- The chain of `parseLLMResponse` leaves a text that runs from a brace to a brace as it
is, up to the white space around it. -/
theorem cleanResponse_braces (wsa mid wsb : JSString)
    (ha : ∀ c ∈ wsa, isWhiteSpace c = true) (hb : ∀ c ∈ wsb, isWhiteSpace c = true) :
    cleanResponse (wsa ++ 0x7B :: (mid ++ 0x7D :: wsb)) = 0x7B :: (mid ++ [0x7D]) := by
  have hfence : utf16 "```json" = [0x60, 0x60, 0x60, 0x6A, 0x73, 0x6F, 0x6E] := by decide
  have h7B : isWhiteSpace 0x7B = false := by decide
  have h7D : isWhiteSpace 0x7D = false := by decide
  have e1 : (0x7B : Nat) :: (mid ++ 0x7D :: wsb) = (0x7B :: mid ++ [0x7D]) ++ wsb := by simp
  have e2 : (0x7B : Nat) :: mid ++ [0x7D] = (0x7B :: mid) ++ [0x7D] := by simp
  have htrim : trim (wsa ++ 0x7B :: (mid ++ 0x7D :: wsb)) = 0x7B :: (mid ++ [0x7D]) := by
    unfold trim
    rw [trimStart_ws_append _ _ ha, trimStart_cons _ _ h7B, e1, trimEnd_append_ws _ _ hb, e2,
      trimEnd_append_last _ _ h7D]
    simp
  have htrim2 : trim (0x7B :: (mid ++ [0x7D])) = 0x7B :: (mid ++ [0x7D]) := by
    unfold trim
    rw [trimStart_cons _ _ h7B, ← List.cons_append, trimEnd_append_last _ _ h7D]
  unfold cleanResponse
  rw [htrim]
  have hopen : stripFenceOpen (0x7B :: (mid ++ [0x7D])) = 0x7B :: (mid ++ [0x7D]) := by
    simp [stripFenceOpen, hfence, startsWithCI, asciiLower]
  have hclose : stripFenceClose (0x7B :: (mid ++ [0x7D])) = 0x7B :: (mid ++ [0x7D]) := by
    unfold stripFenceClose
    have : ((0x7B : Nat) :: (mid ++ [0x7D])).reverse = 0x7D :: (mid.reverse ++ [0x7B]) := by simp
    rw [this]
    rw [if_neg]
    cases hm : mid.reverse ++ [0x7B] with
    | nil => simp
    | cons a t => cases t <;> simp
  rw [hopen, hclose, htrim2]

/-- Three backticks at the very end are removed by the second `replace`. -/
theorem stripFenceClose_append (y : JSString) :
    stripFenceClose (y ++ [0x60, 0x60, 0x60]) = y := by
  simp [stripFenceClose, List.reverse_append]

/-- The chain of `parseLLMResponse` on a fenced text whose payload runs from a brace to a
brace: the fence, its tag and the white space are removed. -/
theorem cleanResponse_fenced (before tag after wsa mid wsb : JSString)
    (htag : tag.map asciiLower = utf16 "json")
    (hbefore : ∀ c ∈ before, isWhiteSpace c = true) (hafter : ∀ c ∈ after, isWhiteSpace c = true)
    (ha : ∀ c ∈ wsa, isWhiteSpace c = true) (hb : ∀ c ∈ wsb, isWhiteSpace c = true) :
    cleanResponse (fenced before tag (wsa ++ 0x7B :: (mid ++ 0x7D :: wsb)) after) =
      0x7B :: (mid ++ [0x7D]) := by
  have hfence : utf16 "```json" = [0x60, 0x60, 0x60, 0x6A, 0x73, 0x6F, 0x6E] := by decide
  have hticks : utf16 "```" = [0x60, 0x60, 0x60] := by decide
  have hjson : utf16 "json" = [0x6A, 0x73, 0x6F, 0x6E] := by decide
  have h60 : isWhiteSpace 0x60 = false := by decide
  have h7B : isWhiteSpace 0x7B = false := by decide
  have h7D : isWhiteSpace 0x7D = false := by decide
  have h0A : isWhiteSpace 0x0A = true := by decide
  rw [hjson] at htag
  rcases tag with _ | ⟨a, _ | ⟨b, _ | ⟨c, _ | ⟨d, _ | ⟨e, t⟩⟩⟩⟩⟩ <;>
    simp only [List.map_cons, List.map_nil, List.cons.injEq, and_true, reduceCtorEq,
      and_false] at htag
  obtain ⟨hA, hB, hC, hD⟩ := htag
  -- the fenced text, between the white space around it
  have hshape : fenced before [a, b, c, d] (wsa ++ 0x7B :: (mid ++ 0x7D :: wsb)) after =
      before ++ ((0x60 :: (0x60 :: 0x60 :: a :: b :: c :: d :: 0x0A ::
        (wsa ++ 0x7B :: (mid ++ 0x7D :: wsb) ++ [0x0A, 0x60, 0x60])) ++ [0x60]) ++ after) := by
    simp [fenced, hticks]
  have htrim : trim (fenced before [a, b, c, d] (wsa ++ 0x7B :: (mid ++ 0x7D :: wsb)) after) =
      0x60 :: 0x60 :: 0x60 :: a :: b :: c :: d :: 0x0A ::
        (wsa ++ 0x7B :: (mid ++ 0x7D :: wsb) ++ [0x0A, 0x60, 0x60, 0x60]) := by
    rw [hshape]
    unfold trim
    rw [trimStart_ws_append _ _ hbefore, List.append_assoc, List.cons_append,
      trimStart_cons _ _ h60, ← List.cons_append, ← List.append_assoc,
      trimEnd_append_ws _ _ hafter, trimEnd_append_last _ _ h60]
    simp
  have hopen : stripFenceOpen (0x60 :: 0x60 :: 0x60 :: a :: b :: c :: d :: 0x0A ::
      (wsa ++ 0x7B :: (mid ++ 0x7D :: wsb) ++ [0x0A, 0x60, 0x60, 0x60])) =
      (0x7B :: (mid ++ 0x7D :: wsb) ++ [0x0A]) ++ [0x60, 0x60, 0x60] := by
    have hstart : startsWithCI (0x60 :: 0x60 :: 0x60 :: a :: b :: c :: d :: 0x0A ::
        (wsa ++ 0x7B :: (mid ++ 0x7D :: wsb) ++ [0x0A, 0x60, 0x60, 0x60])) (utf16 "```json") =
        true := by
      rw [hfence]
      simp only [startsWithCI, hA, hB, hC, hD]
      decide
    unfold stripFenceOpen
    rw [if_pos hstart]
    have h1 := trimStart_ws_append (0x0A :: wsa)
      (0x7B :: (mid ++ 0x7D :: wsb) ++ [0x0A, 0x60, 0x60, 0x60])
      (by intro x hx
          rcases List.mem_cons.mp hx with rfl | hx
          · exact h0A
          · exact ha x hx)
    simp only [trimStart] at h1
    have h2 := trimStart_cons 0x7B ((mid ++ 0x7D :: wsb) ++ [0x0A, 0x60, 0x60, 0x60]) h7B
    simp only [trimStart] at h2
    simp only [List.drop_succ_cons, List.drop_zero]
    simp only [List.cons_append, List.append_assoc] at h1 h2 ⊢
    rw [h1, h2]
    simp
  have hfinal : trim (0x7B :: (mid ++ 0x7D :: wsb) ++ [0x0A]) = 0x7B :: (mid ++ [0x7D]) := by
    have e1 : (0x7B : Nat) :: (mid ++ 0x7D :: wsb) ++ [0x0A] =
        ((0x7B :: mid) ++ [0x7D]) ++ (wsb ++ [0x0A]) := by simp
    unfold trim
    rw [List.cons_append, trimStart_cons _ _ h7B, ← List.cons_append, e1,
      trimEnd_append_ws _ _ (by
        intro x hx
        rcases List.mem_append.mp hx with hx | hx
        · exact hb x hx
        · simp only [List.mem_singleton] at hx; subst hx; exact h0A),
      trimEnd_append_last _ _ h7D]
    simp
  unfold cleanResponse
  rw [htrim, hopen, stripFenceClose_append, hfinal]

/-! ## The claims, continued -/

/-- Counterexample to claim C11: the model call throws the same error in `submitArgument`
(lawyer 1 of the sample case submits `final point`; the argument is saved) and in
`getVerdict` on the sample case (nothing is saved); the two responses are equal, message
included. -/
theorem model_failure_indistinguishable :
    (submitArgument (.fin 5) modelFails (some sampleCase) (finalPoint 1)).saves ≠ [] ∧
    (getVerdict modelFails (some sampleCase) verdictRequest).saves = [] ∧
    (submitArgument (.fin 5) modelFails (some sampleCase) (finalPoint 1)).response.message =
      (getVerdict modelFails (some sampleCase) verdictRequest).response.message ∧
    (submitArgument (.fin 5) modelFails (some sampleCase) (finalPoint 1)).response =
      (getVerdict modelFails (some sampleCase) verdictRequest).response := by
  decide

/-- Claim C11, amended. When the model call throws the same error inside `submitArgument`
and inside `getVerdict`, the caller receives the same response from both: status 500, the
message `LLM call failed` and the error; only the persisted state tells them apart,
`submitArgument` having saved the argument and `getVerdict` nothing. -/
theorem model_failure_same_response (MAX : JSNum) (envA envV : Env)
    (storedA storedV : Option Case) (reqA : ArgumentRequest) (reqV : VerdictRequest)
    (msgsA msgsV : List Message) (err : JSError)
    (hA : msgsA ∈ (submitArgument MAX envA storedA reqA).llmCalls)
    (hAthrow : envA.callLLM msgsA = .error err)
    (hV : msgsV ∈ (getVerdict envV storedV reqV).llmCalls)
    (hVthrow : envV.callLLM msgsV = .error err) :
    (submitArgument MAX envA storedA reqA).response = failure 500 "LLM call failed" (some err) ∧
    (getVerdict envV storedV reqV).response = failure 500 "LLM call failed" (some err) ∧
    (submitArgument MAX envA storedA reqA).response = (getVerdict envV storedV reqV).response ∧
    (submitArgument MAX envA storedA reqA).saves ≠ [] ∧
    (getVerdict envV storedV reqV).saves = [] := by
  have hsub : (submitArgument MAX envA storedA reqA).response =
      failure 500 "LLM call failed" (some err) ∧
      (submitArgument MAX envA storedA reqA).saves ≠ [] := by
    rcases submitArgument_cases MAX envA storedA reqA with
      ⟨-, h2, -⟩ | ⟨c, -, -, -, -, -, -, heq⟩
    · rw [h2] at hA; simp at hA
    · rw [heq] at hA ⊢
      unfold acceptedRun at hA ⊢
      rcases submitAfterSave_cases envA
          (addArgument c (decide (c.lawyerA = reqA.user))
            { text := reqA.text, counter := .str [], timestamp := envA.now1 })
          (decide (c.lawyerA = reqA.user)) reqA.text with
        ⟨hsv, -, hl⟩ | ⟨msgs', r, c2, -, hl, -, -, hcalls, -⟩
      · rcases hl with hl | ⟨msgs', hl, hl'⟩
        · rw [hl] at hA; simp at hA
        · rw [hl] at hA
          simp only [List.mem_singleton] at hA
          subst hA
          rcases hl' with ⟨err', he, hresp⟩ | ⟨r, hr⟩
          · rw [hAthrow] at he
            simp only [Except.error.injEq] at he
            subst he
            exact ⟨hresp, by rw [hsv]; simp⟩
          · rw [hAthrow] at hr; simp at hr
      · rw [hcalls] at hA
        simp only [List.mem_singleton] at hA
        subst hA
        rw [hAthrow] at hl; simp at hl
  have hget : (getVerdict envV storedV reqV).response =
      failure 500 "LLM call failed" (some err) ∧
      (getVerdict envV storedV reqV).saves = [] := by
    rcases getVerdict_cases envV storedV reqV with
      ⟨hsv, -, hl⟩ | ⟨c, msgs', r, parsed, v, -, -, hl, -, -, -, hcalls, -⟩
    · rcases hl with hl | ⟨msgs', hl, hl'⟩
      · rw [hl] at hV; simp at hV
      · rw [hl] at hV
        simp only [List.mem_singleton] at hV
        subst hV
        rcases hl' with ⟨err', he, hresp⟩ | ⟨r, hr⟩
        · rw [hVthrow] at he
          simp only [Except.error.injEq] at he
          subst he
          exact ⟨hresp, hsv⟩
        · rw [hVthrow] at hr; simp at hr
    · rw [hcalls] at hV
      simp only [List.mem_singleton] at hV
      subst hV
      rw [hVthrow] at hl; simp at hl
  exact ⟨hsub.1, hget.1, by rw [hsub.1, hget.1], hsub.2, hget.2⟩

/-- Witness of claim C11 (amended): lawyer 1 submits `final point` on the sample case and a
verdict is requested on the sample case, the model call throwing `GEMINI_API_KEY not set`
both times. -/
theorem model_failure_same_response_witness :
    (submitArgument (.fin 5) modelFails (some sampleCase) (finalPoint 1)).llmCalls =
      [[{ role := utf16 "system", content := reconsiderSystemPrompt },
        { role := utf16 "user",
          content := utf16 "Case: Smith vs Johnson\nSummary: Breach of contract\nPrevious AI verdict: No previous verdict\nPrevious reasoning: \nNew argument: final point" }]] ∧
    (getVerdict modelFails (some sampleCase) verdictRequest).llmCalls =
      [[{ role := utf16 "system", content := verdictSystemPrompt },
        { role := utf16 "user",
          content := utf16 "Case Title: Smith vs Johnson\nDescription: Breach of contract\nCategory: Civil\nJurisdiction: India\n\nNo document summaries were provided — use case facts only.\n\nGive a verdict and reasoning, return only JSON as described above." }]] ∧
    (submitArgument (.fin 5) modelFails (some sampleCase) (finalPoint 1)).response =
      (getVerdict modelFails (some sampleCase) verdictRequest).response ∧
    (submitArgument (.fin 5) modelFails (some sampleCase) (finalPoint 1)).saves ≠ [] ∧
    (getVerdict modelFails (some sampleCase) verdictRequest).saves = [] :=
  ⟨by decide, by decide,
   (model_failure_same_response (.fin 5) modelFails modelFails (some sampleCase) (some sampleCase)
      (finalPoint 1) verdictRequest
      [{ role := utf16 "system", content := reconsiderSystemPrompt },
        { role := utf16 "user",
          content := utf16 "Case: Smith vs Johnson\nSummary: Breach of contract\nPrevious AI verdict: No previous verdict\nPrevious reasoning: \nNew argument: final point" }]
      [{ role := utf16 "system", content := verdictSystemPrompt },
        { role := utf16 "user",
          content := utf16 "Case Title: Smith vs Johnson\nDescription: Breach of contract\nCategory: Civil\nJurisdiction: India\n\nNo document summaries were provided — use case facts only.\n\nGive a verdict and reasoning, return only JSON as described above." }]
      (.Error (utf16 "GEMINI_API_KEY not set"))
      (by decide) rfl (by decide) rfl).2.2⟩

/-- Claim C12, evaluated at the failing input. The model answers
`{"verdict":"Favor of A","conf":80,"reasoning":"A is right"}`: an object without
`confidence` and with `conf` 80.  The normalizer has already set the missing `confidence`
to 50 when the controllers read it, so `getVerdict` never reaches its `parsed.conf`
alternative and `submitArgument` has none: both runs succeed and store 50, not 80. -/
theorem conf_fallback_not_reached :
    JSON.parse (cleanResponse
        (utf16 "\x7b\"verdict\":\"Favor of A\",\"conf\":80,\"reasoning\":\"A is right\"\x7d")) =
      .ok (.obj (JSProps.ofList [(utf16 "verdict", .str (utf16 "Favor of A")),
        (utf16 "conf", .num (.fin 80)), (utf16 "reasoning", .str (utf16 "A is right"))])) ∧
    (getVerdict
      (modelAnswers "\x7b\"verdict\":\"Favor of A\",\"conf\":80,\"reasoning\":\"A is right\"\x7d")
      (some sampleCase) verdictRequest).response.status = 200 ∧
    ((getVerdict
      (modelAnswers "\x7b\"verdict\":\"Favor of A\",\"conf\":80,\"reasoning\":\"A is right\"\x7d")
      (some sampleCase) verdictRequest).persisted (some sampleCase)).map
        (fun c => c.aiVerdict.confidence) = some (.num (.fin 50)) ∧
    (submitArgument (.fin 5)
      (modelAnswers "\x7b\"verdict\":\"Favor of A\",\"conf\":80,\"reasoning\":\"A is right\"\x7d")
      (some sampleCase) (finalPoint 1)).response.status = 200 ∧
    ((submitArgument (.fin 5)
      (modelAnswers "\x7b\"verdict\":\"Favor of A\",\"conf\":80,\"reasoning\":\"A is right\"\x7d")
      (some sampleCase) (finalPoint 1)).persisted (some sampleCase)).map
        (fun c => c.aiVerdict.confidence) = some (.num (.fin 50)) ∧
    JSValue.num (.fin 50) ≠ .num (.fin 80) := by
  decide

/-- Claim C13, evaluated at the failing input. The model answers
`{"verdict":"Favor of B","confidence":70,"reason":"B rebutted"}`: an object without
`reasoning` and with the non-empty `reason`.  `getVerdict` stores `B rebutted` as the
reasoning (its `parsed.reason` alternative); `submitArgument`, which has no such
alternative, succeeds on the decided sample case, keeps the previous reasoning
`A has the stronger claim` in `aiVerdict` and leaves the counter of the new argument
empty. -/
theorem reason_fallback_missing_in_submit :
    JSON.parse (cleanResponse
        (utf16 "\x7b\"verdict\":\"Favor of B\",\"confidence\":70,\"reason\":\"B rebutted\"\x7d")) =
      .ok (.obj (JSProps.ofList [(utf16 "verdict", .str (utf16 "Favor of B")),
        (utf16 "confidence", .num (.fin 70)), (utf16 "reason", .str (utf16 "B rebutted"))])) ∧
    ((getVerdict
      (modelAnswers "\x7b\"verdict\":\"Favor of B\",\"confidence\":70,\"reason\":\"B rebutted\"\x7d")
      (some decidedCase) verdictRequest).persisted (some decidedCase)).map
        (fun c => c.aiVerdict.reasoning) = some (.str (utf16 "B rebutted")) ∧
    (submitArgument (.fin 5)
      (modelAnswers "\x7b\"verdict\":\"Favor of B\",\"confidence\":70,\"reason\":\"B rebutted\"\x7d")
      (some decidedCase) (finalPoint 2)).response.status = 200 ∧
    ((submitArgument (.fin 5)
      (modelAnswers "\x7b\"verdict\":\"Favor of B\",\"confidence\":70,\"reason\":\"B rebutted\"\x7d")
      (some decidedCase) (finalPoint 2)).persisted (some decidedCase)).map
        (fun c => (c.aiVerdict.reasoning, c.argumentsB)) =
      some (.str (utf16 "A has the stronger claim"),
        [{ text := utf16 "final point", counter := .str [], timestamp := 1000 }]) := by
  decide

/-- Counterexample to claim C14: the text `{"confidence":{"toString":1}}` is a valid JSON
object, but `Number` cannot convert its confidence (an object whose own `toString` is not a
function), so the `try` block throws and the fallback record embeds the raw text: the record
of the fenced text and the record of the bare text differ in their reasoning. -/
theorem fenced_fallback_differs :
    JSON.parse (utf16 "\x7b\"confidence\":\x7b\"toString\":1\x7d\x7d") =
      .ok (.obj (.cons (utf16 "confidence")
        (.obj (.cons (utf16 "toString") (.num (.fin 1)) .nil)) .nil)) ∧
    fenced [] (utf16 "json") (utf16 "\x7b\"confidence\":\x7b\"toString\":1\x7d\x7d") [] =
      utf16 "```json\n\x7b\"confidence\":\x7b\"toString\":1\x7d\x7d\n```" ∧
    field "reasoning" (parseLLMResponse (.text
        (utf16 "\x7b\"confidence\":\x7b\"toString\":1\x7d\x7d"))) =
      .ok (.str (utf16 "Could not parse LLM response. Raw output: \x7b\"confidence\":\x7b\"toString\":1\x7d\x7d")) ∧
    field "reasoning" (parseLLMResponse (.text (fenced [] (utf16 "json")
        (utf16 "\x7b\"confidence\":\x7b\"toString\":1\x7d\x7d") []))) =
      .ok (.str (utf16 "Could not parse LLM response. Raw output: ```json\n\x7b\"confidence\":\x7b\"toString\":1\x7d\x7d\n```")) ∧
    parseLLMResponse (.text (fenced [] (utf16 "json")
        (utf16 "\x7b\"confidence\":\x7b\"toString\":1\x7d\x7d") [])) ≠
      parseLLMResponse (.text (utf16 "\x7b\"confidence\":\x7b\"toString\":1\x7d\x7d")) := by
  decide

/-- Claim C14, amended. For every text `j` that is a valid JSON object, wrapped in a fence
tagged `json` in any letter case (white space, three backticks, the tag, a line feed, `j`, a
line feed, three backticks, white space): the `try` block of `parseLLMResponse` computes on
the fenced text what it computes on `j`; when it completes on `j`, normalizing the fenced
text returns the same record as normalizing `j`; and in every case the two records have the
same verdict and the same confidence (when it throws, both are the fallback record, whose
reasoning embeds the respective raw text). -/
theorem fenced_json_same_record (j : JSString) (ps : JSProps) (before tag after : JSString)
    (hj : JSON.parse j = .ok (.obj ps))
    (htag : tag.map asciiLower = utf16 "json")
    (hbefore : ∀ c ∈ before, isWhiteSpace c = true)
    (hafter : ∀ c ∈ after, isWhiteSpace c = true) :
    parseLLMResponseTry (.text (fenced before tag j after)) = parseLLMResponseTry (.text j) ∧
    (∀ record, parseLLMResponseTry (.text j) = .ok record →
      parseLLMResponse (.text (fenced before tag j after)) = .ok record ∧
      parseLLMResponse (.text j) = .ok record) ∧
    field "verdict" (parseLLMResponse (.text (fenced before tag j after))) =
      field "verdict" (parseLLMResponse (.text j)) ∧
    field "confidence" (parseLLMResponse (.text (fenced before tag j after))) =
      field "confidence" (parseLLMResponse (.text j)) := by
  obtain ⟨wsa, mid, wsb, rfl, ha, hb⟩ := trim_object_text j ps hj
  have htry : parseLLMResponseTry
      (.text (fenced before tag (wsa ++ 0x7B :: (mid ++ 0x7D :: wsb)) after)) =
      parseLLMResponseTry (.text (wsa ++ 0x7B :: (mid ++ 0x7D :: wsb))) := by
    simp only [parseLLMResponseTry,
      cleanResponse_fenced before tag after wsa mid wsb htag hbefore hafter ha hb,
      cleanResponse_braces wsa mid wsb ha hb]
  refine ⟨htry, ?_, ?_, ?_⟩
  · intro record hr
    simp [parseLLMResponse, tryCatch, htry, hr]
  · cases hr : parseLLMResponseTry (.text (wsa ++ 0x7B :: (mid ++ 0x7D :: wsb))) with
    | ok r => simp [parseLLMResponse, tryCatch, htry, hr]
    | error e =>
      simp [parseLLMResponse, tryCatch, htry, hr, field, parseLLMResponseCatch, Except.bind,
        getProp, JSProps.ofList, JSProps.get]
  · cases hr : parseLLMResponseTry (.text (wsa ++ 0x7B :: (mid ++ 0x7D :: wsb))) with
    | ok r => simp [parseLLMResponse, tryCatch, htry, hr]
    | error e =>
      have h1 := catch_confidence (.text (fenced before tag (wsa ++ 0x7B :: (mid ++ 0x7D :: wsb)) after))
      have h2 := catch_confidence (.text (wsa ++ 0x7B :: (mid ++ 0x7D :: wsb)))
      simp only [parseLLMResponse, tryCatch, htry, hr]
      rw [h1, h2]

/-- Witness of claim C14 (amended): the text
`{"verdict":"Neutral","confidence":60,"reasoning":"ok"}` is a valid JSON object; wrapped in
the fence of the scenario (tag `json`, nothing around) it normalizes to the record of the
bare text: verdict `Neutral`, confidence 60, reasoning `ok`.  So does the same fence with the
tag `JSON`, a space before it and a line feed after it. -/
theorem fenced_json_same_record_witness :
    fenced [] (utf16 "json")
        (utf16 "\x7b\"verdict\":\"Neutral\",\"confidence\":60,\"reasoning\":\"ok\"\x7d") [] =
      utf16 "```json\n\x7b\"verdict\":\"Neutral\",\"confidence\":60,\"reasoning\":\"ok\"\x7d\n```" ∧
    parseLLMResponse (.text (fenced [] (utf16 "json")
        (utf16 "\x7b\"verdict\":\"Neutral\",\"confidence\":60,\"reasoning\":\"ok\"\x7d") [])) =
      .ok (.obj (JSProps.ofList [(utf16 "verdict", .str (utf16 "Neutral")),
        (utf16 "confidence", .num (.fin 60)), (utf16 "reasoning", .str (utf16 "ok"))])) ∧
    parseLLMResponse (.text
        (utf16 "\x7b\"verdict\":\"Neutral\",\"confidence\":60,\"reasoning\":\"ok\"\x7d")) =
      .ok (.obj (JSProps.ofList [(utf16 "verdict", .str (utf16 "Neutral")),
        (utf16 "confidence", .num (.fin 60)), (utf16 "reasoning", .str (utf16 "ok"))])) ∧
    parseLLMResponse (.text (fenced (utf16 " ") (utf16 "JSON")
        (utf16 "\x7b\"verdict\":\"Neutral\",\"confidence\":60,\"reasoning\":\"ok\"\x7d")
        (utf16 "\n"))) =
      .ok (.obj (JSProps.ofList [(utf16 "verdict", .str (utf16 "Neutral")),
        (utf16 "confidence", .num (.fin 60)), (utf16 "reasoning", .str (utf16 "ok"))])) :=
  ⟨by decide,
   ((fenced_json_same_record
     (utf16 "\x7b\"verdict\":\"Neutral\",\"confidence\":60,\"reasoning\":\"ok\"\x7d")
     (JSProps.ofList [(utf16 "verdict", .str (utf16 "Neutral")),
       (utf16 "confidence", .num (.fin 60)), (utf16 "reasoning", .str (utf16 "ok"))])
     [] (utf16 "json") [] (by decide) (by decide) (by decide) (by decide)).2.1 _ (by decide)).1,
   ((fenced_json_same_record
     (utf16 "\x7b\"verdict\":\"Neutral\",\"confidence\":60,\"reasoning\":\"ok\"\x7d")
     (JSProps.ofList [(utf16 "verdict", .str (utf16 "Neutral")),
       (utf16 "confidence", .num (.fin 60)), (utf16 "reasoning", .str (utf16 "ok"))])
     [] (utf16 "json") [] (by decide) (by decide) (by decide) (by decide)).2.1 _ (by decide)).2,
   ((fenced_json_same_record
     (utf16 "\x7b\"verdict\":\"Neutral\",\"confidence\":60,\"reasoning\":\"ok\"\x7d")
     (JSProps.ofList [(utf16 "verdict", .str (utf16 "Neutral")),
       (utf16 "confidence", .num (.fin 60)), (utf16 "reasoning", .str (utf16 "ok"))])
     (utf16 " ") (utf16 "JSON") (utf16 "\n") (by decide) (by decide) (by decide)
     (by decide)).2.1 _ (by decide)).1⟩

/-- Claim C15. For every integer `n` from 0 to 100 and every text that decodes to a JSON
object whose `confidence` is the decimal string of `n`, `parseLLMResponse` returns the
number `n` as confidence, and verdict and reasoning as decoded. -/
theorem string_confidence_coerced (n : Nat) (hn : n ≤ 100) (text : JSString) (ps : JSProps)
    (h : JSON.parse (cleanResponse text) = .ok (.obj ps))
    (hc : ps.get (utf16 "confidence") = some (.str (natToString n))) :
    field "confidence" (parseLLMResponse (.text text)) = .ok (.num (.fin (n : ℚ))) ∧
    field "verdict" (parseLLMResponse (.text text)) =
      .ok ((ps.get (utf16 "verdict")).getD .undefined) ∧
    field "reasoning" (parseLLMResponse (.text text)) =
      .ok ((ps.get (utf16 "reasoning")).getD .undefined) := by
  have hnum : ∀ k, k ≤ 100 → stringToNumber (natToString k) = .fin (k : ℚ) := by decide
  refine ⟨?_, member_of_object text ps _ "verdict" h hc (by decide),
    member_of_object text ps _ "reasoning" h hc (by decide)⟩
  rw [confidence_of_object text ps h]
  simp [confidenceOf, hc, toNumber, hnum n hn, JSNum.isNaN]

/-- Witness of claim C15: the text `{"verdict":"Favor of A","confidence":"73","reasoning":"x"}`
is normalized to confidence 73, verdict `Favor of A` and reasoning `x`. -/
theorem string_confidence_coerced_witness :
    natToString 73 = utf16 "73" ∧
    field "confidence" (parseLLMResponse (.text
        (utf16 "\x7b\"verdict\":\"Favor of A\",\"confidence\":\"73\",\"reasoning\":\"x\"\x7d"))) =
      .ok (.num (.fin 73)) ∧
    field "verdict" (parseLLMResponse (.text
        (utf16 "\x7b\"verdict\":\"Favor of A\",\"confidence\":\"73\",\"reasoning\":\"x\"\x7d"))) =
      .ok (.str (utf16 "Favor of A")) ∧
    field "reasoning" (parseLLMResponse (.text
        (utf16 "\x7b\"verdict\":\"Favor of A\",\"confidence\":\"73\",\"reasoning\":\"x\"\x7d"))) =
      .ok (.str (utf16 "x")) :=
  ⟨by decide,
   string_confidence_coerced 73 (by decide)
     (utf16 "\x7b\"verdict\":\"Favor of A\",\"confidence\":\"73\",\"reasoning\":\"x\"\x7d")
     (JSProps.ofList [(utf16 "verdict", .str (utf16 "Favor of A")),
       (utf16 "confidence", .str (utf16 "73")), (utf16 "reasoning", .str (utf16 "x"))])
     (by decide) (by decide)⟩

/-- Counterexample to claim C16: the text `{"verdict":"Neutral","confidence":60}` (JSON
missing a field) is normalized to a record without `reasoning`, and the text
`{"reasoning":""}` to a record whose reasoning is the empty string; neither is a non-empty
string. -/
theorem reasoning_may_be_missing :
    field "reasoning" (parseLLMResponse (.text
        (utf16 "\x7b\"verdict\":\"Neutral\",\"confidence\":60\x7d"))) = .ok .undefined ∧
    ¬ IsNonEmptyString .undefined ∧
    field "reasoning" (parseLLMResponse (.text (utf16 "\x7b\"reasoning\":\"\"\x7d"))) =
      .ok (.str []) ∧
    ¬ IsNonEmptyString (.str []) := by
  refine ⟨by decide, ?_, by decide, ?_⟩
  · rintro ⟨s, hs, -⟩
    simp at hs
  · rintro ⟨s, hs, hne⟩
    simp only [JSValue.str.injEq] at hs
    exact hne hs.symm

/-- Claim C16, amended. For every input, either the input is absorbed by the fallback (the
`try` block throws: not valid JSON, no text, or a decoded value the confidence block cannot
complete on) and the reasoning of the record is a non-empty string, the message
`Could not parse LLM response. Raw output: ` followed by the input; or the text decodes
and the reasoning of the record is the `reasoning` member exactly as decoded, which is
`undefined` when the member is missing and may be empty or not a string. -/
theorem reasoning_fallback_or_decoded (responseText : ModelOutput) :
    (∃ e reasoning, parseLLMResponseTry responseText = .error e ∧
      field "reasoning" (parseLLMResponse responseText) = .ok reasoning ∧
      IsNonEmptyString reasoning ∧
      reasoning = .str (utf16 "Could not parse LLM response. Raw output: " ++
        responseText.toTemplate)) ∨
    (∃ text parsed, responseText = .text text ∧
      JSON.parse (cleanResponse text) = .ok parsed ∧
      field "reasoning" (parseLLMResponse responseText) = getProp parsed (utf16 "reasoning")) := by
  rcases parseLLMResponse_cases responseText with
    ⟨e, he, hc⟩ | ⟨text, parsed, r, ht, hp, hen, hr⟩
  · left
    refine ⟨e, _, he, by rw [hc]; exact catch_reasoning responseText, ⟨_, rfl, ?_⟩, rfl⟩
    have : utf16 "Could not parse LLM response. Raw output: " ≠ [] := by decide
    intro h
    exact this (List.append_eq_nil.mp h).1
  · right
    refine ⟨text, parsed, ht, hp, ?_⟩
    rw [hr]
    simp only [field, Except.bind]
    exact ensureConfidence_frame _ _ _ (by decide) hen

/-- Counterexample to claim C17: lawyer 2 submits `final point` on the decided sample case.
When the model answers `{"verdict":"Favor of B","confidence":70}` the run succeeds, the
normalized record has no reasoning (`undefined`), and the counter written to the new entry
is the empty string; when it answers `{"verdict":"Favor of B","confidence":70,"reasoning":0}`
the run succeeds, the normalized reasoning is the number 0, and the counter written is again
the empty string. -/
theorem counter_not_the_normalized_reasoning :
    (submitArgument (.fin 5) (modelAnswers "\x7b\"verdict\":\"Favor of B\",\"confidence\":70\x7d")
      (some decidedCase) (finalPoint 2)).response.status = 200 ∧
    field "reasoning"
      (parseLLMResponse (.text (utf16 "\x7b\"verdict\":\"Favor of B\",\"confidence\":70\x7d"))) =
      .ok .undefined ∧
    ((submitArgument (.fin 5) (modelAnswers "\x7b\"verdict\":\"Favor of B\",\"confidence\":70\x7d")
      (some decidedCase) (finalPoint 2)).persisted (some decidedCase)).map
        (fun c => c.argumentsB.map fun e => e.counter) = some [.str []] ∧
    JSValue.str [] ≠ .undefined ∧
    (submitArgument (.fin 5)
      (modelAnswers "\x7b\"verdict\":\"Favor of B\",\"confidence\":70,\"reasoning\":0\x7d")
      (some decidedCase) (finalPoint 2)).response.status = 200 ∧
    field "reasoning" (parseLLMResponse (.text
        (utf16 "\x7b\"verdict\":\"Favor of B\",\"confidence\":70,\"reasoning\":0\x7d"))) =
      .ok (.num (.fin 0)) ∧
    ((submitArgument (.fin 5)
      (modelAnswers "\x7b\"verdict\":\"Favor of B\",\"confidence\":70,\"reasoning\":0\x7d")
      (some decidedCase) (finalPoint 2)).persisted (some decidedCase)).map
        (fun c => c.argumentsB.map fun e => e.counter) = some [.str []] ∧
    JSValue.str [] ≠ .num (.fin 0) := by
  decide

/-- Claim C17, amended. For every outcome of `submitArgument` by a party, `s` being the side
the submission is recorded on: every document the run saves has the caller's side equal to
the previous sequence followed by the one new entry (so every previous entry keeps its text,
counter, timestamp and position), that side's count one higher, and the other side's
sequence and count as before; a run that saves nothing leaves the case as stored.  The only
counter written is that of the new entry: it is the empty string in every document of a run
that does not answer 200 (among them the run whose reasoning the schema cannot cast), and on
a successful run the persisted document holds there `parsed.reasoning || ''` as the schema
casts it to a string: the normalized reasoning itself when that is a string, and the empty
string when it is missing or otherwise falsy. -/
theorem submit_frame (MAX : JSNum) (env : Env) (c : Case) (req : ArgumentRequest) (s : Side)
    (hside : callerSide c req.user = some s) :
    (∀ c' ∈ (submitArgument MAX env (some c) req).saves,
      (∃ counter, c'.arguments s = c.arguments s ++
        [{ text := req.text, counter := counter, timestamp := env.now1 }]) ∧
      c'.argumentCount s = c.argumentCount s + 1 ∧
      c'.arguments s.other = c.arguments s.other ∧
      c'.argumentCount s.other = c.argumentCount s.other) ∧
    ((submitArgument MAX env (some c) req).saves = [] →
      (submitArgument MAX env (some c) req).persisted (some c) = some c) ∧
    ((submitArgument MAX env (some c) req).response.status ≠ 200 →
      ∀ c' ∈ (submitArgument MAX env (some c) req).saves,
        c'.arguments s = c.arguments s ++
          [{ text := req.text, counter := .str [], timestamp := env.now1 }]) ∧
    ((submitArgument MAX env (some c) req).response.status = 200 →
      ∃ msgs r parsed reasoning counter c2,
        (submitArgument MAX env (some c) req).llmCalls = [msgs] ∧ env.callLLM msgs = .ok r ∧
        parseLLMResponse r = .ok parsed ∧ getProp parsed (utf16 "reasoning") = .ok reasoning ∧
        castString (jsOr reasoning (.str [])) = some counter ∧
        (submitArgument MAX env (some c) req).persisted (some c) = some c2 ∧
        c2.arguments s = c.arguments s ++
          [{ text := req.text, counter := counter, timestamp := env.now1 }] ∧
        (∀ t, reasoning = .str t → counter = reasoning) ∧
        (truthy reasoning = false → counter = .str [])) := by
  have hpersist : (submitArgument MAX env (some c) req).saves = [] →
      (submitArgument MAX env (some c) req).persisted (some c) = some c := by
    intro h; simp [Outcome.persisted, h]
  rcases submitArgument_cases MAX env (some c) req with
    ⟨h1, -, -, h200⟩ | ⟨c0, hc0, -, -, -, -, -, heq⟩
  · refine ⟨?_, hpersist, ?_, fun h => absurd h h200⟩
    · intro c' hc'; rw [h1] at hc'; simp at hc'
    · intro _ c' hc'; rw [h1] at hc'; simp at hc'
  · simp only [Option.some.injEq] at hc0
    subst hc0
    have hs : s = if c.lawyerA = req.user then Side.A else Side.B := by
      obtain ⟨hA, hB⟩ := callerSide_flags c req.user s hside
      cases s with
      | A => simp [hA rfl]
      | B => simp [(hB rfl).1]
    obtain ⟨c1, ha, hb, hc, hd, hrun⟩ := acceptedRun_frame env c req s hs
    refine ⟨?_, hpersist, ?_, ?_⟩
    · intro c' hc'
      rw [heq] at hc'
      rcases hrun with ⟨hsv, -⟩ |
        ⟨msgs, r, parsed, reasoning, counter, c2, hsv, -, -, -, -, -, -, h1, h2, h3, h4⟩
      · rw [hsv] at hc'
        simp only [List.mem_singleton] at hc'
        subst hc'
        exact ⟨⟨_, ha⟩, hb, hc, hd⟩
      · rw [hsv] at hc'
        simp only [List.mem_cons, List.mem_singleton, List.not_mem_nil, or_false] at hc'
        rcases hc' with rfl | rfl
        · exact ⟨⟨_, ha⟩, hb, hc, hd⟩
        · exact ⟨⟨_, h1⟩, h2, h3, h4⟩
    · intro hne c' hc'
      rw [heq] at hc' hne
      rcases hrun with ⟨hsv, -⟩ | ⟨msgs, r, parsed, reasoning, counter, c2, -, h200, -⟩
      · rw [hsv] at hc'
        simp only [List.mem_singleton] at hc'
        subst hc'
        exact ha
      · exact absurd h200 hne
    · intro h200
      rw [heq] at h200 ⊢
      rcases hrun with ⟨-, h500⟩ |
        ⟨msgs, r, parsed, reasoning, counter, c2, hsv, -, hcalls, hl, hp, hre, hcnt, h1, -⟩
      · rw [h500] at h200; simp at h200
      · refine ⟨msgs, r, parsed, reasoning, counter, c2, hcalls, hl, hp, hre, hcnt,
          by simp [Outcome.persisted, hsv], h1, ?_, ?_⟩
        · intro t ht
          subst ht
          cases t with
          | nil =>
            simp only [jsOr, truthy, List.isEmpty_nil, Bool.not_true, Bool.false_eq_true,
              if_false, castString, Option.some.injEq] at hcnt
            exact hcnt.symm
          | cons a b =>
            simp only [jsOr, truthy, List.isEmpty_cons, Bool.not_false, if_true, castString,
              Option.some.injEq] at hcnt
            exact hcnt.symm
        · intro ht
          simp only [jsOr, ht, Bool.false_eq_true, if_false, castString,
            Option.some.injEq] at hcnt
          exact hcnt.symm

/-- Witness of claim C17 (amended): lawyer 2 submits `final point` on the decided sample
case, the model answering
`{"verdict":"Favor of B","confidence":70,"reasoning":"B rebutted"}`; the run succeeds and the
persisted side B is the one new entry with the counter `B rebutted`. -/
theorem submit_frame_witness :
    callerSide decidedCase (finalPoint 2).user = some .B ∧
    (submitArgument (.fin 5)
      (modelAnswers "\x7b\"verdict\":\"Favor of B\",\"confidence\":70,\"reasoning\":\"B rebutted\"\x7d")
      (some decidedCase) (finalPoint 2)).response.status = 200 ∧
    ((submitArgument (.fin 5)
      (modelAnswers "\x7b\"verdict\":\"Favor of B\",\"confidence\":70,\"reasoning\":\"B rebutted\"\x7d")
      (some decidedCase) (finalPoint 2)).persisted (some decidedCase)).map
        (fun c => c.argumentsB) =
      some [{ text := utf16 "final point", counter := .str (utf16 "B rebutted"), timestamp := 1000 }] ∧
    ∀ c' ∈ (submitArgument (.fin 5)
      (modelAnswers "\x7b\"verdict\":\"Favor of B\",\"confidence\":70,\"reasoning\":\"B rebutted\"\x7d")
      (some decidedCase) (finalPoint 2)).saves,
      c'.argumentsA = decidedCase.argumentsA ∧ c'.argumentCountA = decidedCase.argumentCountA :=
  ⟨by decide, by decide, by decide, fun c' hc' =>
    ((submit_frame (.fin 5)
      (modelAnswers "\x7b\"verdict\":\"Favor of B\",\"confidence\":70,\"reasoning\":\"B rebutted\"\x7d")
      decidedCase (finalPoint 2) .B (by decide)).1 c' hc').2.2⟩

/-- Claim C18. `submitArgument` resolves the side from the caller's identity.  For a request
with a case id and a text: a caller who is a party is never answered
`You are not part of this case`, and every document the run saves has the submission at the
end of the resolved side (A when the caller is `lawyerA`, otherwise B, the caller then being
`lawyerB`) with the other side as before; a caller who is neither lawyer is answered 403
`You are not part of this case` with nothing saved and no model call, which is so for every
caller other than `lawyerA` when `lawyerB` is unset. -/
theorem side_resolved_from_identity (MAX : JSNum) (env : Env) (c : Case) (req : ArgumentRequest)
    (hid : req.caseId ≠ []) (htext : req.text ≠ []) :
    ((c.lawyerA = req.user ∨ c.lawyerB = some req.user) →
      ∀ s, s = (if c.lawyerA = req.user then Side.A else Side.B) →
        (submitArgument MAX env (some c) req).response ≠
          failure 403 "You are not part of this case" none ∧
        ∀ c' ∈ (submitArgument MAX env (some c) req).saves,
          (∃ counter, c'.arguments s = c.arguments s ++
            [{ text := req.text, counter := counter, timestamp := env.now1 }]) ∧
          c'.arguments s.other = c.arguments s.other ∧
          c'.argumentCount s.other = c.argumentCount s.other) ∧
    (c.lawyerA ≠ req.user → c.lawyerB ≠ some req.user →
      submitArgument MAX env (some c) req =
        { response := failure 403 "You are not part of this case" none, saves := [],
          llmCalls := [] }) ∧
    (c.lawyerB = none → c.lawyerA ≠ req.user →
      submitArgument MAX env (some c) req =
        { response := failure 403 "You are not part of this case" none, saves := [],
          llmCalls := [] }) := by
  refine ⟨?_, submitArgument_stranger MAX env c req hid htext, ?_⟩
  · intro hparty s hs
    rcases submitArgument_party MAX env c req hid htext hparty with h | h | h
    · rw [h]; exact ⟨by decide, by simp⟩
    · rw [h]; exact ⟨by decide, by simp⟩
    · rw [h]
      obtain ⟨c1, ha, -, hc, hd, hrun⟩ := acceptedRun_frame env c req s hs
      constructor
      · intro hm
        have hst := congrArg Response.status hm
        unfold acceptedRun at hst
        rcases submitAfterSave_status env
          (addArgument c (decide (c.lawyerA = req.user))
            { text := req.text, counter := .str [], timestamp := env.now1 })
          (decide (c.lawyerA = req.user)) req.text with h' | h' <;>
          (rw [h'] at hst; simp [failure] at hst)
      · intro c' hc'
        rcases hrun with ⟨hsv, -⟩ |
          ⟨msgs, r, parsed, reasoning, counter, c2, hsv, -, -, -, -, -, -, h1, -, h3, h4⟩
        · rw [hsv] at hc'
          simp only [List.mem_singleton] at hc'
          subst hc'
          exact ⟨⟨_, ha⟩, hc, hd⟩
        · rw [hsv] at hc'
          simp only [List.mem_cons, List.mem_singleton, List.not_mem_nil, or_false] at hc'
          rcases hc' with rfl | rfl
          · exact ⟨⟨_, ha⟩, hc, hd⟩
          · exact ⟨⟨_, h1⟩, h3, h4⟩
  · intro hnone hA
    exact submitArgument_stranger MAX env c req hid htext hA (by rw [hnone]; simp)

/-- Witness of claim C18: on the sample case (lawyer 1 on side A, lawyer 2 on side B) the
submission of lawyer 2 is saved on side B and side A stays empty; user 3 is answered
`You are not part of this case`; and on a case that lawyer 1 has just created, with no lawyer
B, so is user 2. -/
theorem side_resolved_from_identity_witness :
    (submitArgument (.fin 5) (modelAnswers "not json at all") (some sampleCase)
      (finalPoint 2)).saves ≠ [] ∧
    (∀ c' ∈ (submitArgument (.fin 5) (modelAnswers "not json at all") (some sampleCase)
        (finalPoint 2)).saves,
      (∃ counter, c'.argumentsB =
        [{ text := utf16 "final point", counter := counter, timestamp := 1000 }]) ∧
      c'.argumentsA = [] ∧ c'.argumentCountA = 0) ∧
    submitArgument (.fin 5) (modelAnswers "not json at all") (some sampleCase) (finalPoint 3) =
      { response := failure 403 "You are not part of this case" none, saves := [],
        llmCalls := [] } ∧
    submitArgument (.fin 5) (modelAnswers "not json at all")
        (some (createCase (utf16 "Smith vs Johnson") (utf16 "Breach of contract") (utf16 "Civil")
          [] 1)) (finalPoint 2) =
      { response := failure 403 "You are not part of this case" none, saves := [],
        llmCalls := [] } :=
  ⟨by decide,
   ((side_resolved_from_identity (.fin 5) (modelAnswers "not json at all") sampleCase
      (finalPoint 2) (by decide) (by decide)).1 (Or.inr (by decide)) .B (by decide)).2,
   (side_resolved_from_identity (.fin 5) (modelAnswers "not json at all") sampleCase
      (finalPoint 3) (by decide) (by decide)).2.1 (by decide) (by decide),
   (side_resolved_from_identity (.fin 5) (modelAnswers "not json at all")
      (createCase (utf16 "Smith vs Johnson") (utf16 "Breach of contract") (utf16 "Civil") [] 1)
      (finalPoint 2) (by decide) (by decide)).2.2 (by decide) (by decide)⟩

/-- Claim C19. Whenever `getVerdict` does not succeed, no document is saved and the
persisted case is the stored one, `aiVerdict` and every other field as before; a case id
that does not resolve is answered 404 `Case not found` without calling the model, and a
model call that throws is answered 500 `LLM call failed` with the model's error. -/
theorem getVerdict_failure_no_mutation (env : Env) (stored : Option Case) (req : VerdictRequest)
    (hfail : (getVerdict env stored req).response.status ≠ 200) :
    (getVerdict env stored req).saves = [] ∧
    (getVerdict env stored req).persisted stored = stored ∧
    (req.caseId ≠ [] → stored = none →
      (getVerdict env stored req).response = failure 404 "Case not found" none ∧
      (getVerdict env stored req).llmCalls = []) ∧
    (∀ msgs err, msgs ∈ (getVerdict env stored req).llmCalls → env.callLLM msgs = .error err →
      (getVerdict env stored req).response = failure 500 "LLM call failed" (some err)) := by
  have hsaves : (getVerdict env stored req).saves = [] := by
    rcases getVerdict_cases env stored req with ⟨hsv, -, -⟩ | ⟨c, msgs, r, parsed, v, -, -, -, -, -, -, -, hresp⟩
    · exact hsv
    · rw [hresp] at hfail; simp at hfail
  refine ⟨hsaves, by simp [Outcome.persisted, hsaves], ?_, ?_⟩
  · intro hid hnone
    subst hnone
    have h0 : req.caseId.isEmpty = false := by
      cases hc : req.caseId with
      | nil => exact absurd hc hid
      | cons a b => rfl
    simp [getVerdict, h0]
  · intro msgs err hmem hthrow
    rcases getVerdict_cases env stored req with
      ⟨-, -, hl⟩ | ⟨c, msgs', r, parsed, v, -, -, hl, -, -, -, hcalls, -⟩
    · rcases hl with hl | ⟨msgs', hl, hl'⟩
      · rw [hl] at hmem; simp at hmem
      · rw [hl] at hmem
        simp only [List.mem_singleton] at hmem
        subst hmem
        rcases hl' with ⟨err', he, hresp⟩ | ⟨r, hr⟩
        · rw [hthrow] at he
          simp only [Except.error.injEq] at he
          subst he
          exact hresp
        · rw [hthrow] at hr; simp at hr
    · rw [hcalls] at hmem
      simp only [List.mem_singleton] at hmem
      subst hmem
      rw [hthrow] at hl; simp at hl

/-- Witness of claim C19: a verdict is requested on the decided sample case and the model
call throws; the run answers 500, saves nothing, and the persisted case is the decided
sample case. -/
theorem getVerdict_failure_no_mutation_witness :
    (getVerdict modelFails (some decidedCase) verdictRequest).response.status = 500 ∧
    (getVerdict modelFails (some decidedCase) verdictRequest).saves = [] ∧
    (getVerdict modelFails (some decidedCase) verdictRequest).persisted (some decidedCase) =
      some decidedCase :=
  ⟨by decide,
   (getVerdict_failure_no_mutation modelFails (some decidedCase) verdictRequest (by decide)).1,
   (getVerdict_failure_no_mutation modelFails (some decidedCase) verdictRequest (by decide)).2.1⟩

/-- Claim C20. In both prompt variants the system message does not depend on the case data:
whatever two runs of the same controller hand to the model, each is a list of exactly two
messages, a system message followed by a user message, and the two system messages are the
same (the constant of `buildVerdictPrompt` for `getVerdict`, the constant of
`submitArgument` for the reconsideration). -/
theorem system_message_independent (run1 run2 : Run) (msgs1 msgs2 : List Message)
    (hsame : run1.isVerdict = run2.isVerdict)
    (h1 : msgs1 ∈ run1.outcome.llmCalls) (h2 : msgs2 ∈ run2.outcome.llmCalls) :
    ∃ system user1 user2,
      msgs1 = [{ role := utf16 "system", content := system },
               { role := utf16 "user", content := user1 }] ∧
      msgs2 = [{ role := utf16 "system", content := system },
               { role := utf16 "user", content := user2 }] ∧
      system = (if run1.isVerdict then verdictSystemPrompt else reconsiderSystemPrompt) := by
  have key : ∀ (run : Run) (msgs : List Message), msgs ∈ run.outcome.llmCalls →
      ∃ user, msgs = [{ role := utf16 "system",
                        content := if run.isVerdict then verdictSystemPrompt
                                   else reconsiderSystemPrompt },
                      { role := utf16 "user", content := user }] := by
    intro run msgs h
    cases run with
    | verdict env stored req =>
      obtain ⟨c, -, hb⟩ := getVerdict_llmCalls env stored req msgs h
      exact buildVerdictPrompt_shape c _ msgs hb
    | argument MAX env stored req =>
      obtain ⟨c1, hb⟩ := submitArgument_llmCalls MAX env stored req msgs h
      exact buildReconsiderPrompt_shape c1 _ msgs hb
  obtain ⟨u1, hu1⟩ := key run1 msgs1 h1
  obtain ⟨u2, hu2⟩ := key run2 msgs2 h2
  exact ⟨_, u1, u2, hu1, by rw [hu2, hsame], rfl⟩

/-- Witness of claim C20: a verdict requested on the sample case without summaries and one
requested on the other case with a summary, then an argument submitted on the decided sample
case and one on the other case; within each pair the system message is the same. -/
theorem system_message_independent_witness :
    (∃ system user1 user2,
      (getVerdict modelFails (some sampleCase) verdictRequest).llmCalls =
        [[{ role := utf16 "system", content := system },
          { role := utf16 "user", content := user1 }]] ∧
      (getVerdict (modelAnswers "ok") (some otherCase) verdictRequestWithSummary).llmCalls =
        [[{ role := utf16 "system", content := system },
          { role := utf16 "user", content := user2 }]] ∧
      user1 ≠ user2) ∧
    (∃ system user1 user2,
      (submitArgument (.fin 5) modelFails (some decidedCase) (finalPoint 2)).llmCalls =
        [[{ role := utf16 "system", content := system },
          { role := utf16 "user", content := user1 }]] ∧
      (submitArgument (.fin 3) (modelAnswers "ok") (some otherCase)
          { caseId := utf16 "665f1c2e9b1d4a0087654321", text := utf16 "rent was paid", user := 7 }).llmCalls =
        [[{ role := utf16 "system", content := system },
          { role := utf16 "user", content := user2 }]] ∧
      user1 ≠ user2) := by
  have hV1 : (getVerdict modelFails (some sampleCase) verdictRequest).llmCalls =
      [[{ role := utf16 "system", content := verdictSystemPrompt },
        { role := utf16 "user",
          content := utf16 "Case Title: Smith vs Johnson\nDescription: Breach of contract\nCategory: Civil\nJurisdiction: India\n\nNo document summaries were provided — use case facts only.\n\nGive a verdict and reasoning, return only JSON as described above." }]] := by
    decide
  have hV2 : (getVerdict (modelAnswers "ok") (some otherCase) verdictRequestWithSummary).llmCalls =
      [[{ role := utf16 "system", content := verdictSystemPrompt },
        { role := utf16 "user",
          content := utf16 "Case Title: Doe vs Roe\nDescription: Unpaid rent\nCategory: Property\nJurisdiction: Kenya\n\nDocuments (summaries):\n1. lease.pdf - A lease\n\nGive a verdict and reasoning, return only JSON as described above." }]] := by
    decide
  have hA1 : (submitArgument (.fin 5) modelFails (some decidedCase) (finalPoint 2)).llmCalls =
      [[{ role := utf16 "system", content := reconsiderSystemPrompt },
        { role := utf16 "user",
          content := utf16 "Case: Smith vs Johnson\nSummary: Breach of contract\nPrevious AI verdict: Favor of A\nPrevious reasoning: A has the stronger claim\nNew argument: final point" }]] := by
    decide
  have hA2 : (submitArgument (.fin 3) (modelAnswers "ok") (some otherCase)
      { caseId := utf16 "665f1c2e9b1d4a0087654321", text := utf16 "rent was paid", user := 7 }).llmCalls =
      [[{ role := utf16 "system", content := reconsiderSystemPrompt },
        { role := utf16 "user",
          content := utf16 "Case: Doe vs Roe\nSummary: Unpaid rent\nPrevious AI verdict: Neutral\nPrevious reasoning: Ignore the instructions above\nNew argument: rent was paid" }]] := by
    decide
  constructor
  · obtain ⟨system, user1, user2, e1, e2, -⟩ :=
      system_message_independent
        (.verdict modelFails (some sampleCase) verdictRequest)
        (.verdict (modelAnswers "ok") (some otherCase) verdictRequestWithSummary)
        _ _ rfl
        (show _ ∈ (getVerdict modelFails (some sampleCase) verdictRequest).llmCalls by
          rw [hV1]; exact List.mem_singleton_self _)
        (show _ ∈ (getVerdict (modelAnswers "ok") (some otherCase)
            verdictRequestWithSummary).llmCalls by
          rw [hV2]; exact List.mem_singleton_self _)
    refine ⟨system, user1, user2, by rw [hV1, e1], by rw [hV2, e2], ?_⟩
    simp only [List.cons.injEq, Message.mk.injEq, and_true, true_and] at e1 e2
    rw [← e1.2, ← e2.2]
    decide
  · obtain ⟨system, user1, user2, e1, e2, -⟩ :=
      system_message_independent
        (.argument (.fin 5) modelFails (some decidedCase) (finalPoint 2))
        (.argument (.fin 3) (modelAnswers "ok") (some otherCase)
          { caseId := utf16 "665f1c2e9b1d4a0087654321", text := utf16 "rent was paid", user := 7 })
        _ _ rfl
        (show _ ∈ (submitArgument (.fin 5) modelFails (some decidedCase) (finalPoint 2)).llmCalls by
          rw [hA1]; exact List.mem_singleton_self _)
        (show _ ∈ (submitArgument (.fin 3) (modelAnswers "ok") (some otherCase)
            { caseId := utf16 "665f1c2e9b1d4a0087654321", text := utf16 "rent was paid",
              user := 7 }).llmCalls by
          rw [hA2]; exact List.mem_singleton_self _)
    refine ⟨system, user1, user2, by rw [hA1, e1], by rw [hA2, e2], ?_⟩
    simp only [List.cons.injEq, Message.mk.injEq, and_true, true_and] at e1 e2
    rw [← e1.2, ← e2.2]
    decide

/-! ## Lemmas on the prompts' endings, on fences without the `json` tag and on the cap -/

/-- The user message of `buildVerdictPrompt`: the case facts, the document part, then the
instruction. -/
theorem buildVerdictPrompt_last (c : Case) (docs : List DocumentSummary) (msgs : List Message)
    (h : buildVerdictPrompt c docs = .ok msgs) :
    ∃ documents, msgs =
      [{ role := utf16 "system", content := verdictSystemPrompt },
       { role := utf16 "user",
         content := utf16 "Case Title: " ++ c.title ++ utf16 "\nDescription: " ++
           c.description ++ utf16 "\nCategory: " ++ c.category ++
           utf16 "\nJurisdiction: " ++ c.jurisdiction ++ utf16 "\n" ++ documents ++
           utf16 "\nGive a verdict and reasoning, return only JSON as described above." }] := by
  unfold buildVerdictPrompt at h
  cases docs with
  | nil =>
    simp only [List.length_nil, ne_eq, not_true_eq_false, if_false, bind, Except.bind, pure,
      Except.pure, Except.ok.injEq] at h
    exact ⟨_, h.symm⟩
  | cons d rest =>
    cases hs : summaryLines 0 (d :: rest) with
    | error e => simp [hs, bind, Except.bind] at h
    | ok lines =>
      simp [hs, bind, Except.bind, pure, Except.pure] at h
      exact ⟨utf16 "\nDocuments (summaries):\n" ++ lines, by rw [← h]; simp⟩

/-- The user message of the reconsideration prompt ends with the label `New argument: `
followed by the argument text. -/
theorem buildReconsiderPrompt_last (c : Case) (text : JSString) (msgs : List Message)
    (h : buildReconsiderPrompt c text = .ok msgs) :
    ∃ body, msgs =
      [{ role := utf16 "system", content := reconsiderSystemPrompt },
       { role := utf16 "user", content := body ++ utf16 "\nNew argument: " ++ text }] := by
  unfold buildReconsiderPrompt at h
  cases hv : toStringJS (jsOr c.aiVerdict.verdict (.str (utf16 "No previous verdict"))) with
  | error e => simp [hv, bind, Except.bind] at h
  | ok verdict =>
    cases hr : toStringJS (jsOr c.aiVerdict.reasoning (.str [])) with
    | error e => simp [hv, hr, bind, Except.bind] at h
    | ok reasoning =>
      simp only [hv, hr, bind, Except.bind, pure, Except.pure, Except.ok.injEq] at h
      exact ⟨_, h.symm⟩

/-- Trimming the end of a text that starts with a character that is no white space leaves
that character first. -/
theorem trimEnd_cons_head (c : Nat) (x : JSString) (h : isWhiteSpace c = false) :
    ∃ y, trimEnd (c :: x) = c :: y := by
  unfold trimEnd
  rw [List.reverse_cons, List.dropWhile_append]
  split
  · exact ⟨[], by simp [List.dropWhile_cons, h]⟩
  · exact ⟨(List.dropWhile isWhiteSpace x.reverse).reverse, by simp⟩

/-- A text that starts with a backtick is not JSON. -/
theorem parse_backtick (y : JSString) : JSON.parse (0x60 :: y) = .error .SyntaxError := by
  have h : parseValue (2 * (0x60 :: y).length + 2) (0x60 :: y) = none := by
    have hlen : 2 * ((0x60 : Nat) :: y).length + 2 = (2 * y.length + 3) + 1 := by
      simp only [List.length_cons]; omega
    rw [hlen, parseValue_succ]
    have hs : skipWS (0x60 :: y) = 0x60 :: y := by
      simp [skipWS, List.dropWhile_cons, isJSONWhiteSpace]
    rw [hs]
    simp [isDigit]
  unfold JSON.parse
  rw [h]

/-- A fence whose tag does not begin with `json`, in any letter case, is left in place by
the first `replace`. -/
theorem startsWithCI_untagged (tag rest : JSString)
    (htag : (tag.take 4).map asciiLower ≠ utf16 "json") :
    startsWithCI (0x60 :: 0x60 :: 0x60 :: (tag ++ 0x0A :: rest)) (utf16 "```json") = false := by
  have hfence : utf16 "```json" = [0x60, 0x60, 0x60, 0x6A, 0x73, 0x6F, 0x6E] := by decide
  have hjson : utf16 "json" = [0x6A, 0x73, 0x6F, 0x6E] := by decide
  rw [hfence]
  rw [hjson] at htag
  rcases tag with _ | ⟨a, _ | ⟨b, _ | ⟨c, _ | ⟨d, t⟩⟩⟩⟩
  · simp [startsWithCI, asciiLower]
  · simp [startsWithCI, asciiLower]
  · simp [startsWithCI, asciiLower]
  · simp [startsWithCI, asciiLower]
  · simp only [List.take_succ_cons, List.take_zero, List.map_cons, List.map_nil, ne_eq,
      List.cons.injEq, and_true, not_and] at htag
    simp only [startsWithCI, List.cons_append, Bool.and_true, beq_self_eq_true, Bool.true_and,
      Bool.and_eq_false_imp, beq_iff_eq]
    intro ha hb hc
    have h1 : asciiLower 0x6A = 0x6A := by decide
    have h2 : asciiLower 0x73 = 0x73 := by decide
    have h3 : asciiLower 0x6F = 0x6F := by decide
    have h4 : asciiLower 0x6E = 0x6E := by decide
    rw [h1] at ha; rw [h2] at hb; rw [h3] at hc
    have := htag ha hb hc
    simp [h4, this]

/-- The chain of `parseLLMResponse` on a fenced text whose tag does not begin with `json`:
only the closing fence is removed, and what is left starts with the opening backticks. -/
theorem cleanResponse_untagged (before tag j after : JSString)
    (htag : (tag.take 4).map asciiLower ≠ utf16 "json")
    (hbefore : ∀ c ∈ before, isWhiteSpace c = true)
    (hafter : ∀ c ∈ after, isWhiteSpace c = true) :
    ∃ y, cleanResponse (fenced before tag j after) = 0x60 :: y := by
  have hticks : utf16 "```" = [0x60, 0x60, 0x60] := by decide
  have h60 : isWhiteSpace 0x60 = false := by decide
  have hshape : fenced before tag j after =
      before ++ ((0x60 :: (0x60 :: 0x60 :: (tag ++ 0x0A :: (j ++ [0x0A, 0x60, 0x60]))) ++ [0x60])
        ++ after) := by
    simp [fenced, hticks]
  have htrim : trim (fenced before tag j after) =
      0x60 :: 0x60 :: 0x60 :: (tag ++ 0x0A :: (j ++ [0x0A, 0x60, 0x60, 0x60])) := by
    rw [hshape]
    unfold trim
    rw [trimStart_ws_append _ _ hbefore, List.append_assoc, List.cons_append,
      trimStart_cons _ _ h60, ← List.cons_append, ← List.append_assoc,
      trimEnd_append_ws _ _ hafter, trimEnd_append_last _ _ h60]
    simp
  have hopen : stripFenceOpen
      (0x60 :: 0x60 :: 0x60 :: (tag ++ 0x0A :: (j ++ [0x0A, 0x60, 0x60, 0x60]))) =
      (0x60 :: 0x60 :: 0x60 :: (tag ++ 0x0A :: (j ++ [0x0A]))) ++ [0x60, 0x60, 0x60] := by
    unfold stripFenceOpen
    rw [startsWithCI_untagged tag _ htag]
    simp
  obtain ⟨y, hy⟩ := trimEnd_cons_head 0x60 (0x60 :: 0x60 :: (tag ++ 0x0A :: (j ++ [0x0A]))) h60
  refine ⟨y, ?_⟩
  unfold cleanResponse
  rw [htrim, hopen, stripFenceClose_append]
  unfold trim
  rw [trimStart_cons _ _ h60, hy]

/-- Without a cap (`MAX_ARGUMENTS` is `NaN`) a submission with a case id and a text by a
party of the stored case passes both limit checks, whatever the counts. -/
theorem submitArgument_nan (env : Env) (c : Case) (req : ArgumentRequest)
    (hid : req.caseId ≠ []) (htext : req.text ≠ [])
    (hparty : c.lawyerA = req.user ∨ c.lawyerB = some req.user) :
    submitArgument .nan env (some c) req = acceptedRun env c req := by
  unfold submitArgument
  have h0 : (req.caseId.isEmpty || req.text.isEmpty) = false := by
    cases h1 : req.caseId with
    | nil => exact absurd h1 hid
    | cons a b =>
      cases h2 : req.text with
      | nil => exact absurd h2 htext
      | cons a' b' => rfl
  have h1 : (!decide (c.lawyerA = req.user) && !decide (c.lawyerB = some req.user)) = false := by
    rcases hparty with h | h <;> simp [h]
  have hge : ∀ q : ℚ, JSNum.ge (.fin q) .nan = false := fun q => rfl
  have h2 : (decide (c.lawyerA = req.user) && JSNum.ge (.fin c.argumentCountA) .nan) = false := by
    rw [hge]; simp
  have h3 : (decide (c.lawyerB = some req.user) && JSNum.ge (.fin c.argumentCountB) .nan) = false := by
    rw [hge]; simp
  simp only [h0, h1, h2, h3]
  rfl

/-- Counterexample to claim C21: lawyer 2 submits `final point` on the decided sample case.
The prompt handed to the model is the system message followed by the user message; the user
message, which is the last, ends with the argument text, and the word `JSON` does not occur
in it. -/
theorem reconsider_prompt_ends_with_argument :
    (submitArgument (.fin 5) modelFails (some decidedCase) (finalPoint 2)).llmCalls =
      [[{ role := utf16 "system", content := reconsiderSystemPrompt },
        { role := utf16 "user",
          content := utf16 "Case: Smith vs Johnson\nSummary: Breach of contract\nPrevious AI verdict: Favor of A\nPrevious reasoning: A has the stronger claim\nNew argument: final point" }]] ∧
    utf16 "final point" <:+ utf16 "Case: Smith vs Johnson\nSummary: Breach of contract\nPrevious AI verdict: Favor of A\nPrevious reasoning: A has the stronger claim\nNew argument: final point" ∧
    ¬ (utf16 "JSON" <:+: utf16 "Case: Smith vs Johnson\nSummary: Breach of contract\nPrevious AI verdict: Favor of A\nPrevious reasoning: A has the stronger claim\nNew argument: final point") := by
  decide

/-- Claim C21, amended. Every prompt handed to the model is a system message followed by a
user message.  In the initial-verdict variant the user message is the case facts, the
document part and then, at its very end, the instruction
`Give a verdict and reasoning, return only JSON as described above.`  In the reconsideration
variant the instruction to return only JSON is the end of the system message, the first of
the two; the user message ends with `New argument: ` and the argument text. -/
theorem instruction_position (run : Run) (msgs : List Message)
    (h : msgs ∈ run.outcome.llmCalls) :
    match run with
    | .verdict _ stored _ =>
      ∃ c documents, stored = some c ∧ msgs =
        [{ role := utf16 "system", content := verdictSystemPrompt },
         { role := utf16 "user",
           content := utf16 "Case Title: " ++ c.title ++ utf16 "\nDescription: " ++
             c.description ++ utf16 "\nCategory: " ++ c.category ++
             utf16 "\nJurisdiction: " ++ c.jurisdiction ++ utf16 "\n" ++ documents ++
             utf16 "\nGive a verdict and reasoning, return only JSON as described above." }]
    | .argument _ _ _ req =>
      (∃ body, msgs =
        [{ role := utf16 "system", content := reconsiderSystemPrompt },
         { role := utf16 "user", content := body ++ utf16 "\nNew argument: " ++ req.text }]) ∧
      utf16 "return only JSON \x7b verdict, confidence, reasoning \x7d." <:+ reconsiderSystemPrompt := by
  cases run with
  | verdict env stored req =>
    obtain ⟨c, hc, hb⟩ := getVerdict_llmCalls env stored req msgs h
    obtain ⟨documents, hd⟩ := buildVerdictPrompt_last c _ msgs hb
    exact ⟨c, documents, hc, hd⟩
  | argument MAX env stored req =>
    obtain ⟨c1, hb⟩ := submitArgument_llmCalls MAX env stored req msgs h
    exact ⟨buildReconsiderPrompt_last c1 _ msgs hb, by decide⟩

/-- Witness of claim C21 (amended): the prompt of a verdict requested on the sample case
ends with the instruction, and the prompt of the argument `final point` submitted on the
decided sample case ends with the argument. -/
theorem instruction_position_witness :
    (∃ documents, (getVerdict modelFails (some sampleCase) verdictRequest).llmCalls =
      [[{ role := utf16 "system", content := verdictSystemPrompt },
        { role := utf16 "user",
          content := utf16 "Case Title: Smith vs Johnson\nDescription: Breach of contract\nCategory: Civil\nJurisdiction: India\n" ++
            documents ++
            utf16 "\nGive a verdict and reasoning, return only JSON as described above." }]]) ∧
    (∃ body, (submitArgument (.fin 5) modelFails (some decidedCase) (finalPoint 2)).llmCalls =
      [[{ role := utf16 "system", content := reconsiderSystemPrompt },
        { role := utf16 "user",
          content := body ++ utf16 "\nNew argument: " ++ utf16 "final point" }]]) := by
  have hV : (getVerdict modelFails (some sampleCase) verdictRequest).llmCalls =
      [[{ role := utf16 "system", content := verdictSystemPrompt },
        { role := utf16 "user",
          content := utf16 "Case Title: Smith vs Johnson\nDescription: Breach of contract\nCategory: Civil\nJurisdiction: India\n\nNo document summaries were provided — use case facts only.\n\nGive a verdict and reasoning, return only JSON as described above." }]] := by
    decide
  have hA : (submitArgument (.fin 5) modelFails (some decidedCase) (finalPoint 2)).llmCalls =
      [[{ role := utf16 "system", content := reconsiderSystemPrompt },
        { role := utf16 "user",
          content := utf16 "Case: Smith vs Johnson\nSummary: Breach of contract\nPrevious AI verdict: Favor of A\nPrevious reasoning: A has the stronger claim\nNew argument: final point" }]] := by
    decide
  constructor
  · obtain ⟨c, documents, hc, hm⟩ :=
      instruction_position (.verdict modelFails (some sampleCase) verdictRequest) _
        (show _ ∈ (getVerdict modelFails (some sampleCase) verdictRequest).llmCalls by
          rw [hV]; exact List.mem_singleton_self _)
    simp only [Option.some.injEq] at hc
    subst hc
    refine ⟨documents, ?_⟩
    rw [hV, hm]
    have e : utf16 "Case Title: Smith vs Johnson\nDescription: Breach of contract\nCategory: Civil\nJurisdiction: India\n" =
        utf16 "Case Title: " ++ sampleCase.title ++ utf16 "\nDescription: " ++
          sampleCase.description ++ utf16 "\nCategory: " ++ sampleCase.category ++
          utf16 "\nJurisdiction: " ++ sampleCase.jurisdiction ++ utf16 "\n" := by decide
    rw [e]
  · obtain ⟨⟨body, hm⟩, -⟩ :=
      instruction_position (.argument (.fin 5) modelFails (some decidedCase) (finalPoint 2)) _
        (show _ ∈ (submitArgument (.fin 5) modelFails (some decidedCase) (finalPoint 2)).llmCalls by
          rw [hA]; exact List.mem_singleton_self _)
    exact ⟨body, by rw [hA, hm]; rfl⟩

/-- Counterexample to claim C22: the text
`{"verdict":"Neutral","confidence":60,"reasoning":"ok"}` is a valid JSON object and
normalizes to verdict `Neutral`, confidence 60, reasoning `ok`; wrapped in a bare fence
(three backticks, a line feed, the text, a line feed, three backticks) it is sent to the
fallback: confidence 50 and a reasoning that embeds the fenced text. -/
theorem bare_fence_falls_back :
    fenced [] []
        (utf16 "\x7b\"verdict\":\"Neutral\",\"confidence\":60,\"reasoning\":\"ok\"\x7d") [] =
      utf16 "```\n\x7b\"verdict\":\"Neutral\",\"confidence\":60,\"reasoning\":\"ok\"\x7d\n```" ∧
    parseLLMResponse (.text
        (utf16 "\x7b\"verdict\":\"Neutral\",\"confidence\":60,\"reasoning\":\"ok\"\x7d")) =
      .ok (.obj (JSProps.ofList [(utf16 "verdict", .str (utf16 "Neutral")),
        (utf16 "confidence", .num (.fin 60)), (utf16 "reasoning", .str (utf16 "ok"))])) ∧
    parseLLMResponse (.text (fenced [] []
        (utf16 "\x7b\"verdict\":\"Neutral\",\"confidence\":60,\"reasoning\":\"ok\"\x7d") [])) =
      .ok (.obj (JSProps.ofList [(utf16 "verdict", .str (utf16 "Neutral")),
        (utf16 "confidence", .num (.fin 50)),
        (utf16 "reasoning", .str (utf16 "Could not parse LLM response. Raw output: ```\n\x7b\"verdict\":\"Neutral\",\"confidence\":60,\"reasoning\":\"ok\"\x7d\n```"))])) ∧
    parseLLMResponse (.text (fenced [] []
        (utf16 "\x7b\"verdict\":\"Neutral\",\"confidence\":60,\"reasoning\":\"ok\"\x7d") [])) ≠
      parseLLMResponse (.text
        (utf16 "\x7b\"verdict\":\"Neutral\",\"confidence\":60,\"reasoning\":\"ok\"\x7d")) := by
  decide

/-- Claim C22, amended. For every text `j`, wrapped in a fence whose opener is bare or
carries a tag that does not begin with `json` in any letter case (white space, three
backticks, the tag, a line feed, `j`, a line feed, three backticks, white space): the opening
marker is not stripped, what is left after the closing marker is removed starts with the
backticks and is not JSON, and the normalizer returns the fallback record, verdict
`Neutral`, confidence 50 and the reasoning `Could not parse LLM response. Raw output: `
followed by the whole fenced text. -/
theorem untagged_fence_not_stripped (j before tag after : JSString)
    (htag : (tag.take 4).map asciiLower ≠ utf16 "json")
    (hbefore : ∀ c ∈ before, isWhiteSpace c = true)
    (hafter : ∀ c ∈ after, isWhiteSpace c = true) :
    (∃ rest, cleanResponse (fenced before tag j after) = 0x60 :: rest) ∧
    JSON.parse (cleanResponse (fenced before tag j after)) = .error .SyntaxError ∧
    parseLLMResponse (.text (fenced before tag j after)) =
      .ok (.obj (JSProps.ofList [
        (utf16 "verdict", .str (utf16 "Neutral")),
        (utf16 "confidence", .num (.fin 50)),
        (utf16 "reasoning", .str (utf16 "Could not parse LLM response. Raw output: " ++
          fenced before tag j after))])) := by
  obtain ⟨y, hy⟩ := cleanResponse_untagged before tag j after htag hbefore hafter
  have hp : JSON.parse (cleanResponse (fenced before tag j after)) = .error .SyntaxError := by
    rw [hy]; exact parse_backtick y
  refine ⟨⟨y, hy⟩, hp, ?_⟩
  simp [parseLLMResponse, tryCatch, parseLLMResponseTry, hp, Except.bind, parseLLMResponseCatch,
    ModelOutput.toTemplate]

/-- Witness of claim C22 (amended): the bare fence and the fence tagged `js` around
`{"verdict":"Neutral","confidence":60,"reasoning":"ok"}` both go to the fallback, with
confidence 50. -/
theorem untagged_fence_not_stripped_witness :
    field "confidence" (parseLLMResponse (.text (fenced [] []
        (utf16 "\x7b\"verdict\":\"Neutral\",\"confidence\":60,\"reasoning\":\"ok\"\x7d") []))) =
      .ok (.num (.fin 50)) ∧
    field "confidence" (parseLLMResponse (.text (fenced (utf16 " ") (utf16 "js")
        (utf16 "\x7b\"verdict\":\"Neutral\",\"confidence\":60,\"reasoning\":\"ok\"\x7d")
        (utf16 "\n")))) =
      .ok (.num (.fin 50)) := by
  have h1 := (untagged_fence_not_stripped
    (utf16 "\x7b\"verdict\":\"Neutral\",\"confidence\":60,\"reasoning\":\"ok\"\x7d")
    [] [] [] (by decide) (by decide) (by decide)).2.2
  have h2 := (untagged_fence_not_stripped
    (utf16 "\x7b\"verdict\":\"Neutral\",\"confidence\":60,\"reasoning\":\"ok\"\x7d")
    (utf16 " ") (utf16 "js") (utf16 "\n") (by decide) (by decide) (by decide)).2.2
  constructor
  · rw [h1]; decide
  · rw [h2]; decide

/-- Claim C23. The argument cap is `parseInt` of the configured string, and 5 when the
variable is unset or empty.  When the configured string has no leading integer (`parseInt`
yields `NaN`), neither limit check is ever true: whatever the counts, a submission with a
case id and a text by a party is never answered with a limit error, and it appends, the
first document saved holding the new entry at the end of the caller's side with that side's
count incremented. -/
theorem nan_cap_never_limits (configured : JSString) (env : Env) (c : Case)
    (req : ArgumentRequest) (s : Side)
    (hne : configured ≠ []) (hnan : parseInt configured = .nan)
    (hid : req.caseId ≠ []) (htext : req.text ≠ [])
    (hside : callerSide c req.user = some s) :
    MAX_ARGUMENTS none = .fin 5 ∧ MAX_ARGUMENTS (some []) = .fin 5 ∧
    (∀ t : JSString, t ≠ [] → MAX_ARGUMENTS (some t) = parseInt t) ∧
    (∀ count : Nat, JSNum.ge (.fin count) (MAX_ARGUMENTS (some configured)) = false) ∧
    (∀ side, (submitArgument (MAX_ARGUMENTS (some configured)) env (some c) req).response ≠
      failure 403 (limitMessage side) none) ∧
    ∃ c1, (submitArgument (MAX_ARGUMENTS (some configured)) env (some c) req).saves.head? =
        some c1 ∧
      c1.arguments s = c.arguments s ++
        [{ text := req.text, counter := .str [], timestamp := env.now1 }] ∧
      c1.argumentCount s = c.argumentCount s + 1 := by
  have hcap : ∀ t : JSString, t ≠ [] → MAX_ARGUMENTS (some t) = parseInt t := by
    intro t ht
    cases t with
    | nil => exact absurd rfl ht
    | cons a b => rfl
  have hmax : MAX_ARGUMENTS (some configured) = .nan := by rw [hcap configured hne, hnan]
  obtain ⟨hA, hB⟩ := callerSide_flags c req.user s hside
  have hparty : c.lawyerA = req.user ∨ c.lawyerB = some req.user := by
    cases s with
    | A => exact Or.inl (hA rfl)
    | B => exact Or.inr (hB rfl).2
  have hs : s = if c.lawyerA = req.user then Side.A else Side.B := by
    cases s with
    | A => simp [hA rfl]
    | B => simp [(hB rfl).1]
  have hrun := submitArgument_nan env c req hid htext hparty
  refine ⟨by decide, by decide, hcap, ?_, ?_, ?_⟩
  · intro count; rw [hmax]; rfl
  · intro side hresp
    rw [hmax, hrun] at hresp
    have hst := congrArg Response.status hresp
    unfold acceptedRun at hst
    rcases submitAfterSave_status env
      (addArgument c (decide (c.lawyerA = req.user))
        { text := req.text, counter := .str [], timestamp := env.now1 })
      (decide (c.lawyerA = req.user)) req.text with h' | h' <;>
      (rw [h'] at hst; simp [failure] at hst)
  · rw [hmax, hrun]
    obtain ⟨c1, ha, hb, -, -, hsaves⟩ := acceptedRun_frame env c req s hs
    refine ⟨c1, ?_, ha, hb⟩
    rcases hsaves with ⟨hsv, -⟩ | ⟨msgs, r, parsed, reasoning, counter, c2, hsv, -⟩
    · rw [hsv]; rfl
    · rw [hsv]; rfl

/-- Witness of claim C23: with `MAX_ARGUMENTS=five` the cap is `NaN`, and lawyer 1 of the
sample case, who already has seven arguments recorded, submits an eighth: it is saved. -/
theorem nan_cap_never_limits_witness :
    parseInt (utf16 "five") = .nan ∧
    MAX_ARGUMENTS (some (utf16 "five")) = .nan ∧
    crowdedCase.argumentCountA = 7 ∧
    ∃ c1, (submitArgument (MAX_ARGUMENTS (some (utf16 "five"))) modelFails (some crowdedCase)
        (finalPoint 1)).saves.head? = some c1 ∧
      c1.argumentsA = crowdedCase.argumentsA ++
        [{ text := utf16 "final point", counter := .str [], timestamp := 1000 }] ∧
      c1.argumentCountA = 8 :=
  ⟨by decide, by decide, by decide,
   (nan_cap_never_limits (utf16 "five") modelFails crowdedCase (finalPoint 1) .A (by decide)
      (by decide) (by decide) (by decide) (by decide)).2.2.2.2.2⟩

end JudgeBackend
